import Mathlib

/-!
Verification of fleet: cluster-state model, server supervisor, agent cache,
metrics and the `ssh` command of `fleetctl`.

A shallow embedding of `engine/state.go` (the in-memory cluster state of a
reconcile round), of the connect loop and the supervisor of
`server/server.go`, of `agent/cache.go`, of the collectors of
`metrics/metrics.go` and of the address lookups of `fleetctl/ssh.go`, with the
properties proved about them.

Conventions.

* A Go `map[string]V` is an association list `GoMap V`.  `mapGet` is the
  lookup `m[k]`, `mapSet` the assignment `m[k] = v`.  The order of the list
  stands for the order in which one `range` loop visits the map; statements
  quantify over all lists, hence over all iteration orders.
* Pointers to records are embedded by value; a write through a pointer that
  was read from a map is a `mapSet` at the key the pointer was read from.
* The read-write mutex of `clusterState` does not appear: every operation is
  embedded as one atomic function.
-/

set_option linter.dupNamespace false

namespace Fleet

/-! ## Go maps -/

/-- A Go `map[string]V`, as an association list. -/
abbrev GoMap (V : Type) := List (String × V)

/-- The lookup `m[k]` (with the `ok` flag as `Option`). -/
def mapGet {V : Type} : GoMap V → String → Option V
  | [], _ => none
  | (k', v) :: m, k => if k' = k then some v else mapGet m k

/-- The assignment `m[k] = v`. -/
def mapSet {V : Type} : GoMap V → String → V → GoMap V
  | [], k, v => [(k, v)]
  | (k', v') :: m, k, v => if k' = k then (k, v) :: m else (k', v') :: mapSet m k v

/-- The keys of a map, in iteration order. -/
def mapKeys {V : Type} (m : GoMap V) : List String := m.map Prod.fst

/-! ## Types of the packages `job`, `machine` and `agent` -/

/-- Modelled from the spec: `job.JobState` is declared outside the files at
hand; the target state of a unit is one of inactive, loaded, launched. -/
inductive JobState where
  | inactive
  | loaded
  | launched
deriving DecidableEq

/-- The constant `job.JobStateInactive`. -/
abbrev JobStateInactive : JobState := JobState.inactive

/-- Modelled from the spec: `unit.UnitFile` is declared outside the files at
hand; the contents of a unit are opaque text. -/
abbrev UnitFile := String

/-- Modelled from the spec: `job.Unit` is declared outside the files at hand;
its fields are the ones `clusterState.agents` writes. -/
structure Unit where
  Name : String
  Unit : UnitFile
  TargetState : JobState
  Weight : Int
deriving DecidableEq

/-- Modelled from the spec: `job.ScheduledUnit` is declared outside the files
at hand: the binding of a unit name to a machine ID (empty when unbound) and
the observed state. -/
structure ScheduledUnit where
  Name : String
  State : Option JobState
  TargetMachineID : String
deriving DecidableEq

/-- Modelled from the spec: `job.Job` is declared outside the files at hand;
its fields are the ones `newClusterState` writes. -/
structure Job where
  Name : String
  State : Option JobState
  TargetState : JobState
  TargetMachineID : String
  Unit : UnitFile
deriving DecidableEq

/-- Modelled from the spec: `machine.MachineState` is declared outside the
files at hand: a stable ID, a public address, key/value metadata and a
version. -/
structure MachineState where
  ID : String
  PublicIP : String
  Metadata : List (String × String)
  Version : String
deriving DecidableEq

/-- Modelled from the spec: `agent.AgentState` is declared outside the files
at hand: the machine state of an agent and the units placed on it, by name. -/
structure AgentState where
  MState : MachineState
  Units : GoMap Unit
deriving DecidableEq

/-- Modelled from the spec: `agent.NewAgentState` is outside the files at
hand: an agent on the given machine with no unit placed. -/
def NewAgentState (ms : MachineState) : AgentState :=
  { MState := ms, Units := [] }

/-- Modelled from the spec: the required-metadata constraint of a unit, a Go
`map[string]pkg.Set`, as the list of keys with their accepted values. -/
abbrev RequiredMetadata := List (String × List String)

/-- The functions of the packages `job`, `machine` and `path` that
`engine/state.go` calls and whose bodies are outside the files at hand, taken
as parameters. -/
structure Env where
  /-- The method `job.Unit.IsGlobal`. -/
  IsGlobal : Unit → Bool
  /-- The method `job.Unit.Conflicts`: the conflicts-with name patterns. -/
  Conflicts : Unit → List String
  /-- The method `job.Unit.RequiredTargetMetadata`. -/
  RequiredTargetMetadata : Unit → RequiredMetadata
  /-- The method `job.Job.Weight`. -/
  Weight : Job → Int
  /-- The function `machine.HasMetadata`. -/
  HasMetadata : MachineState → RequiredMetadata → Bool
  /-- The match of a name against a conflicts-with pattern. -/
  globMatches : String → String → Bool

/-- Modelled from the spec: `job.Job.Scheduled` is outside the files at hand;
a binding whose machine ID is empty is unbound. -/
def Job.Scheduled (j : Job) : Bool :=
  decide (j.TargetMachineID ≠ "")

/-- Modelled from the spec: `agent.AgentState.HasConflict` is outside the
files at hand.  A unit conflicts with a unit of another name already placed on
the agent when a conflicts-with pattern of either matches the name of the
other.  Only the flag is embedded: `clusterState.agents` discards the name of
the unit found. -/
def AgentState.HasConflict (env : Env) (a : AgentState) (pUnitName : String)
    (pConflicts : List String) : Bool :=
  a.Units.any fun e =>
    decide (pUnitName ≠ e.2.Name) &&
      (pConflicts.any (fun c => env.globMatches c e.2.Name) ||
        (env.Conflicts e.2).any (fun c => env.globMatches c pUnitName))

/-! ## `engine/state.go` -/

/-- The struct `clusterState` (without its mutex). -/
structure clusterState where
  jobs : GoMap Job
  gUnits : GoMap Unit
  machines : GoMap MachineState
deriving DecidableEq

/-- The job `newClusterState` builds for a non-global unit, given the map of
scheduled units. -/
def newJob (sUnitMap : GoMap ScheduledUnit) (u : Unit) : Job :=
  let j : Job :=
    { Name := u.Name, Unit := u.Unit, TargetState := u.TargetState,
      State := none, TargetMachineID := "" }
  match mapGet sUnitMap u.Name with
  | some sUnit => { j with TargetMachineID := sUnit.TargetMachineID, State := sUnit.State }
  | none => j

/-- One iteration of the loop of `newClusterState` over `units`. -/
def newClusterStateStep (env : Env) (sUnitMap : GoMap ScheduledUnit)
    (acc : GoMap Job × GoMap Unit) (u : Unit) : GoMap Job × GoMap Unit :=
  if env.IsGlobal u then
    (acc.1, mapSet acc.2 u.Name u)
  else
    let j := newJob sUnitMap u
    (mapSet acc.1 j.Name j, acc.2)

/-- The function `newClusterState`. -/
def newClusterState (env : Env) (units : List Unit) (sUnits : List ScheduledUnit)
    (machines : List MachineState) : clusterState :=
  let sUnitMap : GoMap ScheduledUnit :=
    sUnits.foldl (fun m sUnit => mapSet m sUnit.Name sUnit) []
  let jg := units.foldl (newClusterStateStep env sUnitMap) ([], [])
  let mMap : GoMap MachineState := machines.foldl (fun m ms => mapSet m ms.ID ms) []
  { jobs := jg.1, gUnits := jg.2, machines := mMap }

/-- One iteration of the loop of `agents` over `cs.jobs`. -/
def agentsJobStep (env : Env) (agents : GoMap AgentState) (j : Job) : GoMap AgentState :=
  if !j.Scheduled || j.TargetState == JobStateInactive then
    agents
  else
    match mapGet agents j.TargetMachineID with
    | some as =>
      let u : Unit :=
        { Name := j.Name, Unit := j.Unit, TargetState := j.TargetState, Weight := env.Weight j }
      mapSet agents j.TargetMachineID { as with Units := mapSet as.Units j.Name u }
    | none => agents

/-- The body of the inner loop of `agents` over the agents, for one global
unit and one agent. -/
def agentsGlobalPlace (env : Env) (gu : Unit) (a : AgentState) : AgentState :=
  if !env.HasMetadata a.MState (env.RequiredTargetMetadata gu) then
    a
  else if a.HasConflict env gu.Name (env.Conflicts gu) then
    a
  else
    { a with Units := mapSet a.Units gu.Name gu }

/-- One iteration of the loop of `agents` over `cs.gUnits`. -/
def agentsGlobalStep (env : Env) (agents : GoMap AgentState) (gu : Unit) : GoMap AgentState :=
  agents.map fun e => (e.1, agentsGlobalPlace env gu e.2)

/-- The agents before any unit is placed: the first loop of `agents`. -/
def agentsInit (cs : clusterState) : GoMap AgentState :=
  cs.machines.foldl (fun agents e => mapSet agents e.2.ID (NewAgentState e.2)) []

/-- The agents with the bound units placed: the first two loops of `agents`. -/
def agentsBound (env : Env) (cs : clusterState) : GoMap AgentState :=
  cs.jobs.foldl (fun agents e => agentsJobStep env agents e.2) (agentsInit cs)

/-- The method `clusterState.agents`. -/
def clusterState.agents (env : Env) (cs : clusterState) : GoMap AgentState :=
  cs.gUnits.foldl (fun agents e => agentsGlobalStep env agents e.2) (agentsBound env cs)

/-- The method `clusterState.schedule`. -/
def clusterState.schedule (cs : clusterState) (jobName targetMachineID : String) :
    clusterState :=
  match mapGet cs.jobs jobName with
  | none => cs
  | some j => { cs with jobs := mapSet cs.jobs jobName { j with TargetMachineID := targetMachineID } }

/-- The method `clusterState.unschedule`. -/
def clusterState.unschedule (cs : clusterState) (jobName : String) : clusterState :=
  match mapGet cs.jobs jobName with
  | none => cs
  | some j => { cs with jobs := mapSet cs.jobs jobName { j with TargetMachineID := "" } }

/-! ## Vocabulary of the statements -/

/-- The unit stored under `name` in the `Units` of the agent of machine `m`. -/
def unitAt (agents : GoMap AgentState) (m name : String) : Option Unit :=
  (mapGet agents m).bind fun a => mapGet a.Units name

/-- The name is a key of `agents[m].Units`. -/
def inUnits (agents : GoMap AgentState) (m name : String) : Prop :=
  (unitAt agents m name).isSome = true

instance (agents : GoMap AgentState) (m name : String) : Decidable (inUnits agents m name) :=
  inferInstanceAs (Decidable (_ = true))

/-- The unit that `agents` places on an agent for a bound job. -/
def unitOfJob (env : Env) (j : Job) : Unit :=
  { Name := j.Name, Unit := j.Unit, TargetState := j.TargetState, Weight := env.Weight j }

/-- The job passes the guard of the loop of `agents` over `cs.jobs`: it is
scheduled and its target state is not inactive. -/
def Job.placeable (j : Job) : Prop :=
  j.TargetMachineID ≠ "" ∧ j.TargetState ≠ JobStateInactive

instance (j : Job) : Decidable j.placeable :=
  inferInstanceAs (Decidable (_ ∧ _))

/-- The state holds the same three maps as `cs`, visited in another order. -/
def clusterState.Reordered (cs cs' : clusterState) : Prop :=
  cs'.jobs.Perm cs.jobs ∧ cs'.gUnits.Perm cs.gUnits ∧ cs'.machines.Perm cs.machines

/-- Well-formedness of a cluster state: in each of the three maps every record
is stored under its own name (or ID) and no key occurs twice. -/
structure clusterState.WF (cs : clusterState) : Prop where
  jobs_key : ∀ e ∈ cs.jobs, e.1 = e.2.Name
  jobs_nodup : (mapKeys cs.jobs).Nodup
  gUnits_key : ∀ e ∈ cs.gUnits, e.1 = e.2.Name
  gUnits_nodup : (mapKeys cs.gUnits).Nodup
  machines_key : ∀ e ∈ cs.machines, e.1 = e.2.ID
  machines_nodup : (mapKeys cs.machines).Nodup

/-- Unit names are unique in the state: no name is both the name of a job and
the name of a global unit. -/
def clusterState.UniqueNames (cs : clusterState) : Prop :=
  ∀ n, n ∈ mapKeys cs.jobs → n ∉ mapKeys cs.gUnits

instance (cs : clusterState) : Decidable cs.UniqueNames :=
  inferInstanceAs (Decidable (∀ n, n ∈ mapKeys cs.jobs → n ∉ mapKeys cs.gUnits))

/-- The scheduled record of a unit name: the record of that name in `sUnits`
(the last one, should the list hold several). -/
def scheduledRecord (sUnits : List ScheduledUnit) (name : String) : Option ScheduledUnit :=
  sUnits.reverse.find? fun s => decide (s.Name = name)

/-- What the loop of `agents` over `cs.jobs` does to the agent of machine `m`
in one iteration. -/
def agentJobStep (env : Env) (m : String) (a : AgentState) (j : Job) : AgentState :=
  if j.placeable ∧ j.TargetMachineID = m then
    { a with Units := mapSet a.Units j.Name (unitOfJob env j) }
  else a

/-- What the loop of `agents` over `cs.jobs` does to the agent of machine `m`. -/
def bindAll (env : Env) (m : String) (js : GoMap Job) (a : AgentState) : AgentState :=
  js.foldl (fun a e => agentJobStep env m a e.2) a

/-- What the loop of `agents` over `cs.gUnits` does to one agent. -/
def placeAll (env : Env) (gs : GoMap Unit) (a : AgentState) : AgentState :=
  gs.foldl (fun a e => agentsGlobalPlace env e.2 a) a

/-- The agent of a machine with the non-global units bound to it whose target
state is not inactive, the ones that `agents` places on it: the units of the
jobs whose `TargetMachineID` is the ID of the machine and whose target state
is not inactive, each under its name. -/
def activeBoundAgent (env : Env) (cs : clusterState) (ms : MachineState) : AgentState :=
  { MState := ms
    Units := (cs.jobs.filter fun e => decide (e.2.placeable ∧ e.2.TargetMachineID = ms.ID)).map
      fun e => (e.2.Name, unitOfJob env e.2) }

/-- The agent of a machine with all the non-global units bound to it: the
units of the jobs whose `TargetMachineID` is the ID of the machine, whatever
their target state, each under its name. -/
def allBoundAgent (env : Env) (cs : clusterState) (ms : MachineState) : AgentState :=
  { MState := ms
    Units := (cs.jobs.filter fun e => decide (e.2.TargetMachineID = ms.ID)).map
      fun e => (e.2.Name, unitOfJob env e.2) }

/-- The two units do not conflict: no conflicts-with pattern of one matches
the name of the other. -/
def noConflict (env : Env) (x g : Unit) : Prop :=
  (∀ c ∈ env.Conflicts g, env.globMatches c x.Name = false) ∧
    (∀ c ∈ env.Conflicts x, env.globMatches c g.Name = false)

instance (env : Env) (x g : Unit) : Decidable (noConflict env x g) :=
  inferInstanceAs (Decidable (_ ∧ _))

/-- No two global units of the state conflict with each other. -/
def clusterState.GlobalsCompatible (env : Env) (cs : clusterState) : Prop :=
  ∀ e₁ ∈ cs.gUnits, ∀ e₂ ∈ cs.gUnits, e₁.2.Name ≠ e₂.2.Name → noConflict env e₁.2 e₂.2

instance (env : Env) (cs : clusterState) : Decidable (cs.GlobalsCompatible env) :=
  inferInstanceAs (Decidable (∀ e₁ ∈ cs.gUnits, ∀ e₂ ∈ cs.gUnits,
    e₁.2.Name ≠ e₂.2.Name → noConflict env e₁.2 e₂.2))

/-- The global unit may be placed on the agent: the machine of the agent has
the metadata the unit requires and the unit has no conflict on the agent. -/
def placeableOn (env : Env) (a : AgentState) (g : Unit) : Prop :=
  env.HasMetadata a.MState (env.RequiredTargetMetadata g) = true ∧
    a.HasConflict env g.Name (env.Conflicts g) = false

instance (env : Env) (a : AgentState) (g : Unit) : Decidable (placeableOn env a g) :=
  inferInstanceAs (Decidable (_ ∧ _))

/-- The agent `a` is the agent `a₀` with global units of `G` added: same
machine, every unit of `a₀` still there, every other unit a unit of `G` under
its name. -/
structure GrownFrom (G : GoMap Unit) (a₀ a : AgentState) : Prop where
  mstate : a.MState = a₀.MState
  keep : ∀ e ∈ a₀.Units, e ∈ a.Units
  origin : ∀ e ∈ a.Units, e ∈ a₀.Units ∨ ∃ x ∈ G, e = (x.2.Name, x.2)

/-- No unit of the agent conflicts with a unit of another name of the agent
that satisfies `isG`. -/
def ConflictFree (env : Env) (isG : Unit → Prop) (a : AgentState) : Prop :=
  ∀ e ∈ a.Units, ∀ e' ∈ a.Units, isG e'.2 → e.2.Name ≠ e'.2.Name → noConflict env e.2 e'.2

/-! ## Sample data -/

/-- A sample instance of the outside functions: a unit is global when its
contents are the text `global`, it conflicts with the names listed in its
contents after `conflicts:`, patterns match by equality, and every machine has
the required metadata unless the unit requires `region=eu` and the machine is
not tagged so. -/
def sampleEnv : Env where
  IsGlobal u := decide (u.Unit = "global") || decide (u.Unit = "global conflicts:web.service")
  Conflicts u :=
    if u.Unit = "global conflicts:web.service" then ["web.service"]
    else if u.Unit = "conflicts:db.service" then ["db.service"]
    else []
  RequiredTargetMetadata u := if u.Unit = "region=eu" then [("region", ["eu"])] else []
  Weight _ := 1
  HasMetadata ms req :=
    req.all fun r => ms.Metadata.any fun kv => decide (kv.1 = r.1) && r.2.contains kv.2
  globMatches pattern name := decide (pattern = name)

/-- A non-global unit to launch. -/
def webUnit : Unit :=
  { Name := "web.service", Unit := "", TargetState := JobState.launched, Weight := 1 }

/-- A global unit without constraints. -/
def exporterUnit : Unit :=
  { Name := "node-exporter.service", Unit := "global", TargetState := JobState.launched,
    Weight := 1 }

/-- The binding of `web.service` to machine `m1`. -/
def webBinding : ScheduledUnit :=
  { Name := "web.service", State := none, TargetMachineID := "m1" }

/-- Machine `m1`. -/
def machine1 : MachineState :=
  { ID := "m1", PublicIP := "10.0.0.1", Metadata := [("region", "eu")], Version := "1" }

/-- Machine `m2`. -/
def machine2 : MachineState :=
  { ID := "m2", PublicIP := "10.0.0.2", Metadata := [("region", "us")], Version := "1" }

/-- The unit `web.service` with the target state inactive. -/
def idleWebUnit : Unit :=
  { Name := "web.service", Unit := "", TargetState := JobState.inactive, Weight := 1 }

/-- A global unit that conflicts with `web.service`. -/
def canaryUnit : Unit :=
  { Name := "canary.service", Unit := "global conflicts:web.service",
    TargetState := JobState.launched, Weight := 1 }

/-- A cluster state in which the inactive unit `web.service` is still bound to
`m1`, with the global unit `canary.service` that conflicts with it. -/
def idleBoundState : clusterState :=
  newClusterState sampleEnv [idleWebUnit, canaryUnit] [webBinding] [machine1]

/-- A second instance of the outside functions, as `sampleEnv` with one more
kind of global unit: a unit whose contents are `global region=eu` is global
and requires the metadata `region=eu`. -/
def placementEnv : Env where
  IsGlobal u :=
    decide (u.Unit = "global") || decide (u.Unit = "global conflicts:web.service") ||
      decide (u.Unit = "global region=eu")
  Conflicts u := if u.Unit = "global conflicts:web.service" then ["web.service"] else []
  RequiredTargetMetadata u :=
    if u.Unit = "global region=eu" then [("region", ["eu"])] else []
  Weight _ := 1
  HasMetadata ms req :=
    req.all fun r => ms.Metadata.any fun kv => decide (kv.1 = r.1) && r.2.contains kv.2
  globMatches pattern name := decide (pattern = name)

/-- A global unit that requires the metadata `region=eu`. -/
def euUnit : Unit :=
  { Name := "eu-proxy.service", Unit := "global region=eu", TargetState := JobState.launched,
    Weight := 1 }

/-- A cluster state with `web.service` bound to `m1` and three global units:
one without constraint, one that conflicts with `web.service`, one that
requires `region=eu`; `m1` is in `eu` and `m2` in `us`. -/
def placementState : clusterState :=
  newClusterState placementEnv [webUnit, exporterUnit, canaryUnit, euUnit] [webBinding]
    [machine1, machine2]

/-- The cluster state of the sample: one bound unit, one global unit, two
machines. -/
def sampleState : clusterState :=
  newClusterState sampleEnv [webUnit, exporterUnit] [webBinding] [machine1, machine2]

/-- A call of one of the two mutations of the cluster state. -/
inductive Op where
  | schedule (jobName targetMachineID : String)
  | unschedule (jobName : String)
deriving DecidableEq

/-- The state after one call. -/
def clusterState.apply (cs : clusterState) : Op → clusterState
  | Op.schedule n m => cs.schedule n m
  | Op.unschedule n => cs.unschedule n

/-- The state after a sequence of calls. -/
def clusterState.applyAll (cs : clusterState) (ops : List Op) : clusterState :=
  ops.foldl clusterState.apply cs

/-- The invariant of the data model on the jobs of a state: a job whose target
state is inactive has an empty `TargetMachineID`. -/
def clusterState.InactiveUnbound (cs : clusterState) : Prop :=
  ∀ e ∈ cs.jobs, e.2.TargetState = JobStateInactive → e.2.TargetMachineID = ""

instance (cs : clusterState) : Decidable cs.InactiveUnbound :=
  inferInstanceAs (Decidable (∀ e ∈ cs.jobs, _ → _))

/-- The call does not bind an inactive job: it is an `unschedule`, or a
`schedule` with an empty machine ID, or a `schedule` of a name whose job, if
any, is not inactive. -/
def Op.keepsInactiveUnbound (cs : clusterState) : Op → Prop
  | Op.schedule n m =>
    m = "" ∨ ∀ j, mapGet cs.jobs n = some j → j.TargetState ≠ JobStateInactive
  | Op.unschedule _ => True

/-- No call of the sequence binds an inactive job, each call taken in the
state the calls before it leave. -/
def clusterState.keepInactiveUnbound (cs : clusterState) : List Op → Prop
  | [] => True
  | op :: ops => op.keepsInactiveUnbound cs ∧ (cs.apply op).keepInactiveUnbound ops

/-- An inactive unit. -/
def idleUnit : Unit :=
  { Name := "idle.service", Unit := "", TargetState := JobState.inactive, Weight := 1 }

/-- A binding of `idle.service` to machine `m1`. -/
def idleBinding : ScheduledUnit :=
  { Name := "idle.service", State := none, TargetMachineID := "m1" }

/-! ## `server/server.go` -/

/-- A Go `time.Duration`: a number of nanoseconds.  Every duration of the
connect loop is at most two minutes, far below the range of the 64-bit
integer that holds it, so no arithmetic on durations wraps around. -/
abbrev Duration := Nat

/-- The constant `time.Second`. -/
def Second : Duration := 1000000000

/-- The constant `time.Minute`. -/
def Minute : Duration := 60 * Second

/-- The constant `shutdownTimeout`. -/
def shutdownTimeout : Duration := Minute

/-- Modelled from the spec: `pkg.ExpBackoff` is outside the files at hand;
the backoff doubles the interval and caps it at the maximum. -/
def ExpBackoff (interval max : Duration) : Duration :=
  if interval * 2 > max then max else interval * 2

/-- The components that `Server.Run` starts, each in its own goroutine. -/
inductive Component where
  | apiAvailable
  | machPeriodicRefresh
  | agentHeartbeat
  | aReconcilerRun
  | usGenRun
  | usPubRun
  | engineRun
deriving DecidableEq

/-- The calls and channel operations of `Server.Run` and `Server.Supervise`
that act outside the server struct, in the order in which one goroutine
performs them. -/
inductive Event where
  /-- The call `s.hrt.Beat(s.mon.TTL)`. -/
  | hrtBeat (ttl : Duration)
  /-- The call `s.hrt.Register(s.mon.TTL)`. -/
  | hrtRegister (ttl : Duration)
  /-- The call `s.eClient.Sync`. -/
  | eClientSync
  /-- The call `time.Sleep(sleep)`. -/
  | sleep (d : Duration)
  /-- The statement `go s.Supervise()`. -/
  | goSupervise
  /-- The start of a component in a goroutine. -/
  | goComponent (c : Component)
  /-- The return of `s.mon.Monitor`, with its first result. -/
  | monitorReturn (sd : Bool)
  /-- The statement `close(s.stopc)`. -/
  | closeStopc
  /-- The call `s.aReconciler.Purge(s.agent)`. -/
  | aReconcilerPurge
  /-- The receive from `done`: all components have finished. -/
  | waitDone
  /-- The receive from `time.After(shutdownTimeout)`. -/
  | waitTimeout (d : Duration)
  /-- The panic of the server. -/
  | panicked
  /-- The call `s.SetRestartServer(b)`. -/
  | setRestartServer (b : Bool)
  /-- The call `s.Run()`, with the value of `s.restartServer` at the call. -/
  | callRun (restartServer : Bool)
deriving DecidableEq

/-- The event is a call of the heart. -/
def Event.isHeart : Event → Bool
  | Event.hrtBeat _ => true
  | Event.hrtRegister _ => true
  | _ => false

/-- The duration of a sleep, for a sleep. -/
def Event.sleepOf : Event → Option Duration
  | Event.sleep d => some d
  | _ => none

/-- The fields of the struct `Server` that `Run` and `Supervise` read or
write; `monTTL` is `s.mon.TTL`. -/
structure Server where
  disableEngine : Bool
  restartServer : Bool
  monTTL : Duration
deriving DecidableEq

/-- The method `Server.SetRestartServer`. -/
def Server.SetRestartServer (s : Server) (isRestartServer : Bool) : Server :=
  { s with restartServer := isRestartServer }

/-- The connect loop of `Server.Run`, from attempt `k` on with the current
value of `sleep`: the events of the loop, in order, and whether the loop has
ended.  `heartOk k` tells whether the call of the heart of attempt `k` returns
no error.  The loop has no bound in the source: `fuel` bounds the number of
attempts here, and a loop still running when the fuel is spent gives its
events so far. -/
def Server.connect (s : Server) (heartOk : Nat → Bool) :
    Nat → Nat → Duration → List Event × Bool
  | 0, _, _ => ([], false)
  | fuel + 1, k, sleep =>
    if s.restartServer then
      if heartOk k then
        ([Event.hrtBeat s.monTTL], true)
      else
        let rest := Server.connect s heartOk fuel (k + 1) (ExpBackoff sleep Minute)
        (Event.hrtBeat s.monTTL :: Event.eClientSync :: Event.sleep sleep :: rest.1, rest.2)
    else
      if heartOk k then
        ([Event.hrtRegister s.monTTL], true)
      else
        let rest := Server.connect s heartOk fuel (k + 1) (ExpBackoff sleep Minute)
        (Event.hrtRegister s.monTTL :: Event.eClientSync :: Event.sleep sleep :: rest.1, rest.2)

/-- The list `components` of `Server.Run`. -/
def Server.components (s : Server) : List Component :=
  let components :=
    [Component.apiAvailable, Component.machPeriodicRefresh, Component.agentHeartbeat,
      Component.aReconcilerRun, Component.usGenRun, Component.usPubRun]
  if s.disableEngine then components else components ++ [Component.engineRun]

/-- The method `Server.Run`: the connect loop, then the start of the
supervisor and the start of the components; the events in order, and whether
the method has returned. -/
def Server.Run (s : Server) (heartOk : Nat → Bool) (fuel : Nat) : List Event × Bool :=
  let loop := s.connect heartOk fuel 0 Second
  if loop.2 then
    (loop.1 ++ [Event.goSupervise] ++ s.components.map Event.goComponent, true)
  else
    (loop.1, false)

/-- How a call of `Server.Supervise` stands: it has returned, it has ended in
the panic, or it is still in the connect loop of the restart. -/
inductive Outcome where
  | returned
  | panicked
  | running
deriving DecidableEq

/-- What a call of `Server.Supervise` leaves: the server struct, the events in
order, and how the call stands. -/
structure SuperviseResult where
  server : Server
  trace : List Event
  outcome : Outcome
deriving DecidableEq

/-- The method `Server.Supervise`.  `sd` is the first result of the monitor
(true on an operator kill, false on a health failure), `done` tells whether
the components finish before `shutdownTimeout`, and `heartOk` and `fuel` are
those of the `Run` that a restart calls. -/
def Server.Supervise (s : Server) (sd done : Bool) (heartOk : Nat → Bool) (fuel : Nat) :
    SuperviseResult :=
  let t₁ := [Event.monitorReturn sd, Event.closeStopc]
  let t₂ := if !sd then t₁ ++ [Event.aReconcilerPurge] else t₁
  if done then
    let t₃ := t₂ ++ [Event.waitDone]
    if !sd then
      let s₁ := s.SetRestartServer true
      let t₄ := t₃ ++ [Event.setRestartServer true, Event.callRun s₁.restartServer]
      let run := s₁.Run heartOk fuel
      if run.2 then
        { server := s₁.SetRestartServer false
          trace := t₄ ++ run.1 ++ [Event.setRestartServer false]
          outcome := Outcome.returned }
      else
        { server := s₁, trace := t₄ ++ run.1, outcome := Outcome.running }
    else
      { server := s, trace := t₃, outcome := Outcome.returned }
  else
    { server := s
      trace := t₂ ++ [Event.waitTimeout shutdownTimeout, Event.panicked]
      outcome := Outcome.panicked }

/-- The call of the heart that the connect loop makes at each attempt. -/
def Server.heartCall (s : Server) : Event :=
  if s.restartServer then Event.hrtBeat s.monTTL else Event.hrtRegister s.monTTL

/-- The events of `n` failed attempts of the connect loop, the first sleep
lasting `d`. -/
def failedTrace (call : Event) : Nat → Duration → List Event
  | 0, _ => []
  | n + 1, d =>
    call :: Event.eClientSync :: Event.sleep d :: failedTrace call n (ExpBackoff d Minute)

/-- The event is one that `Server.Run` performs. -/
def Event.ofRun : Event → Bool
  | Event.hrtBeat _ => true
  | Event.hrtRegister _ => true
  | Event.eClientSync => true
  | Event.sleep _ => true
  | Event.goSupervise => true
  | Event.goComponent _ => true
  | _ => false

/-- The wait after the `k`-th failed attempt, as the spec gives it: `2^k`
seconds, at most one minute. -/
def backoffAt (k : Nat) : Duration := min (2 ^ k * Second) Minute

/-- A server at its first start, with a TTL of thirty seconds. -/
def sampleServer : Server :=
  { disableEngine := false, restartServer := false, monTTL := 30 * Second }

/-- A heart whose first three calls fail. -/
def sampleHeart : Nat → Bool := fun k => decide (3 ≤ k)

/-- A heart whose every call succeeds. -/
def steadyHeart : Nat → Bool := fun _ => true

/-- A heart whose every call fails. -/
def deadHeart : Nat → Bool := fun _ => false

/-- In the trace both events occur and the first occurrence of `a` comes
before the first occurrence of `b`. -/
def precedes (t : List Event) (a b : Event) : Prop :=
  a ∈ t ∧ b ∈ t ∧ t.indexOf a < t.indexOf b

instance (t : List Event) (a b : Event) : Decidable (precedes t a b) :=
  inferInstanceAs (Decidable (_ ∧ _ ∧ _))

/-! ## `agent/cache.go` -/

/-- The statement `delete(m, k)` on a Go map. -/
def mapDelete {V : Type} (m : GoMap V) (k : String) : GoMap V :=
  m.filter fun e => decide (e.1 ≠ k)

/-- The constant `job.JobStateLoaded`. -/
abbrev JobStateLoaded : JobState := JobState.loaded

/-- The constant `job.JobStateLaunched`. -/
abbrev JobStateLaunched : JobState := JobState.launched

/-- The struct `agentCache` (without its mutex). -/
structure agentCache where
  jobs : GoMap JobState
deriving DecidableEq

/-- The function `newAgentCache`. -/
def newAgentCache : agentCache :=
  { jobs := [] }

/-- The method `agentCache.setTargetState`. -/
def agentCache.setTargetState (ac : agentCache) (jobName : String) (state : JobState) :
    agentCache :=
  { jobs := mapSet ac.jobs jobName state }

/-- The method `agentCache.dropTargetState`. -/
def agentCache.dropTargetState (ac : agentCache) (jobName : String) : agentCache :=
  { jobs := mapDelete ac.jobs jobName }

/-- The method `agentCache.launchedJobs`. -/
def agentCache.launchedJobs (ac : agentCache) : List String :=
  ac.jobs.foldl (fun jobs e => if e.2 = JobStateLaunched then jobs ++ [e.1] else jobs) []

/-- The method `agentCache.loadedJobs`. -/
def agentCache.loadedJobs (ac : agentCache) : List String :=
  ac.jobs.foldl (fun jobs e => if e.2 = JobStateLoaded then jobs ++ [e.1] else jobs) []

/-- A call of one of the two mutations of the agent cache. -/
inductive CacheOp where
  | setTargetState (jobName : String) (state : JobState)
  | dropTargetState (jobName : String)
deriving DecidableEq

/-- The job name of a call. -/
def CacheOp.jobName : CacheOp → String
  | CacheOp.setTargetState n _ => n
  | CacheOp.dropTargetState n => n

/-- The cache after one call. -/
def agentCache.apply (ac : agentCache) : CacheOp → agentCache
  | CacheOp.setTargetState n s => ac.setTargetState n s
  | CacheOp.dropTargetState n => ac.dropTargetState n

/-- The cache after a sequence of calls. -/
def agentCache.applyAll (ac : agentCache) (ops : List CacheOp) : agentCache :=
  ops.foldl agentCache.apply ac

/-- The most recent call of the sequence on the job name, if any. -/
def lastCall (ops : List CacheOp) (name : String) : Option CacheOp :=
  ops.reverse.find? fun op => decide (op.jobName = name)

/-- The state that the most recent call on the job name set, when that call
is a `setTargetState`: none when the name was never set or was dropped
since. -/
def targetOf (ops : List CacheOp) (name : String) : Option JobState :=
  match lastCall ops name with
  | some (CacheOp.setTargetState _ s) => some s
  | _ => none

/-- A sample sequence of calls on the agent cache. -/
def sampleCacheOps : List CacheOp :=
  [CacheOp.setTargetState "a.service" JobState.launched,
    CacheOp.setTargetState "b.service" JobState.loaded,
    CacheOp.setTargetState "c.service" JobState.launched,
    CacheOp.setTargetState "a.service" JobState.inactive,
    CacheOp.dropTargetState "b.service",
    CacheOp.setTargetState "d.service" JobState.loaded]

/-! ## `fleetctl/ssh.go` -/

/-- The function `strings.HasPrefix` of the Go library: the string starts with
the given one. -/
def stringsHasPrefix (s pre : String) : Bool :=
  pre.data.isPrefixOf s.data

/-- The function `strings.Contains` of the Go library: the given string occurs
in the string. -/
def stringsContains (s substr : String) : Bool :=
  decide (substr.data <:+: s.data)

/-- The function `strconv.Itoa` of the Go library: the decimal writing of an
integer. -/
def Itoa (i : Int) : String :=
  toString i

/-- The function `net.JoinHostPort` of the Go library: `host:port`, the host
between brackets when it holds a colon. -/
def JoinHostPort (host port : String) : String :=
  if stringsContains host ":" then "[" ++ host ++ "]:" ++ port else host ++ ":" ++ port

/-- A Go `error`: `none` is `nil`, `some msg` an error with its message. -/
abbrev GoError := Option String

/-- Modelled from the spec: `schema.Unit` is declared outside the files at
hand; the fields that `findAddressInRunningUnits` reads and passes on are the
name of the unit and the ID of the machine it runs on. -/
structure SchemaUnit where
  Name : String
  MachineID : String
deriving DecidableEq

/-- What `fleetctl/ssh.go` reads from outside: the results of the calls of the
API client `cAPI`, and the functions of the package whose bodies are outside
the files at hand, taken as parameters. -/
structure Client where
  /-- The result of `cAPI.Machines()`. -/
  Machines : Except String (List MachineState)
  /-- The result of `cAPI.Unit(name)`; `none` is a nil unit. -/
  Unit : String → Except String (Option SchemaUnit)
  /-- The function `unitNameMangle`. -/
  unitNameMangle : String → String
  /-- The function `suToGlobal`. -/
  suToGlobal : SchemaUnit → Bool
  /-- The function `cachedMachineState`; `none` is a nil machine state. -/
  cachedMachineState : String → Option MachineState

/-- The three results of `findAddressInMachineList` and of
`findAddressInRunningUnits`. -/
structure AddressResult where
  addr : String
  ok : Bool
  err : GoError
deriving DecidableEq

/-- The loop of `findAddressInMachineList` over the machine states, with the
current value of `match`, and the statements after it. -/
def findAddressLoop (lookup : String) : List MachineState → Option MachineState → AddressResult
  | [], none => { addr := "", ok := false, err := some "machine does not exist" }
  | [], some m => { addr := m.PublicIP, ok := true, err := none }
  | machState :: states, found =>
    if !stringsHasPrefix machState.ID lookup then
      findAddressLoop lookup states found
    else
      match found with
      | some _ => { addr := "", ok := false, err := some "found more than one machine" }
      | none => findAddressLoop lookup states (some machState)

/-- The function `findAddressInMachineList`. -/
def findAddressInMachineList (c : Client) (lookup : String) : AddressResult :=
  match c.Machines with
  | Except.error err => { addr := "", ok := false, err := some err }
  | Except.ok states => findAddressLoop lookup states none

/-- The function `findAddressInRunningUnits`. -/
def findAddressInRunningUnits (c : Client) (name : String) : AddressResult :=
  let name := c.unitNameMangle name
  match c.Unit name with
  | Except.error err => { addr := "", ok := false, err := some err }
  | Except.ok none => { addr := "", ok := false, err := some "unit does not exist" }
  | Except.ok (some u) =>
    if c.suToGlobal u then
      { addr := "", ok := false, err := some "global units unsupported" }
    else
      match c.cachedMachineState u.MachineID with
      | some m =>
        if m.PublicIP ≠ "" then { addr := m.PublicIP, ok := true, err := none }
        else { addr := "", ok := false, err := none }
      | none => { addr := "", ok := false, err := none }

/-- The message of the error of `globalMachineLookup` for an argument that is
both a machine and a unit. -/
def ambiguousArgument (lookup : String) : String :=
  "ambiguous argument, both machine and unit found for `" ++ lookup ++
    "`.\nPlease use flag `-m` or `-u` to refine the search"

/-- The function `globalMachineLookup`: the address and the error. -/
def globalMachineLookup (c : Client) (args : List String) : String × GoError :=
  match args with
  | [] => ("", some "one machine or unit must be provided")
  | lookup :: _ =>
    let machine := findAddressInMachineList c lookup
    let unit := findAddressInRunningUnits c lookup
    if machine.ok && unit.ok then
      ("", some (ambiguousArgument lookup))
    else if machine.ok then
      (machine.addr, none)
    else if unit.ok then
      (unit.addr, none)
    else
      ("", some "could not find matching unit or machine")

/-- The function `findSSHPort`; `SSHPort` is the value of the flag
`--ssh-port` that the command gives. -/
def findSSHPort (SSHPort : Int) (addr : String) : String :=
  if SSHPort ≠ 22 && !stringsContains addr ":" then
    JoinHostPort addr (Itoa SSHPort)
  else
    addr

/-- The machine states whose ID has the lookup as a prefix, in the order of
the list. -/
def machinesMatching (lookup : String) (states : List MachineState) : List MachineState :=
  states.filter fun m => stringsHasPrefix m.ID lookup

/-- The lookup matches the machine `m`: the call `cAPI.Machines()` succeeds
and `m` is the only machine of its list whose ID has the lookup as a prefix. -/
def matchesMachine (c : Client) (lookup : String) (m : MachineState) : Prop :=
  ∃ states, c.Machines = Except.ok states ∧ machinesMatching lookup states = [m]

/-- The lookup matches a running unit, on the machine `ms`: the call
`cAPI.Unit` on the mangled lookup succeeds with a unit, the unit is not global,
and the machine state cached for the machine ID of the unit is `ms`, with a
public IP that is not empty. -/
def matchesRunningUnit (c : Client) (lookup : String) (ms : MachineState) : Prop :=
  ∃ u, c.Unit (c.unitNameMangle lookup) = Except.ok (some u) ∧ c.suToGlobal u = false ∧
    c.cachedMachineState u.MachineID = some ms ∧ ms.PublicIP ≠ ""

/-- A machine whose ID `m10` extends the ID of `machine1`. -/
def machine10 : MachineState :=
  { ID := "m10", PublicIP := "10.0.0.10", Metadata := [], Version := "1" }

/-- A sample client: three machines, and the unit `web.service` running on
`m2`. -/
def sampleClient : Client where
  Machines := Except.ok [machine1, machine2, machine10]
  Unit name :=
    if name = "web.service" then Except.ok (some { Name := "web.service", MachineID := "m2" })
    else if name = "m2.service" then Except.ok (some { Name := "m2.service", MachineID := "m1" })
    else Except.ok none
  unitNameMangle name := if name = "m2" then "m2.service" else name
  suToGlobal _ := false
  cachedMachineState id :=
    if id = "m1" then some machine1 else if id = "m2" then some machine2 else none

/-! ## `metrics/metrics.go` -/

/-- The collectors that `metrics.go` declares. -/
inductive Collector where
  | leaderGauge
  | engineTaskCount
  | engineTaskFailureCount
  | engineReconcileCount
  | engineReconcileDuration
  | engineReconcileFailureCount
  | registryOpCount
  | registryOpDuration
  | registryOpFailureCount
  | isLeaderGauge
  | agentsGauge
  | agentLoadGauge
  | clusterJobsGauge
  | agentStateGauge
  | healthyGauge
deriving DecidableEq

/-- The function `init` of `metrics.go`: the collectors passed to
`prometheus.MustRegister`, in the order of the calls. -/
def metricsInit : List Collector :=
  [Collector.agentsGauge, Collector.agentStateGauge, Collector.agentLoadGauge,
    Collector.healthyGauge, Collector.clusterJobsGauge, Collector.isLeaderGauge,
    Collector.leaderGauge, Collector.engineTaskCount, Collector.engineTaskFailureCount,
    Collector.engineReconcileCount, Collector.engineReconcileFailureCount]

/-- The type `registryOp` with its three constants. -/
inductive registryOp where
  | Get
  | Set
  | GetAll
deriving DecidableEq

/-- The string of a `registryOp`. -/
def registryOp.toString : registryOp → String
  | registryOp.Get => "get"
  | registryOp.Set => "set"
  | registryOp.GetAll => "get_all"

/-- The type `engineFailure` with its three constants. -/
inductive engineFailure where
  | MachineAway
  | RunFailure
  | ScheduleFailure
deriving DecidableEq

/-- A call of one of the exported functions of `metrics.go`, with its
arguments; `epoch` is the value of `time.Now().Unix()` at a call of
`ReportEngineLeader`, and `elapsed` the value of `time.Since(start)` at a call
that takes a start time. -/
inductive MetricCall where
  | ReportHealth (healthy : Bool)
  | ResetAgentState
  | ReportAgentState (job dstate : String) (nominal : Bool)
  | ReportClusterJob (job mach_id : String) (scheduled : Bool)
  | ReportAvailableAgents (nbAgents : Int)
  | ResetAgents
  | ReportAgentLoad (mach_id : String) (load : Nat)
  | ReportIsEngineLeader
  | ReportIsNotEngineLeader
  | ReportEngineLeader (epoch : Int)
  | ReportEngineTask (task : String)
  | ReportEngineTaskFailure (task : String)
  | ReportEngineReconcileSuccess (elapsed : Duration)
  | ReportEngineReconcileFailure (reason : engineFailure)
  | ReportRegistryOpSuccess (op : registryOp) (elapsed : Duration)
  | ReportRegistryOpFailure (op : registryOp)
deriving DecidableEq

/-- The collectors on which the body of the function calls a method. -/
def MetricCall.collectors : MetricCall → List Collector
  | MetricCall.ReportHealth _ => [Collector.healthyGauge]
  | MetricCall.ResetAgentState => [Collector.agentStateGauge]
  | MetricCall.ReportAgentState _ _ _ => [Collector.agentStateGauge]
  | MetricCall.ReportClusterJob _ _ _ => [Collector.agentStateGauge, Collector.clusterJobsGauge]
  | MetricCall.ReportAvailableAgents _ => [Collector.agentsGauge]
  | MetricCall.ResetAgents => [Collector.agentLoadGauge]
  | MetricCall.ReportAgentLoad _ _ => [Collector.agentLoadGauge]
  | MetricCall.ReportIsEngineLeader => [Collector.isLeaderGauge]
  | MetricCall.ReportIsNotEngineLeader => [Collector.isLeaderGauge]
  | MetricCall.ReportEngineLeader _ => [Collector.leaderGauge]
  | MetricCall.ReportEngineTask _ => [Collector.engineTaskCount]
  | MetricCall.ReportEngineTaskFailure _ => [Collector.engineTaskFailureCount]
  | MetricCall.ReportEngineReconcileSuccess _ =>
    [Collector.engineReconcileCount, Collector.engineReconcileDuration]
  | MetricCall.ReportEngineReconcileFailure _ => [Collector.engineReconcileFailureCount]
  | MetricCall.ReportRegistryOpSuccess _ _ =>
    [Collector.registryOpCount, Collector.registryOpDuration]
  | MetricCall.ReportRegistryOpFailure _ => [Collector.registryOpFailureCount]

/-- The values of the four plain gauges of `metrics.go`.  A gauge holds a
64-bit float; every value that the functions give to these gauges is an
integer, and a 64-bit float holds every integer up to `2^53` in size exactly,
so the values are embedded as integers.  The labelled gauges, the counters and
the histograms are not part of this state: no statement reads them. -/
structure Gauges where
  leaderGauge : Int
  isLeaderGauge : Int
  agentsGauge : Int
  healthyGauge : Int
deriving DecidableEq

/-- The gauges when the process starts: a new gauge holds zero. -/
def newGauges : Gauges :=
  { leaderGauge := 0, isLeaderGauge := 0, agentsGauge := 0, healthyGauge := 0 }

/-- The plain gauges after a call of a function of `metrics.go`: `Set` gives
the gauge the value, `Add` adds the value to it. -/
def Gauges.apply (g : Gauges) : MetricCall → Gauges
  | MetricCall.ReportHealth healthy =>
    if healthy then { g with healthyGauge := 1 } else { g with healthyGauge := 0 }
  | MetricCall.ReportAvailableAgents nbAgents => { g with agentsGauge := nbAgents }
  | MetricCall.ReportIsEngineLeader => { g with isLeaderGauge := 1 }
  | MetricCall.ReportIsNotEngineLeader => { g with isLeaderGauge := 0 }
  | MetricCall.ReportEngineLeader epoch => { g with leaderGauge := g.leaderGauge + epoch }
  | _ => g

/-- The plain gauges after a sequence of calls. -/
def Gauges.applyAll (g : Gauges) (calls : List MetricCall) : Gauges :=
  calls.foldl Gauges.apply g

/-! ## `fleetctl/list_units.go`, from its test -/

/-- Modelled from the spec: `schema.UnitState` is declared outside the files at
hand; its fields are the ones that `TestListUnitsFieldsToStrings` sets. -/
structure UnitState where
  Name : String
  SystemdLoadState : String
  SystemdActiveState : String
  SystemdSubState : String
  MachineID : String
  Hash : String
deriving DecidableEq

/-- The Go slice `s[:n]` of a string of at least `n` characters: its first `n`
characters. -/
def sliceTo (s : String) (n : Nat) : String :=
  String.mk (s.data.take n)

/-- Modelled from the spec: `listUnitsFields` is declared in
`fleetctl/list_units.go`, outside the files at hand; only its test
`TestListUnitsFieldsToStrings` is there.  The table gives, for the name of a
field, the function from a unit state (`none` is nil) and the flag `full` to
the text of the field.  As the test asserts: every field of a nil unit state
is `-`; `unit`, `load`, `active` and `sub` are the fields of those names; the
machine of a unit state with an empty `MachineID` is `-`, and with another
one the legend of the machine, taken as the parameter `machineLegend`; the
hash is the whole hash when `full` is set and its first seven characters
otherwise.  The fields that the test does not read for a nil unit state are
left out, and nothing is known of the hash of a unit state whose hash has
fewer than seven characters. -/
def listUnitsFields (machineLegend : String → Bool → String) :
    String → Option (Option UnitState → Bool → String)
  | "unit" => some fun us _ =>
    match us with
    | none => "-"
    | some us => us.Name
  | "load" => some fun us _ =>
    match us with
    | none => "-"
    | some us => us.SystemdLoadState
  | "active" => some fun us _ =>
    match us with
    | none => "-"
    | some us => us.SystemdActiveState
  | "sub" => some fun us _ =>
    match us with
    | none => "-"
    | some us => us.SystemdSubState
  | "machine" => some fun us full =>
    match us with
    | none => "-"
    | some us => if us.MachineID = "" then "-" else machineLegend us.MachineID full
  | "hash" => some fun us full =>
    match us with
    | none => "-"
    | some us => if full then us.Hash else sliceTo us.Hash 7
  | _ => none

/-- The unit state of `TestListUnitsFieldsToStrings` with its hash. -/
def sleepUnitState : UnitState :=
  { Name := "sleep", SystemdLoadState := "foo", SystemdActiveState := "bar",
    SystemdSubState := "baz", MachineID := "",
    Hash := "a0f275d46bc6ee0eca06be7c339913c07d99c0c7" }

/-! ## Lemmas on Go maps -/

theorem mapGet_mapSet {V : Type} (m : GoMap V) (k k' : String) (v : V) :
    mapGet (mapSet m k v) k' = if k = k' then some v else mapGet m k' := by
  induction m with
  | nil => simp [mapSet, mapGet]
  | cons e m ih =>
    obtain ⟨k0, v0⟩ := e
    by_cases h : k0 = k
    · subst h
      by_cases h' : k0 = k' <;> simp [mapSet, mapGet, h']
    · simp only [mapSet, if_neg h, mapGet, ih]
      by_cases h'' : k0 = k'
      · have h3 : ¬ k = k' := fun c => h (h''.trans c.symm)
        simp [h'', h3]
      · simp [h'']

theorem mapGet_mapSet_self {V : Type} (m : GoMap V) (k : String) (v : V) :
    mapGet (mapSet m k v) k = some v := by
  simp [mapGet_mapSet]

theorem mapGet_mapSet_of_ne {V : Type} (m : GoMap V) {k k' : String} (v : V) (h : k ≠ k') :
    mapGet (mapSet m k v) k' = mapGet m k' := by
  simp [mapGet_mapSet, h]

theorem mapGet_isSome_iff {V : Type} (m : GoMap V) (k : String) :
    (mapGet m k).isSome = true ↔ k ∈ mapKeys m := by
  induction m with
  | nil => simp [mapGet, mapKeys]
  | cons e m ih =>
    obtain ⟨k0, v0⟩ := e
    by_cases h : k0 = k
    · simp [mapGet, mapKeys, h]
    · have h' : ¬ k = k0 := fun c => h c.symm
      simpa [mapGet, mapKeys, h, h'] using ih

theorem mapGet_eq_none_iff {V : Type} (m : GoMap V) (k : String) :
    mapGet m k = none ↔ k ∉ mapKeys m := by
  rw [← mapGet_isSome_iff]
  cases mapGet m k <;> simp

theorem mem_of_mapGet {V : Type} {m : GoMap V} {k : String} {v : V}
    (h : mapGet m k = some v) : (k, v) ∈ m := by
  induction m with
  | nil => simp [mapGet] at h
  | cons e m ih =>
    obtain ⟨k0, v0⟩ := e
    by_cases hk : k0 = k
    · simp [mapGet, hk] at h
      simp [hk, h]
    · simp [mapGet, hk] at h
      exact List.mem_cons_of_mem _ (ih h)

theorem mapGet_of_mem {V : Type} {m : GoMap V} {k : String} {v : V}
    (hnd : (mapKeys m).Nodup) (h : (k, v) ∈ m) : mapGet m k = some v := by
  induction m with
  | nil => simp at h
  | cons e m ih =>
    obtain ⟨k0, v0⟩ := e
    simp only [mapKeys, List.map_cons, List.nodup_cons] at hnd
    rcases List.mem_cons.1 h with h1 | h1
    · cases h1
      simp [mapGet]
    · have hk : k ∈ mapKeys m := List.mem_map.2 ⟨(k, v), h1, rfl⟩
      have hne : k0 ≠ k := fun c => hnd.1 (c ▸ hk)
      simpa [mapGet, hne] using ih hnd.2 h1

theorem mem_mapKeys_mapSet {V : Type} (m : GoMap V) (k k' : String) (v : V) :
    k' ∈ mapKeys (mapSet m k v) ↔ k' = k ∨ k' ∈ mapKeys m := by
  rw [← mapGet_isSome_iff, ← mapGet_isSome_iff, mapGet_mapSet]
  by_cases h : k = k'
  · simp [h]
  · have h' : ¬ k' = k := fun c => h c.symm
    simp [h, h']

theorem nodup_mapKeys_mapSet {V : Type} (m : GoMap V) (k : String) (v : V)
    (hnd : (mapKeys m).Nodup) : (mapKeys (mapSet m k v)).Nodup := by
  induction m with
  | nil => simp [mapSet, mapKeys]
  | cons e m ih =>
    obtain ⟨k0, v0⟩ := e
    have hnd' := hnd
    simp only [mapKeys, List.map_cons, List.nodup_cons] at hnd'
    by_cases h : k0 = k
    · subst h
      simpa [mapSet, mapKeys] using hnd
    · simp only [mapSet, h, if_false, mapKeys, List.map_cons, List.nodup_cons]
      refine ⟨?_, ih hnd'.2⟩
      intro hmem
      rcases (mem_mapKeys_mapSet m k k0 v).1 hmem with h1 | h1
      · exact h h1
      · exact hnd'.1 h1

theorem mapGet_perm {V : Type} {m m' : GoMap V} (hp : m'.Perm m) (hnd : (mapKeys m).Nodup)
    (k : String) : mapGet m' k = mapGet m k := by
  have hnd' : (mapKeys m').Nodup := (hp.map Prod.fst).nodup_iff.2 hnd
  cases h : mapGet m k with
  | none =>
    rw [mapGet_eq_none_iff] at h ⊢
    intro c
    exact h ((hp.map Prod.fst).mem_iff.1 c)
  | some v =>
    exact mapGet_of_mem hnd' (hp.mem_iff.2 (mem_of_mapGet h))

theorem mapGet_foldl_mapSet {α V : Type} (key : α → String) (val : α → V) (l : List α)
    (init : GoMap V) (k : String) :
    mapGet (l.foldl (fun m x => mapSet m (key x) (val x)) init) k =
      match l.reverse.find? (fun x => decide (key x = k)) with
      | some x => some (val x)
      | none => mapGet init k := by
  induction l generalizing init with
  | nil => rfl
  | cons x l ih =>
    rw [List.foldl_cons, ih, List.reverse_cons, List.find?_append]
    cases h : List.find? (fun x => decide (key x = k)) l.reverse with
    | some y => rfl
    | none =>
      by_cases hx : key x = k
      · simp [hx, mapGet_mapSet]
      · simp [hx, mapGet_mapSet]

theorem nodup_mapKeys_foldl_mapSet {α V : Type} (key : α → String) (val : α → V)
    (l : List α) (init : GoMap V) (h : (mapKeys init).Nodup) :
    (mapKeys (l.foldl (fun m x => mapSet m (key x) (val x)) init)).Nodup := by
  induction l generalizing init with
  | nil => exact h
  | cons x l ih =>
    rw [List.foldl_cons]
    exact ih _ (nodup_mapKeys_mapSet _ _ _ h)

theorem mapGet_foldl_mapSet_nil {α V : Type} (key : α → String) (val : α → V) (l : List α)
    (k : String) (v : V) :
    mapGet (l.foldl (fun m x => mapSet m (key x) (val x)) []) k = some v ↔
      ∃ x, l.reverse.find? (fun x => decide (key x = k)) = some x ∧ val x = v := by
  rw [mapGet_foldl_mapSet]
  cases h : List.find? (fun x => decide (key x = k)) l.reverse with
  | some y => simp
  | none => simp [mapGet]

theorem mem_foldl_mapSet_nil {α V : Type} (key : α → String) (val : α → V) (l : List α)
    (e : String × V) (he : e ∈ l.foldl (fun m x => mapSet m (key x) (val x)) []) :
    ∃ x ∈ l, key x = e.1 ∧ val x = e.2 := by
  have hnd := nodup_mapKeys_foldl_mapSet key val l [] (by simp [mapKeys])
  have hg := mapGet_of_mem hnd (show (e.1, e.2) ∈ _ from he)
  obtain ⟨x, hx, hv⟩ := (mapGet_foldl_mapSet_nil key val l e.1 e.2).1 hg
  exact ⟨x, List.mem_reverse.1 (List.mem_of_find?_eq_some hx), by simpa using List.find?_some hx, hv⟩

theorem mem_mapKeys_foldl_mapSet_nil {α V : Type} (key : α → String) (val : α → V)
    (l : List α) (k : String) :
    k ∈ mapKeys (l.foldl (fun m x => mapSet m (key x) (val x)) []) ↔ ∃ x ∈ l, key x = k := by
  rw [← mapGet_isSome_iff, mapGet_foldl_mapSet]
  cases h : List.find? (fun x => decide (key x = k)) l.reverse with
  | some y =>
    simp only [Option.isSome_some, true_iff]
    exact ⟨y, List.mem_reverse.1 (List.mem_of_find?_eq_some h), by simpa using List.find?_some h⟩
  | none =>
    simp only [mapGet, Option.isSome_none, Bool.false_eq_true, false_iff]
    rintro ⟨x, hx, hk⟩
    have := List.find?_eq_none.1 h x (List.mem_reverse.2 hx)
    simp [hk] at this

theorem find?_reverse_of_nodup {α : Type} (key : α → String) (l : List α)
    (hnd : (l.map key).Nodup) (x : α) (hx : x ∈ l) :
    l.reverse.find? (fun y => decide (key y = key x)) = some x := by
  cases h : List.find? (fun y => decide (key y = key x)) l.reverse with
  | some y =>
    have hy : y ∈ l := List.mem_reverse.1 (List.mem_of_find?_eq_some h)
    have hk : key y = key x := by simpa using List.find?_some h
    exact congrArg some (List.inj_on_of_nodup_map hnd hy hx hk)
  | none =>
    have := List.find?_eq_none.1 h x (List.mem_reverse.2 hx)
    simp at this

/-! ## Lemmas on `agents` -/

theorem mapGet_agentsJobStep_isSome (env : Env) (agents : GoMap AgentState) (j : Job)
    (m : String) :
    (mapGet (agentsJobStep env agents j) m).isSome = (mapGet agents m).isSome := by
  unfold agentsJobStep
  split
  · rfl
  · split
    · rename_i a ha
      rw [mapGet_mapSet]
      by_cases h : j.TargetMachineID = m
      · subst h
        simp [ha]
      · simp [h]
    · rfl

theorem mapGet_agentsJobStep_MState (env : Env) (agents : GoMap AgentState) (j : Job)
    (m : String) :
    (mapGet (agentsJobStep env agents j) m).map AgentState.MState =
      (mapGet agents m).map AgentState.MState := by
  unfold agentsJobStep
  split
  · rfl
  · split
    · rename_i a ha
      rw [mapGet_mapSet]
      by_cases h : j.TargetMachineID = m
      · subst h
        simp [ha]
      · simp [h]
    · rfl

theorem unitAt_agentsJobStep (env : Env) (agents : GoMap AgentState) (j : Job)
    (m n : String) :
    unitAt (agentsJobStep env agents j) m n =
      if j.placeable ∧ j.TargetMachineID = m ∧ j.Name = n ∧ (mapGet agents m).isSome = true
      then some (unitOfJob env j) else unitAt agents m n := by
  unfold agentsJobStep
  by_cases hp : j.placeable
  · have hg : (!j.Scheduled || j.TargetState == JobStateInactive) = false := by
      simp [Job.Scheduled, hp.1, hp.2]
    rw [hg]
    simp only [Bool.false_eq_true, if_false, hp, true_and]
    by_cases hm : j.TargetMachineID = m
    · subst hm
      cases ha : mapGet agents j.TargetMachineID with
      | none => simp [unitAt, ha]
      | some a =>
        simp only [unitAt, mapGet_mapSet_self, Option.bind_some, mapGet_mapSet, ha,
          Option.isSome_some, and_true, true_and]
        by_cases hn : j.Name = n <;> simp [hn, unitOfJob, mapGet_mapSet]
    · simp only [hm, false_and, if_false]
      cases ha : mapGet agents j.TargetMachineID with
      | none => rfl
      | some a => simp [unitAt, mapGet_mapSet, hm]
  · have hg : (!j.Scheduled || j.TargetState == JobStateInactive) = true := by
      unfold Job.placeable at hp
      by_cases h1 : j.TargetMachineID = ""
      · simp [Job.Scheduled, h1]
      · have h2 : j.TargetState = JobStateInactive := by
          by_contra c
          exact hp ⟨h1, c⟩
        simp [h2]
    simp [hg, hp]

theorem mapGet_jobFold_isSome (env : Env) (js : GoMap Job) (agents : GoMap AgentState)
    (m : String) :
    (mapGet (js.foldl (fun ags e => agentsJobStep env ags e.2) agents) m).isSome =
      (mapGet agents m).isSome := by
  induction js generalizing agents with
  | nil => rfl
  | cons e js ih => rw [List.foldl_cons, ih, mapGet_agentsJobStep_isSome]

theorem mapGet_jobFold_MState (env : Env) (js : GoMap Job) (agents : GoMap AgentState)
    (m : String) :
    (mapGet (js.foldl (fun ags e => agentsJobStep env ags e.2) agents) m).map AgentState.MState =
      (mapGet agents m).map AgentState.MState := by
  induction js generalizing agents with
  | nil => rfl
  | cons e js ih => rw [List.foldl_cons, ih, mapGet_agentsJobStep_MState]

theorem inUnits_jobFold (env : Env) (js : GoMap Job) (agents : GoMap AgentState)
    (m n : String) :
    inUnits (js.foldl (fun ags e => agentsJobStep env ags e.2) agents) m n ↔
      inUnits agents m n ∨
        ((mapGet agents m).isSome = true ∧
          ∃ e ∈ js, e.2.placeable ∧ e.2.TargetMachineID = m ∧ e.2.Name = n) := by
  induction js generalizing agents with
  | nil => simp
  | cons e js ih =>
    rw [List.foldl_cons, ih, mapGet_agentsJobStep_isSome]
    unfold inUnits
    rw [unitAt_agentsJobStep]
    by_cases hc : e.2.placeable ∧ e.2.TargetMachineID = m ∧ e.2.Name = n ∧
        (mapGet agents m).isSome = true
    · rw [if_pos hc]
      simp only [Option.isSome_some, true_or, true_iff]
      exact Or.inr ⟨hc.2.2.2, e, List.mem_cons_self _ _, hc.1, hc.2.1, hc.2.2.1⟩
    · simp only [hc, if_false, List.mem_cons]
      constructor
      · rintro (h | ⟨h1, e', he', h2⟩)
        · exact Or.inl h
        · exact Or.inr ⟨h1, e', Or.inr he', h2⟩
      · rintro (h | ⟨h1, e', he' | he', h2⟩)
        · exact Or.inl h
        · subst he'
          exact absurd ⟨h2.1, h2.2.1, h2.2.2, h1⟩ hc
        · exact Or.inr ⟨h1, e', he', h2⟩

theorem mapGet_agentsGlobalStep (env : Env) (agents : GoMap AgentState) (gu : Unit)
    (m : String) :
    mapGet (agentsGlobalStep env agents gu) m =
      (mapGet agents m).map (agentsGlobalPlace env gu) := by
  unfold agentsGlobalStep
  induction agents with
  | nil => rfl
  | cons e agents ih =>
    obtain ⟨k, a⟩ := e
    by_cases h : k = m
    · simp [mapGet, h]
    · simpa [mapGet, h] using ih

theorem agentsGlobalPlace_MState (env : Env) (gu : Unit) (a : AgentState) :
    (agentsGlobalPlace env gu a).MState = a.MState := by
  unfold agentsGlobalPlace
  split
  · rfl
  · split <;> rfl

theorem agentsGlobalPlace_units_of_ne (env : Env) (gu : Unit) (a : AgentState) {n : String}
    (h : gu.Name ≠ n) :
    mapGet (agentsGlobalPlace env gu a).Units n = mapGet a.Units n := by
  unfold agentsGlobalPlace
  split
  · rfl
  · split
    · rfl
    · simp [mapGet_mapSet, h]

theorem mapGet_globalFold_MState (env : Env) (gs : GoMap Unit) (agents : GoMap AgentState)
    (m : String) :
    (mapGet (gs.foldl (fun ags e => agentsGlobalStep env ags e.2) agents) m).map
        AgentState.MState = (mapGet agents m).map AgentState.MState := by
  induction gs generalizing agents with
  | nil => rfl
  | cons e gs ih =>
    rw [List.foldl_cons, ih, mapGet_agentsGlobalStep]
    cases mapGet agents m <;> simp [agentsGlobalPlace_MState]

theorem unitAt_globalFold_of_not_mem (env : Env) (gs : GoMap Unit)
    (agents : GoMap AgentState) (m n : String) (h : ∀ e ∈ gs, e.2.Name ≠ n) :
    unitAt (gs.foldl (fun ags e => agentsGlobalStep env ags e.2) agents) m n =
      unitAt agents m n := by
  induction gs generalizing agents with
  | nil => rfl
  | cons e gs ih =>
    rw [List.foldl_cons, ih _ (fun e' he' => h e' (List.mem_cons_of_mem _ he'))]
    unfold unitAt
    rw [mapGet_agentsGlobalStep]
    cases mapGet agents m with
    | none => rfl
    | some a =>
      simp [agentsGlobalPlace_units_of_ne env e.2 a (h e (List.mem_cons_self _ _))]

theorem mapGet_agentsInit_isSome (cs : clusterState) (m : String) :
    (mapGet (agentsInit cs) m).isSome = true ↔ ∃ e ∈ cs.machines, e.2.ID = m := by
  unfold agentsInit
  have h0 := mapGet_foldl_mapSet (fun e : String × MachineState => e.2.ID)
    (fun e => NewAgentState e.2) cs.machines [] m
  beta_reduce at h0
  rw [h0]
  cases h : List.find? (fun e => decide (e.2.ID = m)) cs.machines.reverse with
  | some e =>
    have h1 := List.find?_some h
    have h2 := List.mem_of_find?_eq_some h
    simp only [Option.isSome_some, true_iff]
    exact ⟨e, List.mem_reverse.1 h2, by simpa using h1⟩
  | none =>
    simp only [mapGet, Option.isSome_none, Bool.false_eq_true, false_iff]
    rintro ⟨e, he, hm⟩
    have := List.find?_eq_none.1 h e (List.mem_reverse.2 he)
    simp [hm] at this

theorem unitAt_agentsInit (cs : clusterState) (m n : String) :
    unitAt (agentsInit cs) m n = none := by
  unfold unitAt agentsInit
  have h0 := mapGet_foldl_mapSet (fun e : String × MachineState => e.2.ID)
    (fun e => NewAgentState e.2) cs.machines [] m
  beta_reduce at h0
  rw [h0]
  cases h : List.find? (fun e => decide (e.2.ID = m)) cs.machines.reverse with
  | some e => simp [NewAgentState, mapGet]
  | none => simp [mapGet]

/-! ## Lemmas on `newClusterState` -/

theorem newJob_Name (sm : GoMap ScheduledUnit) (u : Unit) : (newJob sm u).Name = u.Name := by
  unfold newJob
  split <;> rfl

theorem newJob_TargetState (sm : GoMap ScheduledUnit) (u : Unit) :
    (newJob sm u).TargetState = u.TargetState := by
  unfold newJob
  split <;> rfl

theorem newJob_TargetMachineID (sm : GoMap ScheduledUnit) (u : Unit) :
    (newJob sm u).TargetMachineID =
      match mapGet sm u.Name with
      | some s => s.TargetMachineID
      | none => "" := by
  unfold newJob
  split <;> rfl

theorem newClusterState_fold_fst (env : Env) (sm : GoMap ScheduledUnit) (units : List Unit)
    (acc : GoMap Job × GoMap Unit) :
    (units.foldl (newClusterStateStep env sm) acc).1 =
      (units.filter fun u => !env.IsGlobal u).foldl
        (fun m u => mapSet m u.Name (newJob sm u)) acc.1 := by
  induction units generalizing acc with
  | nil => rfl
  | cons u units ih =>
    rw [List.foldl_cons, ih]
    by_cases hg : env.IsGlobal u = true
    · simp [newClusterStateStep, hg]
    · simp [newClusterStateStep, hg, newJob_Name]

theorem newClusterState_fold_snd (env : Env) (sm : GoMap ScheduledUnit) (units : List Unit)
    (acc : GoMap Job × GoMap Unit) :
    (units.foldl (newClusterStateStep env sm) acc).2 =
      (units.filter fun u => env.IsGlobal u).foldl (fun m u => mapSet m u.Name u) acc.2 := by
  induction units generalizing acc with
  | nil => rfl
  | cons u units ih =>
    rw [List.foldl_cons, ih]
    by_cases hg : env.IsGlobal u = true
    · simp [newClusterStateStep, hg]
    · simp [newClusterStateStep, hg]

/-- The map of scheduled units that `newClusterState` builds. -/
theorem mapGet_sUnitMap (sUnits : List ScheduledUnit) (n : String) :
    mapGet (sUnits.foldl (fun m sUnit => mapSet m sUnit.Name sUnit) []) n =
      scheduledRecord sUnits n := by
  have h0 := mapGet_foldl_mapSet ScheduledUnit.Name (fun x => x) sUnits [] n
  beta_reduce at h0
  rw [h0]
  unfold scheduledRecord
  cases List.find? (fun x => decide (x.Name = n)) sUnits.reverse <;> rfl

theorem newClusterState_jobs (env : Env) (units : List Unit) (sUnits : List ScheduledUnit)
    (machines : List MachineState) :
    (newClusterState env units sUnits machines).jobs =
      (units.filter fun u => !env.IsGlobal u).foldl
        (fun m u => mapSet m u.Name
          (newJob (sUnits.foldl (fun m sUnit => mapSet m sUnit.Name sUnit) []) u)) [] := by
  unfold newClusterState
  exact newClusterState_fold_fst env _ units ([], [])

theorem newClusterState_gUnits (env : Env) (units : List Unit) (sUnits : List ScheduledUnit)
    (machines : List MachineState) :
    (newClusterState env units sUnits machines).gUnits =
      (units.filter fun u => env.IsGlobal u).foldl (fun m u => mapSet m u.Name u) [] := by
  unfold newClusterState
  exact newClusterState_fold_snd env _ units ([], [])

theorem newClusterState_machines (env : Env) (units : List Unit) (sUnits : List ScheduledUnit)
    (machines : List MachineState) :
    (newClusterState env units sUnits machines).machines =
      machines.foldl (fun m ms => mapSet m ms.ID ms) [] := rfl

theorem newClusterState_WF (env : Env) (units : List Unit) (sUnits : List ScheduledUnit)
    (machines : List MachineState) : (newClusterState env units sUnits machines).WF := by
  refine ⟨?_, ?_, ?_, ?_, ?_, ?_⟩
  · intro e he
    rw [newClusterState_jobs] at he
    obtain ⟨x, _, h1, h2⟩ := mem_foldl_mapSet_nil Unit.Name _ _ e he
    rw [← h2, newJob_Name, h1]
  · rw [newClusterState_jobs]
    exact nodup_mapKeys_foldl_mapSet _ _ _ _ (by simp [mapKeys])
  · intro e he
    rw [newClusterState_gUnits] at he
    obtain ⟨x, _, h1, h2⟩ := mem_foldl_mapSet_nil Unit.Name (fun x => x) _ e he
    rw [← h2, ← h1]
  · rw [newClusterState_gUnits]
    exact nodup_mapKeys_foldl_mapSet Unit.Name (fun x => x) _ _ (by simp [mapKeys])
  · intro e he
    rw [newClusterState_machines] at he
    obtain ⟨x, _, h1, h2⟩ := mem_foldl_mapSet_nil MachineState.ID (fun x => x) _ e he
    rw [← h2, ← h1]
  · rw [newClusterState_machines]
    exact nodup_mapKeys_foldl_mapSet MachineState.ID (fun x => x) _ _ (by simp [mapKeys])

theorem newClusterState_jobs_get (env : Env) (units : List Unit) (sUnits : List ScheduledUnit)
    (machines : List MachineState) (hnames : (units.map Unit.Name).Nodup)
    (u : Unit) (hu : u ∈ units) (hng : env.IsGlobal u = false) :
    mapGet (newClusterState env units sUnits machines).jobs u.Name =
      some (newJob (sUnits.foldl (fun m sUnit => mapSet m sUnit.Name sUnit) []) u) := by
  rw [newClusterState_jobs, mapGet_foldl_mapSet_nil]
  refine ⟨u, ?_, rfl⟩
  apply find?_reverse_of_nodup Unit.Name
  · exact (List.filter_sublist _).map Unit.Name |>.nodup hnames
  · exact List.mem_filter.2 ⟨hu, by simp [hng]⟩

theorem newClusterState_gUnits_keys (env : Env) (units : List Unit)
    (sUnits : List ScheduledUnit) (machines : List MachineState) (n : String) :
    n ∈ mapKeys (newClusterState env units sUnits machines).gUnits ↔
      ∃ g ∈ units, env.IsGlobal g = true ∧ g.Name = n := by
  rw [newClusterState_gUnits, mem_mapKeys_foldl_mapSet_nil Unit.Name (fun x => x)]
  constructor
  · rintro ⟨x, hx, hk⟩
    exact ⟨x, (List.mem_filter.1 hx).1, (List.mem_filter.1 hx).2, hk⟩
  · rintro ⟨x, hx, hg, hk⟩
    exact ⟨x, List.mem_filter.2 ⟨hx, hg⟩, hk⟩

theorem newClusterState_machines_mem (env : Env) (units : List Unit)
    (sUnits : List ScheduledUnit) (machines : List MachineState) (m : String) :
    (∃ e ∈ (newClusterState env units sUnits machines).machines, e.2.ID = m) ↔
      ∃ ms ∈ machines, ms.ID = m := by
  have hwf := newClusterState_WF env units sUnits machines
  rw [← mem_mapKeys_foldl_mapSet_nil MachineState.ID (fun x => x),
    ← newClusterState_machines env units sUnits]
  constructor
  · rintro ⟨e, he, hm⟩
    exact List.mem_map.2 ⟨e, he, by rw [hwf.machines_key e he, hm]⟩
  · intro h
    obtain ⟨e, he, hk⟩ := List.mem_map.1 h
    exact ⟨e, he, by rw [← hwf.machines_key e he, hk]⟩

theorem WF_of_reordered {cs cs' : clusterState} (hwf : cs.WF) (hr : cs.Reordered cs') :
    cs'.WF := by
  obtain ⟨hj, hg, hm⟩ := hr
  exact
    { jobs_key := fun e he => hwf.jobs_key e (hj.mem_iff.1 he)
      jobs_nodup := (hj.map Prod.fst).nodup_iff.2 hwf.jobs_nodup
      gUnits_key := fun e he => hwf.gUnits_key e (hg.mem_iff.1 he)
      gUnits_nodup := (hg.map Prod.fst).nodup_iff.2 hwf.gUnits_nodup
      machines_key := fun e he => hwf.machines_key e (hm.mem_iff.1 he)
      machines_nodup := (hm.map Prod.fst).nodup_iff.2 hwf.machines_nodup }

/-- Where the bound units are, in a well-formed state: a name that is not the
name of a global unit is a key of the `Units` of the agent of `m` exactly when
`m` is a machine of the state and the job of that name is bound to `m` and
passes the guard of `agents`. -/
theorem inUnits_agents_of_not_global (env : Env) (cs : clusterState) (hwf : cs.WF)
    (m n : String) (hn : n ∉ mapKeys cs.gUnits) :
    inUnits (cs.agents env) m n ↔
      (∃ e ∈ cs.machines, e.2.ID = m) ∧
        ∃ j, mapGet cs.jobs n = some j ∧ j.TargetMachineID = m ∧ j.placeable := by
  have hg : ∀ e ∈ cs.gUnits, e.2.Name ≠ n := by
    intro e he c
    apply hn
    exact List.mem_map.2 ⟨e, he, by rw [hwf.gUnits_key e he, c]⟩
  unfold inUnits clusterState.agents
  rw [unitAt_globalFold_of_not_mem env cs.gUnits _ m n hg]
  have h1 := inUnits_jobFold env cs.jobs (agentsInit cs) m n
  unfold inUnits at h1
  unfold agentsBound
  rw [h1, unitAt_agentsInit, mapGet_agentsInit_isSome]
  simp only [Option.isSome_none, Bool.false_eq_true, false_or]
  constructor
  · rintro ⟨hm, e, he, hp, ht, hname⟩
    refine ⟨hm, e.2, ?_, ht, hp⟩
    rw [← hname, ← hwf.jobs_key e he]
    exact mapGet_of_mem hwf.jobs_nodup he
  · rintro ⟨hm, j, hj, ht, hp⟩
    have hmem := mem_of_mapGet hj
    exact ⟨hm, (n, j), hmem, hp, ht, (hwf.jobs_key _ hmem).symm⟩

/-! ## The `agents` view: bound units -/

theorem scheduledRecord_of_nodup (sUnits : List ScheduledUnit)
    (hnd : (sUnits.map ScheduledUnit.Name).Nodup) (n : String) (s : ScheduledUnit) :
    scheduledRecord sUnits n = some s ↔ s ∈ sUnits ∧ s.Name = n := by
  unfold scheduledRecord
  constructor
  · intro h
    exact ⟨List.mem_reverse.1 (List.mem_of_find?_eq_some h), by simpa using List.find?_some h⟩
  · rintro ⟨hs, hn⟩
    subst hn
    exact find?_reverse_of_nodup ScheduledUnit.Name sUnits hnd s hs

/-- Claim C1.  Let the names of `units` be unique, let `cs` hold the maps of
`newClusterState units sUnits machines` in any iteration order, and let `u` be
a non-global unit of `units`.  Then for every machine ID `m`, `u.Name` is a key
of `agents()[m].Units` if and only if `m` is the ID of a machine of `machines`,
the scheduled record of `u.Name` has `TargetMachineID` equal to `m`, `m` is not
empty, and the target state of `u` is not inactive.  The scheduled record is
the record of that name in `sUnits` when the records have unique names.  In
particular a unit whose record names a machine that is not in `machines` is in
the `Units` of no agent, and a non-global unit is in the `Units` of at most one
agent. -/
theorem C1_agents_bound_units (env : Env) (units : List Unit) (sUnits : List ScheduledUnit)
    (machines : List MachineState) (cs : clusterState)
    (hnames : (units.map Unit.Name).Nodup)
    (hcs : (newClusterState env units sUnits machines).Reordered cs)
    (u : Unit) (hu : u ∈ units) (hng : env.IsGlobal u = false) :
    (∀ m, inUnits (cs.agents env) m u.Name ↔
        (∃ ms ∈ machines, ms.ID = m) ∧
          (∃ s, scheduledRecord sUnits u.Name = some s ∧ s.TargetMachineID = m) ∧
          m ≠ "" ∧ u.TargetState ≠ JobStateInactive) ∧
      ((sUnits.map ScheduledUnit.Name).Nodup →
        ∀ s, scheduledRecord sUnits u.Name = some s ↔ s ∈ sUnits ∧ s.Name = u.Name) ∧
      (∀ s, scheduledRecord sUnits u.Name = some s →
        (¬ ∃ ms ∈ machines, ms.ID = s.TargetMachineID) →
        ∀ m, ¬ inUnits (cs.agents env) m u.Name) ∧
      (∀ m₁ m₂, inUnits (cs.agents env) m₁ u.Name → inUnits (cs.agents env) m₂ u.Name →
        m₁ = m₂) := by
  have hwf0 := newClusterState_WF env units sUnits machines
  have hwf := WF_of_reordered hwf0 hcs
  have hkey : u.Name ∉ mapKeys cs.gUnits := by
    intro c
    have c' : u.Name ∈ mapKeys (newClusterState env units sUnits machines).gUnits :=
      (hcs.2.1.map Prod.fst).mem_iff.1 c
    obtain ⟨g, hg, hglob, hname⟩ := (newClusterState_gUnits_keys env units sUnits machines _).1 c'
    have : g = u := List.inj_on_of_nodup_map hnames hg hu hname
    rw [this, hng] at hglob
    exact Bool.false_ne_true hglob
  have hjob : mapGet cs.jobs u.Name =
      some (newJob (sUnits.foldl (fun m sUnit => mapSet m sUnit.Name sUnit) []) u) := by
    rw [mapGet_perm hcs.1 hwf0.jobs_nodup]
    exact newClusterState_jobs_get env units sUnits machines hnames u hu hng
  have hmach : ∀ m, (∃ e ∈ cs.machines, e.2.ID = m) ↔ ∃ ms ∈ machines, ms.ID = m := by
    intro m
    rw [← newClusterState_machines_mem env units sUnits machines m]
    constructor
    · rintro ⟨e, he, hm⟩
      exact ⟨e, hcs.2.2.mem_iff.1 he, hm⟩
    · rintro ⟨e, he, hm⟩
      exact ⟨e, hcs.2.2.mem_iff.2 he, hm⟩
  have main : ∀ m, inUnits (cs.agents env) m u.Name ↔
      (∃ ms ∈ machines, ms.ID = m) ∧
        (∃ s, scheduledRecord sUnits u.Name = some s ∧ s.TargetMachineID = m) ∧
        m ≠ "" ∧ u.TargetState ≠ JobStateInactive := by
    intro m
    rw [inUnits_agents_of_not_global env cs hwf m u.Name hkey, hmach, hjob]
    simp only [Option.some.injEq, exists_eq_left', Job.placeable, newJob_TargetState,
      newJob_TargetMachineID, mapGet_sUnitMap]
    cases hrec : scheduledRecord sUnits u.Name with
    | none =>
      constructor
      · rintro ⟨_, _, h1, _⟩
        exact absurd rfl h1
      · rintro ⟨_, ⟨s, hs, _⟩, _⟩
        cases hs
    | some s =>
      simp only [Option.some.injEq, exists_eq_left']
      constructor
      · rintro ⟨h1, h2, h3, h4⟩
        exact ⟨h1, h2, h2 ▸ h3, h4⟩
      · rintro ⟨h1, h2, h3, h4⟩
        exact ⟨h1, h2, h2 ▸ h3, h4⟩
  refine ⟨main, fun hnd s => scheduledRecord_of_nodup sUnits hnd _ s, ?_, ?_⟩
  · intro s hs hno m hin
    obtain ⟨hm, ⟨s', hs', ht⟩, _⟩ := (main m).1 hin
    rw [hs] at hs'
    cases hs'
    exact hno (ht ▸ hm)
  · intro m₁ m₂ h₁ h₂
    obtain ⟨_, ⟨s₁, hs₁, ht₁⟩, _⟩ := (main m₁).1 h₁
    obtain ⟨_, ⟨s₂, hs₂, ht₂⟩, _⟩ := (main m₂).1 h₂
    rw [hs₁] at hs₂
    cases hs₂
    exact ht₁.symm.trans ht₂

/-- Witness of C1 on the sample: `web.service`, bound to `m1`, is in the
`Units` of the agent of `m1`. -/
theorem C1_agents_bound_units_witness :
    ([webUnit, exporterUnit].map Unit.Name).Nodup ∧ sampleEnv.IsGlobal webUnit = false ∧
      inUnits (sampleState.agents sampleEnv) "m1" webUnit.Name :=
  ⟨by decide, rfl,
    ((C1_agents_bound_units sampleEnv [webUnit, exporterUnit] [webBinding]
      [machine1, machine2] sampleState (by decide)
      ⟨List.Perm.refl _, List.Perm.refl _, List.Perm.refl _⟩ webUnit
      (List.mem_cons_self _ _) rfl).1 "m1").2
      ⟨⟨machine1, List.mem_cons_self _ _, rfl⟩, ⟨webBinding, by decide, rfl⟩,
        by decide, by decide⟩⟩

/-! ## The agent of one machine -/

theorem mem_mapSet_self {V : Type} (m : GoMap V) (k : String) (v : V) :
    (k, v) ∈ mapSet m k v :=
  mem_of_mapGet (mapGet_mapSet_self m k v)

theorem mem_mapSet_of_mem {V : Type} (m : GoMap V) (k : String) (v : V) (e : String × V)
    (he : e ∈ m) (hk : e.1 ≠ k) : e ∈ mapSet m k v := by
  induction m with
  | nil => simp at he
  | cons x m ih =>
    obtain ⟨k0, v0⟩ := x
    by_cases h : k0 = k
    · subst h
      simp only [mapSet, if_true, List.mem_cons]
      rcases List.mem_cons.1 he with h1 | h1
      · exact absurd (by rw [h1]) hk
      · exact Or.inr h1
    · simp only [mapSet, if_neg h, List.mem_cons]
      rcases List.mem_cons.1 he with h1 | h1
      · exact Or.inl h1
      · exact Or.inr (ih h1)

theorem mem_of_mem_mapSet {V : Type} (m : GoMap V) (k : String) (v : V) (e : String × V)
    (he : e ∈ mapSet m k v) : e = (k, v) ∨ e ∈ m := by
  induction m with
  | nil => simpa [mapSet] using he
  | cons x m ih =>
    obtain ⟨k0, v0⟩ := x
    by_cases h : k0 = k
    · subst h
      simp only [mapSet, if_true, List.mem_cons] at he
      rcases he with h1 | h1
      · exact Or.inl h1
      · exact Or.inr (List.mem_cons_of_mem _ h1)
    · simp only [mapSet, if_neg h, List.mem_cons] at he
      rcases he with h1 | h1
      · exact Or.inr (h1 ▸ List.mem_cons_self _ _)
      · rcases ih h1 with h2 | h2
        · exact Or.inl h2
        · exact Or.inr (List.mem_cons_of_mem _ h2)

theorem mapGet_agentsJobStep (env : Env) (agents : GoMap AgentState) (j : Job) (m : String) :
    mapGet (agentsJobStep env agents j) m =
      (mapGet agents m).map fun a => agentJobStep env m a j := by
  unfold agentsJobStep agentJobStep
  by_cases hp : j.placeable
  · have hg : (!j.Scheduled || j.TargetState == JobStateInactive) = false := by
      simp [Job.Scheduled, hp.1, hp.2]
    rw [hg]
    simp only [Bool.false_eq_true, if_false, hp, true_and]
    by_cases hm : j.TargetMachineID = m
    · subst hm
      cases ha : mapGet agents j.TargetMachineID with
      | none => simp [ha]
      | some a => simp [mapGet_mapSet_self, unitOfJob]
    · cases ha : mapGet agents j.TargetMachineID with
      | none => cases mapGet agents m <;> simp [hm]
      | some a =>
        simp only [mapGet_mapSet, hm, if_false]
        cases mapGet agents m <;> simp
  · have hg : (!j.Scheduled || j.TargetState == JobStateInactive) = true := by
      unfold Job.placeable at hp
      by_cases h1 : j.TargetMachineID = ""
      · simp [Job.Scheduled, h1]
      · have h2 : j.TargetState = JobStateInactive := by
          by_contra c
          exact hp ⟨h1, c⟩
        simp [h2]
    rw [hg]
    cases h : mapGet agents m <;> simp [hp, h]

theorem mapGet_jobFold (env : Env) (js : GoMap Job) (agents : GoMap AgentState) (m : String) :
    mapGet (js.foldl (fun ags e => agentsJobStep env ags e.2) agents) m =
      (mapGet agents m).map (bindAll env m js) := by
  induction js generalizing agents with
  | nil => cases h : mapGet agents m <;> simp [h, bindAll]
  | cons e js ih =>
    rw [List.foldl_cons, ih, mapGet_agentsJobStep]
    cases h : mapGet agents m <;> simp [bindAll]

theorem mapGet_globalFold (env : Env) (gs : GoMap Unit) (agents : GoMap AgentState)
    (m : String) :
    mapGet (gs.foldl (fun ags e => agentsGlobalStep env ags e.2) agents) m =
      (mapGet agents m).map (placeAll env gs) := by
  induction gs generalizing agents with
  | nil => cases h : mapGet agents m <;> simp [h, placeAll]
  | cons e gs ih =>
    rw [List.foldl_cons, ih, mapGet_agentsGlobalStep]
    cases h : mapGet agents m <;> simp [placeAll]

theorem mapGet_agentsInit (cs : clusterState) (hwf : cs.WF) (m : String) :
    mapGet (agentsInit cs) m = (mapGet cs.machines m).map NewAgentState := by
  unfold agentsInit
  have h0 := mapGet_foldl_mapSet (fun e : String × MachineState => e.2.ID)
    (fun e => NewAgentState e.2) cs.machines [] m
  beta_reduce at h0
  rw [h0]
  cases h : List.find? (fun e => decide (e.2.ID = m)) cs.machines.reverse with
  | some e =>
    have he : e ∈ cs.machines := List.mem_reverse.1 (List.mem_of_find?_eq_some h)
    have hid : e.2.ID = m := by simpa using List.find?_some h
    have hk := hwf.machines_key e he
    have hget : mapGet cs.machines m = some e.2 :=
      mapGet_of_mem hwf.machines_nodup (by rw [← hid, ← hk]; exact he)
    simp [hget]
  | none =>
    have hnone : mapGet cs.machines m = none := by
      rw [mapGet_eq_none_iff]
      intro c
      obtain ⟨e, he, hk⟩ := List.mem_map.1 c
      have := List.find?_eq_none.1 h e (List.mem_reverse.2 he)
      have hid : e.2.ID = m := by rw [← hwf.machines_key e he]; exact hk
      simp [hid] at this
    simp [hnone, mapGet]

/-- The agent of each machine, in a well-formed state: `agents` holds, for
each machine of the state and for no other ID, the fresh agent of the machine
on which the loop over the jobs and then the loop over the global units have
run. -/
theorem mapGet_agents (env : Env) (cs : clusterState) (hwf : cs.WF) (m : String) :
    mapGet (cs.agents env) m =
      (mapGet cs.machines m).map fun ms =>
        placeAll env cs.gUnits (bindAll env m cs.jobs (NewAgentState ms)) := by
  unfold clusterState.agents agentsBound
  rw [mapGet_globalFold, mapGet_jobFold, mapGet_agentsInit cs hwf]
  cases h : mapGet cs.machines m <;> simp

theorem bindAll_MState (env : Env) (m : String) (js : GoMap Job) (a : AgentState) :
    (bindAll env m js a).MState = a.MState := by
  unfold bindAll
  induction js generalizing a with
  | nil => rfl
  | cons e js ih =>
    rw [List.foldl_cons, ih]
    unfold agentJobStep
    split <;> rfl

theorem mem_bindAll_units (env : Env) (m : String) (js : GoMap Job) (a : AgentState)
    (e : String × Unit) (he : e ∈ (bindAll env m js a).Units) :
    e ∈ a.Units ∨
      ∃ x ∈ js, x.2.placeable ∧ x.2.TargetMachineID = m ∧ e = (x.2.Name, unitOfJob env x.2) := by
  unfold bindAll at he
  induction js generalizing a with
  | nil => exact Or.inl he
  | cons x js ih =>
    rw [List.foldl_cons] at he
    rcases ih _ he with h | ⟨y, hy, h⟩
    · unfold agentJobStep at h
      split at h
      · rename_i hc
        rcases mem_of_mem_mapSet _ _ _ _ h with h1 | h1
        · exact Or.inr ⟨x, List.mem_cons_self _ _, hc.1, hc.2, h1⟩
        · exact Or.inl h1
      · exact Or.inl h
    · exact Or.inr ⟨y, List.mem_cons_of_mem _ hy, h⟩

theorem bindAll_units_of_mem (env : Env) (m : String) (js : GoMap Job) (a : AgentState)
    (e : String × Unit) (he : e ∈ a.Units) (hne : ∀ x ∈ js, x.2.Name ≠ e.1) :
    e ∈ (bindAll env m js a).Units := by
  unfold bindAll
  induction js generalizing a with
  | nil => exact he
  | cons x js ih =>
    rw [List.foldl_cons]
    apply ih _ _ (fun y hy => hne y (List.mem_cons_of_mem _ hy))
    unfold agentJobStep
    split
    · exact mem_mapSet_of_mem _ _ _ _ he (fun c => hne x (List.mem_cons_self _ _) c.symm)
    · exact he

theorem bindAll_units_of_job (env : Env) (m : String) (js : GoMap Job) (a : AgentState)
    (hnd : (js.map fun e => e.2.Name).Nodup) (x : String × Job) (hx : x ∈ js)
    (hp : x.2.placeable) (hm : x.2.TargetMachineID = m) :
    (x.2.Name, unitOfJob env x.2) ∈ (bindAll env m js a).Units := by
  induction js generalizing a with
  | nil => simp at hx
  | cons y js ih =>
    simp only [List.map_cons, List.nodup_cons] at hnd
    rcases List.mem_cons.1 hx with h | h
    · subst h
      show (x.2.Name, unitOfJob env x.2) ∈ (bindAll env m js (agentJobStep env m a x.2)).Units
      apply bindAll_units_of_mem
      · unfold agentJobStep
        rw [if_pos ⟨hp, hm⟩]
        exact mem_mapSet_self _ _ _
      · intro z hz c
        exact hnd.1 (List.mem_map.2 ⟨z, hz, c⟩)
    · exact ih _ hnd.2 h

theorem names_nodup_of_WF {V : Type} (name : V → String) (l : GoMap V)
    (hkey : ∀ e ∈ l, e.1 = name e.2) (hnd : (mapKeys l).Nodup) :
    (l.map fun e => name e.2).Nodup := by
  have : l.map (fun e => name e.2) = mapKeys l := by
    unfold mapKeys
    exact List.map_congr_left fun e he => (hkey e he).symm
  rw [this]
  exact hnd

/-- The loop of `agents` over the jobs leaves on the agent of a machine the
units of `activeBoundAgent`. -/
theorem mem_bindAll_iff_activeBoundAgent (env : Env) (cs : clusterState) (hwf : cs.WF)
    (ms : MachineState) (e : String × Unit) :
    e ∈ (bindAll env ms.ID cs.jobs (NewAgentState ms)).Units ↔
      e ∈ (activeBoundAgent env cs ms).Units := by
  have hb : e ∈ (activeBoundAgent env cs ms).Units ↔
      ∃ x ∈ cs.jobs, x.2.placeable ∧ x.2.TargetMachineID = ms.ID ∧
        e = (x.2.Name, unitOfJob env x.2) := by
    unfold activeBoundAgent
    simp only [List.mem_map, List.mem_filter, decide_eq_true_eq]
    constructor
    · rintro ⟨x, ⟨hx, hp, hm⟩, rfl⟩
      exact ⟨x, hx, hp, hm, rfl⟩
    · rintro ⟨x, hx, hp, hm, rfl⟩
      exact ⟨x, ⟨hx, hp, hm⟩, rfl⟩
  rw [hb]
  constructor
  · intro h
    rcases mem_bindAll_units env _ _ _ e h with h1 | h1
    · simp [NewAgentState] at h1
    · exact h1
  · rintro ⟨x, hx, hp, hm, rfl⟩
    exact bindAll_units_of_job env _ _ _
      (names_nodup_of_WF Job.Name cs.jobs hwf.jobs_key hwf.jobs_nodup) x hx hp hm

theorem HasConflict_eq_false_iff (env : Env) (a : AgentState) (g : Unit) :
    a.HasConflict env g.Name (env.Conflicts g) = false ↔
      ∀ e ∈ a.Units, g.Name ≠ e.2.Name → noConflict env e.2 g := by
  unfold AgentState.HasConflict noConflict
  rw [List.any_eq_false]
  constructor
  · intro h e he hne
    have h1 := h e he
    simp only [hne, ne_eq, not_false_eq_true, decide_True, Bool.true_and, Bool.or_eq_true,
      List.any_eq_true, not_or, not_exists, not_and, Bool.not_eq_true] at h1
    exact h1
  · intro h e he
    by_cases hne : g.Name = e.2.Name
    · simp [hne]
    · have h1 := h e he hne
      simp only [hne, ne_eq, not_false_eq_true, decide_True, Bool.true_and, Bool.or_eq_true,
        List.any_eq_true, not_or, not_exists, not_and, Bool.not_eq_true]
      exact h1

theorem HasConflict_congr (env : Env) (a b : AgentState) (g : Unit)
    (h : ∀ e, e ∈ a.Units ↔ e ∈ b.Units) :
    a.HasConflict env g.Name (env.Conflicts g) = b.HasConflict env g.Name (env.Conflicts g) := by
  have h1 := HasConflict_eq_false_iff env a g
  have h2 := HasConflict_eq_false_iff env b g
  have h3 : a.HasConflict env g.Name (env.Conflicts g) = false ↔
      b.HasConflict env g.Name (env.Conflicts g) = false := by
    rw [h1, h2]
    constructor
    · intro hh e he
      exact hh e ((h e).2 he)
    · intro hh e he
      exact hh e ((h e).1 he)
  cases ha : a.HasConflict env g.Name (env.Conflicts g) <;>
    cases hb : b.HasConflict env g.Name (env.Conflicts g) <;> simp_all

theorem agentsGlobalPlace_eq (env : Env) (g : Unit) (a : AgentState) :
    agentsGlobalPlace env g a =
      if placeableOn env a g then { a with Units := mapSet a.Units g.Name g } else a := by
  unfold agentsGlobalPlace
  by_cases h1 : env.HasMetadata a.MState (env.RequiredTargetMetadata g) = true
  · by_cases h2 : a.HasConflict env g.Name (env.Conflicts g) = true
    · have h3 : ¬ placeableOn env a g := fun c => by
        rw [c.2] at h2
        exact Bool.false_ne_true h2
      simp [h1, h2, h3]
    · have h3 : placeableOn env a g := ⟨h1, by simpa using h2⟩
      simp [h1, h2, h3]
  · have h3 : ¬ placeableOn env a g := fun c => h1 c.1
    simp [h1, h3]

theorem placeAll_MState (env : Env) (gs : GoMap Unit) (a : AgentState) :
    (placeAll env gs a).MState = a.MState := by
  unfold placeAll
  induction gs generalizing a with
  | nil => rfl
  | cons e gs ih => rw [List.foldl_cons, ih, agentsGlobalPlace_MState]

theorem GrownFrom.refl (G : GoMap Unit) (a : AgentState) : GrownFrom G a a :=
  ⟨rfl, fun _ h => h, fun _ h => Or.inl h⟩

theorem GrownFrom.grow (env : Env) {G : GoMap Unit} {a₀ a : AgentState}
    (h : GrownFrom G a₀ a) (x : String × Unit) (hx : x ∈ G)
    (hfresh : ∀ e ∈ a₀.Units, e.1 ≠ x.2.Name) :
    GrownFrom G a₀ (agentsGlobalPlace env x.2 a) := by
  rw [agentsGlobalPlace_eq]
  split
  · refine ⟨h.mstate, ?_, ?_⟩
    · intro e he
      exact mem_mapSet_of_mem _ _ _ _ (h.keep e he) (hfresh e he)
    · intro e he
      rcases mem_of_mem_mapSet _ _ _ _ he with h1 | h1
      · exact Or.inr ⟨x, hx, h1⟩
      · exact h.origin e h1
  · exact h

theorem GrownFrom.placeableOn_iff (env : Env) {G : GoMap Unit} {a₀ a : AgentState}
    (h : GrownFrom G a₀ a)
    (hcompat : ∀ e₁ ∈ G, ∀ e₂ ∈ G, e₁.2.Name ≠ e₂.2.Name → noConflict env e₁.2 e₂.2)
    (x : String × Unit) (hx : x ∈ G) :
    placeableOn env a x.2 ↔ placeableOn env a₀ x.2 := by
  unfold placeableOn
  rw [h.mstate, HasConflict_eq_false_iff, HasConflict_eq_false_iff]
  constructor
  · rintro ⟨h1, h2⟩
    exact ⟨h1, fun e he => h2 e (h.keep e he)⟩
  · rintro ⟨h1, h2⟩
    refine ⟨h1, fun e he hne => ?_⟩
    rcases h.origin e he with h3 | ⟨y, hy, rfl⟩
    · exact h2 e h3 hne
    · exact hcompat y hy x hx (fun c => hne c.symm)

theorem mapGet_placeAll (env : Env) (G : GoMap Unit)
    (hcompat : ∀ e₁ ∈ G, ∀ e₂ ∈ G, e₁.2.Name ≠ e₂.2.Name → noConflict env e₁.2 e₂.2)
    (a₀ : AgentState) (hfresh : ∀ x ∈ G, ∀ e ∈ a₀.Units, e.1 ≠ x.2.Name)
    (gs : GoMap Unit) (hsub : ∀ x ∈ gs, x ∈ G) (hnd : (gs.map fun e => e.2.Name).Nodup)
    (a : AgentState) (h : GrownFrom G a₀ a) (k : String) :
    mapGet (placeAll env gs a).Units k =
      match gs.find? (fun e => decide (e.2.Name = k ∧ placeableOn env a₀ e.2)) with
      | some e => some e.2
      | none => mapGet a.Units k := by
  induction gs generalizing a with
  | nil => rfl
  | cons x gs ih =>
    have hxG : x ∈ G := hsub x (List.mem_cons_self _ _)
    simp only [List.map_cons, List.nodup_cons] at hnd
    have hstep : placeAll env (x :: gs) a = placeAll env gs (agentsGlobalPlace env x.2 a) := rfl
    rw [hstep, ih (fun y hy => hsub y (List.mem_cons_of_mem _ hy)) hnd.2 _
      (h.grow env x hxG (hfresh x hxG)), List.find?_cons]
    by_cases hP : x.2.Name = k ∧ placeableOn env a₀ x.2
    · have hnone : List.find? (fun e => decide (e.2.Name = k ∧ placeableOn env a₀ e.2)) gs =
          none := by
        rw [List.find?_eq_none]
        intro y hy
        simp only [decide_eq_true_eq, not_and]
        intro c
        exact absurd (List.mem_map.2 ⟨y, hy, c.trans hP.1.symm⟩) hnd.1
      have hpl : placeableOn env a x.2 := (h.placeableOn_iff env hcompat x hxG).2 hP.2
      rw [hnone, agentsGlobalPlace_eq, if_pos hpl]
      simp [hP, mapGet_mapSet]
    · have hsame : mapGet (agentsGlobalPlace env x.2 a).Units k = mapGet a.Units k := by
        by_cases hk : x.2.Name = k
        · have hnp : ¬ placeableOn env a x.2 := fun c =>
            hP ⟨hk, (h.placeableOn_iff env hcompat x hxG).1 c⟩
          rw [agentsGlobalPlace_eq, if_neg hnp]
        · exact agentsGlobalPlace_units_of_ne env x.2 a hk
      rw [hsame]
      simp [hP]

theorem find?_perm_of_unique {α : Type} (p : α → Bool) {l l' : List α} (hp : l'.Perm l)
    (huniq : ∀ x ∈ l, ∀ y ∈ l, p x = true → p y = true → x = y) :
    l'.find? p = l.find? p := by
  cases h : l.find? p with
  | none =>
    rw [List.find?_eq_none] at h ⊢
    intro x hx
    exact h x (hp.mem_iff.1 hx)
  | some x =>
    have hx : x ∈ l := List.mem_of_find?_eq_some h
    have hpx : p x = true := List.find?_some h
    cases h' : l'.find? p with
    | none =>
      have := List.find?_eq_none.1 h' x (hp.mem_iff.2 hx)
      exact absurd hpx this
    | some y =>
      have hy : y ∈ l := hp.mem_iff.1 (List.mem_of_find?_eq_some h')
      have hpy : p y = true := List.find?_some h'
      exact congrArg some (huniq y hy x hx hpy hpx)

theorem bindAll_fresh (env : Env) (cs : clusterState) (hwf : cs.WF) (huniq : cs.UniqueNames)
    (m : String) (ms : MachineState) :
    ∀ x ∈ cs.gUnits, ∀ e ∈ (bindAll env m cs.jobs (NewAgentState ms)).Units,
      e.1 ≠ x.2.Name := by
  intro x hx e he c
  rcases mem_bindAll_units env _ _ _ e he with h1 | ⟨j, hj, _, _, h1⟩
  · simp [NewAgentState] at h1
  · have hk1 : j.1 ∈ mapKeys cs.jobs := List.mem_map.2 ⟨j, hj, rfl⟩
    have hk2 : x.1 ∈ mapKeys cs.gUnits := List.mem_map.2 ⟨x, hx, rfl⟩
    apply huniq _ hk1
    rw [hwf.jobs_key j hj]
    rw [hwf.gUnits_key x hx, ← c, h1] at hk2
    exact hk2

/-- The `Units` of the agent of a machine after `agents`, in a well-formed
state with unique names whose global units do not conflict with each other:
under the name of a global unit that may be placed on the agent of the bound
units, that unit; under any other name, what the loop over the jobs stored. -/
theorem unitAt_agents (env : Env) (cs : clusterState) (hwf : cs.WF) (huniq : cs.UniqueNames)
    (hcompat : cs.GlobalsCompatible env) (m : String) (ms : MachineState)
    (hm : mapGet cs.machines m = some ms) (k : String) :
    unitAt (cs.agents env) m k =
      match cs.gUnits.find? (fun e => decide (e.2.Name = k ∧
          placeableOn env (bindAll env m cs.jobs (NewAgentState ms)) e.2)) with
      | some e => some e.2
      | none => mapGet (bindAll env m cs.jobs (NewAgentState ms)).Units k := by
  unfold unitAt
  rw [mapGet_agents env cs hwf, hm]
  simp only [Option.map_some', Option.bind_some]
  exact mapGet_placeAll env cs.gUnits hcompat _ (bindAll_fresh env cs hwf huniq m ms)
    cs.gUnits (fun _ h => h)
    (names_nodup_of_WF Unit.Name cs.gUnits hwf.gUnits_key hwf.gUnits_nodup) _
    (GrownFrom.refl _ _) k

/-! ## The `agents` view: global units -/

/-- Claim C2, refuted as stated.  In `idleBoundState` unit names are unique
and there is one global unit, `canary.service`, which conflicts with
`web.service`; `web.service` is bound to `m1` and inactive.  `agents` does not
place the inactive unit on `m1`, so it places `canary.service` there, although
`HasConflict` on the name and the conflicts of `canary.service` is true on the
agent holding the non-global units bound to `m1`. -/
theorem C2_agents_global_units_counterexample :
    idleBoundState.WF ∧ idleBoundState.UniqueNames ∧
      idleBoundState.GlobalsCompatible sampleEnv ∧
      mapGet idleBoundState.machines "m1" = some machine1 ∧
      canaryUnit ∈ idleBoundState.gUnits.map Prod.snd ∧
      inUnits (idleBoundState.agents sampleEnv) "m1" canaryUnit.Name ∧
      (allBoundAgent sampleEnv idleBoundState machine1).HasConflict sampleEnv canaryUnit.Name
          (sampleEnv.Conflicts canaryUnit) = true ∧
      ¬ (inUnits (idleBoundState.agents sampleEnv) "m1" canaryUnit.Name ↔
        sampleEnv.HasMetadata machine1 (sampleEnv.RequiredTargetMetadata canaryUnit) = true ∧
          (allBoundAgent sampleEnv idleBoundState machine1).HasConflict sampleEnv
            canaryUnit.Name (sampleEnv.Conflicts canaryUnit) = false) :=
  ⟨newClusterState_WF _ _ _ _, by decide, by decide, by decide, by decide, by decide,
    by decide, by decide⟩

/-- Claim C2, amended.  In a well-formed cluster state with unique unit names
in which no two global units conflict with each other, for every machine `m`
of the state, with machine state `ms`, and every global unit `g` of the state:
`g.Name` is a key of `agents()[m].Units` if and only if `machine.HasMetadata`
holds of `ms` and the required target metadata of `g`, and
`AgentState.HasConflict` on the name and the conflicts of `g` is false on the
agent holding the non-global units bound to `m` whose target state is not
inactive, the ones that `agents` places on `m`.  Consequently the result of
`agents` is the same for every order in which the map of global units is
visited: the same machine state under every ID and the same unit under every
name of every agent.  When no inactive job of the state is bound, the units
bound to `m` that are not inactive are all the units bound to `m`. -/
theorem C2_agents_global_units_amended (env : Env) (cs : clusterState) (hwf : cs.WF)
    (huniq : cs.UniqueNames) (hcompat : cs.GlobalsCompatible env) :
    (∀ m ms, mapGet cs.machines m = some ms → ∀ g ∈ cs.gUnits.map Prod.snd,
        (inUnits (cs.agents env) m g.Name ↔
          env.HasMetadata ms (env.RequiredTargetMetadata g) = true ∧
            (activeBoundAgent env cs ms).HasConflict env g.Name (env.Conflicts g) = false)) ∧
      (∀ gs' : GoMap Unit, gs'.Perm cs.gUnits → ∀ m,
        (mapGet (clusterState.agents env { cs with gUnits := gs' }) m).map AgentState.MState =
            (mapGet (cs.agents env) m).map AgentState.MState ∧
          ∀ n, unitAt (clusterState.agents env { cs with gUnits := gs' }) m n =
            unitAt (cs.agents env) m n) ∧
      (cs.InactiveUnbound → ∀ ms : MachineState, ms.ID ≠ "" →
        activeBoundAgent env cs ms = allBoundAgent env cs ms) := by
  have hnames := names_nodup_of_WF Unit.Name cs.gUnits hwf.gUnits_key hwf.gUnits_nodup
  have hone : ∀ (k : String) (a : AgentState), ∀ x ∈ cs.gUnits, ∀ y ∈ cs.gUnits,
      decide (x.2.Name = k ∧ placeableOn env a x.2) = true →
      decide (y.2.Name = k ∧ placeableOn env a y.2) = true → x = y := by
    intro k a x hx y hy h1 h2
    simp only [decide_eq_true_eq] at h1 h2
    exact List.inj_on_of_nodup_map hnames hx hy (h1.1.trans h2.1.symm)
  refine ⟨?_, ?_, ?_⟩
  · intro m ms hm g hg
    obtain ⟨x, hx, rfl⟩ := List.mem_map.1 hg
    have hid : ms.ID = m := by
      have hmem := mem_of_mapGet hm
      exact (hwf.machines_key _ hmem).symm
    have hpl : placeableOn env (bindAll env m cs.jobs (NewAgentState ms)) x.2 ↔
        env.HasMetadata ms (env.RequiredTargetMetadata x.2) = true ∧
          (activeBoundAgent env cs ms).HasConflict env x.2.Name (env.Conflicts x.2) = false := by
      unfold placeableOn
      rw [bindAll_MState, ← hid,
        HasConflict_congr env _ (activeBoundAgent env cs ms) x.2
          (fun e => mem_bindAll_iff_activeBoundAgent env cs hwf ms e)]
      rfl
    rw [← hpl]
    unfold inUnits
    rw [unitAt_agents env cs hwf huniq hcompat m ms hm]
    cases hf : List.find? (fun e => decide (e.2.Name = x.2.Name ∧
        placeableOn env (bindAll env m cs.jobs (NewAgentState ms)) e.2)) cs.gUnits with
    | some y =>
      have hy : y ∈ cs.gUnits := List.mem_of_find?_eq_some hf
      have hpy := List.find?_some hf
      simp only [decide_eq_true_eq] at hpy
      have hyx : y = x := List.inj_on_of_nodup_map hnames hy hx hpy.1
      simp only [Option.isSome_some, true_iff]
      exact hyx ▸ hpy.2
    | none =>
      have hno : ¬ placeableOn env (bindAll env m cs.jobs (NewAgentState ms)) x.2 := by
        intro c
        have := List.find?_eq_none.1 hf x hx
        simp [c] at this
      have hget : mapGet (bindAll env m cs.jobs (NewAgentState ms)).Units x.2.Name = none := by
        cases hq : mapGet (bindAll env m cs.jobs (NewAgentState ms)).Units x.2.Name with
        | none => rfl
        | some u => exact absurd rfl (bindAll_fresh env cs hwf huniq m ms x hx _ (mem_of_mapGet hq))
      simp [hget, hno]
  · intro gs' hp m
    have hre : cs.Reordered { cs with gUnits := gs' } :=
      ⟨List.Perm.refl _, hp, List.Perm.refl _⟩
    have hwf' := WF_of_reordered hwf hre
    have huniq' : clusterState.UniqueNames { cs with gUnits := gs' } := by
      intro n hn c
      exact huniq n hn ((hp.map Prod.fst).mem_iff.1 c)
    have hcompat' : clusterState.GlobalsCompatible env { cs with gUnits := gs' } := by
      intro e₁ h₁ e₂ h₂
      exact hcompat e₁ (hp.mem_iff.1 h₁) e₂ (hp.mem_iff.1 h₂)
    constructor
    · rw [mapGet_agents env _ hwf', mapGet_agents env cs hwf]
      cases hm : mapGet cs.machines m <;> simp [hm, placeAll_MState, bindAll_MState]
    · intro n
      cases hm : mapGet cs.machines m with
      | none =>
        unfold unitAt
        rw [mapGet_agents env _ hwf', mapGet_agents env cs hwf]
        simp [hm]
      | some ms =>
        rw [unitAt_agents env _ hwf' huniq' hcompat' m ms hm,
          unitAt_agents env cs hwf huniq hcompat m ms hm]
        have hfind := find?_perm_of_unique (fun e : String × Unit => decide (e.2.Name = n ∧
          placeableOn env (bindAll env m cs.jobs (NewAgentState ms)) e.2)) hp
          (hone n (bindAll env m cs.jobs (NewAgentState ms)))
        simp only [hfind]
  · intro hinv ms hid
    unfold activeBoundAgent allBoundAgent
    congr 2
    apply List.filter_congr
    intro e he
    by_cases ht : e.2.TargetMachineID = ms.ID
    · have hp : e.2.placeable := by
        refine ⟨by rw [ht]; exact hid, fun c => ?_⟩
        exact hid (ht.symm.trans (hinv e he c))
      simp [ht, hp]
    · simp [ht]

/-- Witness of the amended C2 on `placementState`: `canary.service` conflicts
with `web.service`, which is on `m1`, so it is placed on `m2` and not on `m1`;
`eu-proxy.service` requires `region=eu`, so it is placed on `m1` and not on
`m2`. -/
theorem C2_agents_global_units_amended_witness :
    placementState.WF ∧ placementState.UniqueNames ∧
      placementState.GlobalsCompatible placementEnv ∧
      ¬ inUnits (placementState.agents placementEnv) "m1" canaryUnit.Name ∧
      inUnits (placementState.agents placementEnv) "m2" canaryUnit.Name ∧
      inUnits (placementState.agents placementEnv) "m1" euUnit.Name ∧
      ¬ inUnits (placementState.agents placementEnv) "m2" euUnit.Name :=
  ⟨newClusterState_WF _ _ _ _, by decide, by decide,
    fun h => absurd
      (((C2_agents_global_units_amended placementEnv placementState
        (newClusterState_WF _ _ _ _) (by decide) (by decide)).1 "m1" machine1 (by decide)
        canaryUnit (by decide)).1 h).2 (by decide),
    ((C2_agents_global_units_amended placementEnv placementState
      (newClusterState_WF _ _ _ _) (by decide) (by decide)).1 "m2" machine2 (by decide)
      canaryUnit (by decide)).2 ⟨by decide, by decide⟩,
    ((C2_agents_global_units_amended placementEnv placementState
      (newClusterState_WF _ _ _ _) (by decide) (by decide)).1 "m1" machine1 (by decide)
      euUnit (by decide)).2 ⟨by decide, by decide⟩,
    fun h => absurd
      (((C2_agents_global_units_amended placementEnv placementState
        (newClusterState_WF _ _ _ _) (by decide) (by decide)).1 "m2" machine2 (by decide)
        euUnit (by decide)).1 h).1 (by decide)⟩

/-! ## The `agents` view: conflicts -/

theorem noConflict_symm (env : Env) {x g : Unit} (h : noConflict env x g) :
    noConflict env g x :=
  ⟨h.2, h.1⟩

theorem ConflictFree.of_place (env : Env) (isG : Unit → Prop) (g : Unit) (a : AgentState)
    (h : ConflictFree env isG a) : ConflictFree env isG (agentsGlobalPlace env g a) := by
  rw [agentsGlobalPlace_eq]
  split
  · rename_i hpl
    have hnc := (HasConflict_eq_false_iff env a g).1 hpl.2
    intro e he e' he' hG hne
    rcases mem_of_mem_mapSet _ _ _ _ he with h1 | h1 <;>
      rcases mem_of_mem_mapSet _ _ _ _ he' with h2 | h2
    · subst h1
      subst h2
      exact absurd rfl hne
    · subst h1
      exact noConflict_symm env (hnc e' h2 hne)
    · subst h2
      exact hnc e h1 (fun c => hne c.symm)
    · exact h e h1 e' h2 hG hne
  · exact h

theorem ConflictFree.of_placeAll (env : Env) (isG : Unit → Prop) (gs : GoMap Unit)
    (a : AgentState) (h : ConflictFree env isG a) :
    ConflictFree env isG (placeAll env gs a) := by
  unfold placeAll
  induction gs generalizing a with
  | nil => exact h
  | cons x gs ih =>
    rw [List.foldl_cons]
    exact ih _ (h.of_place env isG x.2)

theorem mem_placeAll_units (env : Env) (gs : GoMap Unit) (a : AgentState)
    (e : String × Unit) (he : e ∈ (placeAll env gs a).Units) :
    e ∈ a.Units ∨ ∃ x ∈ gs, e = (x.2.Name, x.2) := by
  unfold placeAll at he
  induction gs generalizing a with
  | nil => exact Or.inl he
  | cons x gs ih =>
    rw [List.foldl_cons] at he
    rcases ih _ he with h | ⟨y, hy, h⟩
    · rw [agentsGlobalPlace_eq] at h
      split at h
      · rcases mem_of_mem_mapSet _ _ _ _ h with h1 | h1
        · exact Or.inr ⟨x, List.mem_cons_self _ _, h1⟩
        · exact Or.inl h1
      · exact Or.inl h
    · exact Or.inr ⟨y, List.mem_cons_of_mem _ hy, h⟩

/-- Conflict symmetry on the agents of a well-formed state with unique names:
two distinct units of an agent, one of them a global unit of the state, do not
conflict. -/
theorem noConflict_of_agents (env : Env) (cs : clusterState) (hwf : cs.WF)
    (huniq : cs.UniqueNames) (m : String) (a : AgentState)
    (ha : mapGet (cs.agents env) m = some a) (kx kg : String) (x g : Unit)
    (hx : mapGet a.Units kx = some x) (hg : mapGet a.Units kg = some g) (hne : x ≠ g)
    (hglobal : g ∈ cs.gUnits.map Prod.snd) : noConflict env x g := by
  rw [mapGet_agents env cs hwf] at ha
  cases hm : mapGet cs.machines m with
  | none => simp [hm] at ha
  | some ms =>
    simp only [hm, Option.map_some', Option.some.injEq] at ha
    have hjob : ∀ e ∈ (bindAll env m cs.jobs (NewAgentState ms)).Units,
        ∃ j ∈ cs.jobs, e = (j.2.Name, unitOfJob env j.2) := by
      intro e he
      rcases mem_bindAll_units env _ _ _ e he with h1 | ⟨j, hj, _, _, h1⟩
      · simp [NewAgentState] at h1
      · exact ⟨j, hj, h1⟩
    have hkey : ∀ e ∈ a.Units, e.1 = e.2.Name := by
      intro e he
      rw [← ha] at he
      rcases mem_placeAll_units env _ _ e he with h1 | ⟨y, _, h1⟩
      · obtain ⟨j, _, h2⟩ := hjob e h1
        rw [h2]
        rfl
      · rw [h1]
    have hfree0 : ConflictFree env (fun u => u ∈ cs.gUnits.map Prod.snd)
        (bindAll env m cs.jobs (NewAgentState ms)) := by
      intro e _ e' he' hG _
      exfalso
      obtain ⟨j, hj, h2⟩ := hjob e' he'
      obtain ⟨y, hy, h3⟩ := List.mem_map.1 hG
      have hk1 : j.1 ∈ mapKeys cs.jobs := List.mem_map.2 ⟨j, hj, rfl⟩
      have hk2 : y.1 ∈ mapKeys cs.gUnits := List.mem_map.2 ⟨y, hy, rfl⟩
      apply huniq _ hk1
      have hname : y.2.Name = j.2.Name := by
        rw [h3, h2]
        rfl
      rw [hwf.jobs_key j hj, ← hname, ← hwf.gUnits_key y hy]
      exact hk2
    have hfree : ConflictFree env (fun u => u ∈ cs.gUnits.map Prod.snd) a := by
      rw [← ha]
      exact hfree0.of_placeAll env _ cs.gUnits _
    have hxm := mem_of_mapGet hx
    have hgm := mem_of_mapGet hg
    have hnames : x.Name ≠ g.Name := by
      intro c
      have hk : kx = kg := (hkey _ hxm).trans (c.trans (hkey _ hgm).symm)
      rw [hk, hg] at hx
      exact hne (Option.some.inj hx).symm
    exact hfree _ hxm _ hgm hglobal hnames

/-- Claim C3.  Conflict symmetry in the `agents` view.  In a well-formed
cluster state `cs` with unique unit names, for every order `gs` in which the
map of global units is visited and every agent `a` returned by `agents`: if
two distinct units `x` and `g` are both in `a.Units` and `g` is a global unit
of the state, then no conflicts-with pattern of `g` matches the name of `x`
and no conflicts-with pattern of `x` matches the name of `g`, whichever of the
two was placed first. -/
theorem C3_global_conflict_symmetry (env : Env) (cs : clusterState) (hwf : cs.WF)
    (huniq : cs.UniqueNames) (gs : GoMap Unit) (hgs : gs.Perm cs.gUnits)
    (m : String) (a : AgentState)
    (ha : mapGet (clusterState.agents env { cs with gUnits := gs }) m = some a)
    (kx kg : String) (x g : Unit)
    (hx : mapGet a.Units kx = some x) (hg : mapGet a.Units kg = some g) (hne : x ≠ g)
    (hglobal : g ∈ cs.gUnits.map Prod.snd) :
    (∀ c ∈ env.Conflicts g, env.globMatches c x.Name = false) ∧
      (∀ c ∈ env.Conflicts x, env.globMatches c g.Name = false) := by
  have hre : cs.Reordered { cs with gUnits := gs } :=
    ⟨List.Perm.refl _, hgs, List.Perm.refl _⟩
  have huniq' : clusterState.UniqueNames { cs with gUnits := gs } := by
    intro n hn c
    exact huniq n hn ((hgs.map Prod.fst).mem_iff.1 c)
  exact noConflict_of_agents env _ (WF_of_reordered hwf hre) huniq' m a ha kx kg x g hx hg hne
    ((hgs.map Prod.snd).mem_iff.2 hglobal)

/-- Witness of C3 on the sample: on the agent of `m1`, `web.service` and the
global unit `node-exporter.service` do not conflict. -/
theorem C3_global_conflict_symmetry_witness :
    sampleState.WF ∧ sampleState.UniqueNames ∧
      mapGet (sampleState.agents sampleEnv) "m1" =
        some { MState := machine1
               Units := [("web.service", webUnit), ("node-exporter.service", exporterUnit)] } ∧
      ((∀ c ∈ sampleEnv.Conflicts exporterUnit, sampleEnv.globMatches c webUnit.Name = false) ∧
        (∀ c ∈ sampleEnv.Conflicts webUnit,
          sampleEnv.globMatches c exporterUnit.Name = false)) :=
  ⟨newClusterState_WF _ _ _ _, by decide, by decide,
    C3_global_conflict_symmetry sampleEnv sampleState (newClusterState_WF _ _ _ _) (by decide)
      sampleState.gUnits (List.Perm.refl _) "m1"
      { MState := machine1
        Units := [("web.service", webUnit), ("node-exporter.service", exporterUnit)] }
      (by decide) "web.service" "node-exporter.service" webUnit exporterUnit (by decide)
      (by decide) (by decide) (by decide)⟩

/-! ## The invariant on inactive jobs -/

theorem InactiveUnbound_newClusterState (env : Env) (units : List Unit)
    (sUnits : List ScheduledUnit) (machines : List MachineState)
    (hin : ∀ u ∈ units, env.IsGlobal u = false → u.TargetState = JobStateInactive →
      ∀ s, scheduledRecord sUnits u.Name = some s → s.TargetMachineID = "") :
    (newClusterState env units sUnits machines).InactiveUnbound := by
  intro e he hina
  rw [newClusterState_jobs] at he
  obtain ⟨u, hu, _, h2⟩ := mem_foldl_mapSet_nil Unit.Name _ _ e he
  have hu' := List.mem_filter.1 hu
  rw [← h2] at hina ⊢
  rw [newJob_TargetState] at hina
  rw [newJob_TargetMachineID, mapGet_sUnitMap]
  cases hrec : scheduledRecord sUnits u.Name with
  | none => rfl
  | some r => exact hin u hu'.1 (by simpa using hu'.2) hina r hrec

theorem InactiveUnbound_unschedule (cs : clusterState) (n : String)
    (h : cs.InactiveUnbound) : (cs.unschedule n).InactiveUnbound := by
  unfold clusterState.unschedule
  cases hj : mapGet cs.jobs n with
  | none => exact h
  | some j =>
    intro e he hina
    rcases mem_of_mem_mapSet _ _ _ _ he with h1 | h1
    · rw [h1]
    · exact h e h1 hina

theorem InactiveUnbound_schedule (cs : clusterState) (n m : String)
    (h : cs.InactiveUnbound) (hop : (Op.schedule n m).keepsInactiveUnbound cs) :
    (cs.schedule n m).InactiveUnbound := by
  unfold clusterState.schedule
  cases hj : mapGet cs.jobs n with
  | none => exact h
  | some j =>
    intro e he hina
    rcases mem_of_mem_mapSet _ _ _ _ he with h1 | h1
    · rw [h1] at hina ⊢
      rcases hop with h2 | h2
      · exact h2
      · exact absurd hina (h2 j hj)
    · exact h e h1 hina

theorem InactiveUnbound_applyAll (cs : clusterState) (ops : List Op)
    (h : cs.InactiveUnbound) (hops : cs.keepInactiveUnbound ops) :
    (cs.applyAll ops).InactiveUnbound := by
  unfold clusterState.applyAll
  induction ops generalizing cs with
  | nil => exact h
  | cons op ops ih =>
    rw [List.foldl_cons]
    apply ih _ _ hops.2
    cases op with
    | schedule n m => exact InactiveUnbound_schedule cs n m h hops.1
    | unschedule n => exact InactiveUnbound_unschedule cs n h

/-- Claim C4, refuted as stated.  `newClusterState` copies the machine ID of
the scheduled record whatever the target state: the inactive unit
`idle.service` with a record bound to `m1` gives an inactive job whose
`TargetMachineID` is `m1`.  And `schedule` binds a job whatever its target
state: from a state that satisfies the invariant, `schedule` of the inactive
job to `m1` leaves a state that does not. -/
theorem C4_inactive_unbound_counterexample :
    ¬ (newClusterState sampleEnv [idleUnit] [idleBinding] []).InactiveUnbound ∧
      (newClusterState sampleEnv [idleUnit] [] []).InactiveUnbound ∧
      ¬ ((newClusterState sampleEnv [idleUnit] [] []).applyAll
          [Op.schedule "idle.service" "m1"]).InactiveUnbound := by
  decide

/-- Claim C4, amended.  If the scheduled record of every inactive non-global
unit of `units` has an empty `TargetMachineID`, every job of
`newClusterState units sUnits machines` whose target state is inactive has an
empty `TargetMachineID`, and this still holds after any sequence of `schedule`
and `unschedule` calls none of which schedules an inactive job to a non-empty
machine ID. -/
theorem C4_inactive_unbound_amended (env : Env) (units : List Unit)
    (sUnits : List ScheduledUnit) (machines : List MachineState) (ops : List Op)
    (hin : ∀ u ∈ units, env.IsGlobal u = false → u.TargetState = JobStateInactive →
      ∀ s, scheduledRecord sUnits u.Name = some s → s.TargetMachineID = "")
    (hops : (newClusterState env units sUnits machines).keepInactiveUnbound ops) :
    (newClusterState env units sUnits machines).InactiveUnbound ∧
      ((newClusterState env units sUnits machines).applyAll ops).InactiveUnbound :=
  ⟨InactiveUnbound_newClusterState env units sUnits machines hin,
    InactiveUnbound_applyAll _ ops
      (InactiveUnbound_newClusterState env units sUnits machines hin) hops⟩

/-- Witness of the amended C4: the sample with the inactive unit added,
unbound, through a `schedule` of `web.service` and an `unschedule` of
`idle.service`. -/
theorem C4_inactive_unbound_amended_witness :
    ((newClusterState sampleEnv [webUnit, idleUnit] [webBinding]
        [machine1, machine2]).applyAll
      [Op.schedule "web.service" "m2", Op.unschedule "idle.service"]).InactiveUnbound :=
  (C4_inactive_unbound_amended sampleEnv [webUnit, idleUnit] [webBinding]
    [machine1, machine2] [Op.schedule "web.service" "m2", Op.unschedule "idle.service"]
    (by decide) ⟨Or.inr (by decide), trivial, trivial⟩).2

/-! ## `schedule` and `unschedule` -/

theorem mapKeys_mapSet_of_mem {V : Type} (m : GoMap V) (k : String) (v : V)
    (hk : k ∈ mapKeys m) : mapKeys (mapSet m k v) = mapKeys m := by
  induction m with
  | nil => simp [mapKeys] at hk
  | cons e m ih =>
    obtain ⟨k0, v0⟩ := e
    by_cases h : k0 = k
    · subst h
      simp [mapSet, mapKeys]
    · have hk' : k ∈ mapKeys m := by
        simp only [mapKeys, List.map_cons, List.mem_cons] at hk
        rcases hk with h1 | h1
        · exact absurd h1.symm h
        · exact h1
      have := ih hk'
      simp only [mapKeys] at this
      simp [mapSet, h, mapKeys, this]

theorem mapSet_mapSet {V : Type} (m : GoMap V) (k : String) (v v' : V) :
    mapSet (mapSet m k v) k v' = mapSet m k v' := by
  induction m with
  | nil => simp [mapSet]
  | cons e m ih =>
    obtain ⟨k0, v0⟩ := e
    by_cases h : k0 = k
    · subst h
      simp [mapSet]
    · simp [mapSet, h, ih]

theorem schedule_of_job (cs : clusterState) (n m : String) (j : Job)
    (hj : mapGet cs.jobs n = some j) :
    cs.schedule n m = { cs with jobs := mapSet cs.jobs n { j with TargetMachineID := m } } := by
  unfold clusterState.schedule
  rw [hj]

theorem unschedule_of_job (cs : clusterState) (n : String) (j : Job)
    (hj : mapGet cs.jobs n = some j) :
    cs.unschedule n = { cs with jobs := mapSet cs.jobs n { j with TargetMachineID := "" } } := by
  unfold clusterState.unschedule
  rw [hj]

theorem unschedule_of_none (cs : clusterState) (n : String) (hj : mapGet cs.jobs n = none) :
    cs.unschedule n = cs := by
  unfold clusterState.unschedule
  rw [hj]

/-- Claim C5.  For every cluster state `cs`, job name `n` and machine ID `m`,
known machine or not: if `n` names a job of `cs`, then after
`cs.schedule(n, m)` the job under `n` is the same job with `TargetMachineID`
set to `m`, the job under every other name is unchanged, the names of the jobs
are unchanged, and the global units and the machine records are unchanged; if
`n` names no job (an unknown name or the name of a global unit),
`cs.schedule(n, m)` is `cs`. -/
theorem C5_schedule_frame (cs : clusterState) (n m : String) :
    (∀ j, mapGet cs.jobs n = some j →
        mapGet (cs.schedule n m).jobs n = some { j with TargetMachineID := m } ∧
          (∀ n', n' ≠ n → mapGet (cs.schedule n m).jobs n' = mapGet cs.jobs n') ∧
          mapKeys (cs.schedule n m).jobs = mapKeys cs.jobs ∧
          (cs.schedule n m).gUnits = cs.gUnits ∧
          (cs.schedule n m).machines = cs.machines) ∧
      (mapGet cs.jobs n = none → cs.schedule n m = cs) := by
  constructor
  · intro j hj
    rw [schedule_of_job cs n m j hj]
    refine ⟨mapGet_mapSet_self _ _ _, ?_, ?_, rfl, rfl⟩
    · intro n' hn'
      exact mapGet_mapSet_of_ne _ _ (fun c => hn' c.symm)
    · apply mapKeys_mapSet_of_mem
      rw [← mapGet_isSome_iff, hj]
      rfl
  · intro hj
    unfold clusterState.schedule
    rw [hj]

/-- Witness of C5 on the sample: `schedule` of `web.service` to the unknown
machine `m9` binds it there, and `schedule` of the global unit
`node-exporter.service` changes nothing. -/
theorem C5_schedule_frame_witness :
    mapGet (sampleState.schedule "web.service" "m9").jobs "web.service" =
        some { Name := "web.service", State := none, TargetState := JobState.launched,
               TargetMachineID := "m9", Unit := "" } ∧
      sampleState.schedule "node-exporter.service" "m1" = sampleState :=
  ⟨((C5_schedule_frame sampleState "web.service" "m9").1
      { Name := "web.service", State := none, TargetState := JobState.launched,
        TargetMachineID := "m1", Unit := "" } (by decide)).1,
    (C5_schedule_frame sampleState "node-exporter.service" "m1").2 (by decide)⟩

theorem WF_unschedule (cs : clusterState) (hwf : cs.WF) (n : String) :
    (cs.unschedule n).WF := by
  cases hj : mapGet cs.jobs n with
  | none =>
    rw [unschedule_of_none cs n hj]
    exact hwf
  | some j =>
    rw [unschedule_of_job cs n j hj]
    have hmem := mem_of_mapGet hj
    refine ⟨?_, ?_, hwf.gUnits_key, hwf.gUnits_nodup, hwf.machines_key, hwf.machines_nodup⟩
    · intro e he
      rcases mem_of_mem_mapSet _ _ _ _ he with h1 | h1
      · rw [h1]
        exact hwf.jobs_key (n, j) hmem
      · exact hwf.jobs_key e h1
    · exact nodup_mapKeys_mapSet _ _ _ hwf.jobs_nodup

/-- Claim C6.  In a well-formed cluster state `cs` with unique unit names, for
every name `n` of a (non-global) job: after `cs.unschedule(n)`, `n` is a key of
the `Units` of no agent of `agents()`, and every other job is in the `Units`
of exactly the same agents as before; `unschedule` is idempotent, and
`cs.schedule(n, m)` followed by `unschedule(n)` leaves the same state as
`cs.unschedule(n)` alone. -/
theorem C6_unschedule (env : Env) (cs : clusterState) (hwf : cs.WF) (huniq : cs.UniqueNames)
    (n : String) (hn : n ∈ mapKeys cs.jobs) (m : String) :
    (∀ a, ¬ inUnits ((cs.unschedule n).agents env) a n) ∧
      (∀ n', n' ∈ mapKeys cs.jobs → n' ≠ n → ∀ a,
        (inUnits ((cs.unschedule n).agents env) a n' ↔ inUnits (cs.agents env) a n')) ∧
      (cs.unschedule n).unschedule n = cs.unschedule n ∧
      (cs.schedule n m).unschedule n = cs.unschedule n := by
  obtain ⟨j, hj⟩ := Option.isSome_iff_exists.1 ((mapGet_isSome_iff cs.jobs n).2 hn)
  have hwf' := WF_unschedule cs hwf n
  have hun := unschedule_of_job cs n j hj
  have hg : (cs.unschedule n).gUnits = cs.gUnits := by rw [hun]
  have hmach : (cs.unschedule n).machines = cs.machines := by rw [hun]
  have hjobs : (cs.unschedule n).jobs = mapSet cs.jobs n { j with TargetMachineID := "" } := by
    rw [hun]
  refine ⟨?_, ?_, ?_, ?_⟩
  · intro a hin
    have hk : n ∉ mapKeys (cs.unschedule n).gUnits := by
      rw [hg]
      exact huniq n hn
    rw [inUnits_agents_of_not_global env _ hwf' a n hk, hjobs, mapGet_mapSet_self] at hin
    obtain ⟨_, j', h1, _, h3⟩ := hin
    cases h1
    exact h3.1 rfl
  · intro n' hn' hne a
    have hk : n' ∉ mapKeys cs.gUnits := huniq n' hn'
    have hk' : n' ∉ mapKeys (cs.unschedule n).gUnits := by
      rw [hg]
      exact hk
    rw [inUnits_agents_of_not_global env _ hwf' a n' hk',
      inUnits_agents_of_not_global env cs hwf a n' hk, hjobs, hmach,
      mapGet_mapSet_of_ne _ _ (fun c => hne c.symm)]
  · have hj' : mapGet (cs.unschedule n).jobs n = some { j with TargetMachineID := "" } := by
      rw [hjobs]
      exact mapGet_mapSet_self _ _ _
    rw [unschedule_of_job _ n _ hj', hjobs, mapSet_mapSet, hun]
  · have hs := schedule_of_job cs n m j hj
    have hj' : mapGet (cs.schedule n m).jobs n = some { j with TargetMachineID := m } := by
      rw [hs]
      exact mapGet_mapSet_self _ _ _
    rw [unschedule_of_job _ n _ hj', hs, hun]
    simp only [mapSet_mapSet]

/-- Witness of C6 on the sample: after `unschedule` of `web.service` the unit
is on no agent. -/
theorem C6_unschedule_witness :
    sampleState.WF ∧ sampleState.UniqueNames ∧ "web.service" ∈ mapKeys sampleState.jobs ∧
      (¬ inUnits ((sampleState.unschedule "web.service").agents sampleEnv) "m1" "web.service") ∧
      (sampleState.schedule "web.service" "m2").unschedule "web.service" =
        sampleState.unschedule "web.service" :=
  ⟨newClusterState_WF _ _ _ _, by decide, by decide,
    (C6_unschedule sampleEnv sampleState (newClusterState_WF _ _ _ _) (by decide)
      "web.service" (by decide) "m2").1 "m1",
    (C6_unschedule sampleEnv sampleState (newClusterState_WF _ _ _ _) (by decide)
      "web.service" (by decide) "m2").2.2.2⟩

/-! ## The connect loop of `Server.Run` -/

/-- The shape of the connect loop: either the heart succeeds at an attempt `j`
that the fuel reaches, after failing at the attempts before, and the loop
ends with the events of `j` failed attempts and the call that succeeds; or the
heart fails at every attempt that the fuel reaches, and the loop has performed
the events of that many failed attempts. -/
theorem connect_shape (s : Server) (heartOk : Nat → Bool) :
    ∀ (fuel k : Nat) (d : Duration),
      (∃ j, j < fuel ∧ (∀ i, i < j → heartOk (k + i) = false) ∧ heartOk (k + j) = true ∧
          s.connect heartOk fuel k d = (failedTrace s.heartCall j d ++ [s.heartCall], true)) ∨
        ((∀ i, i < fuel → heartOk (k + i) = false) ∧
          s.connect heartOk fuel k d = (failedTrace s.heartCall fuel d, false)) := by
  intro fuel
  induction fuel with
  | zero =>
    intro k d
    exact Or.inr ⟨fun i hi => absurd hi (Nat.not_lt_zero i), rfl⟩
  | succ f ih =>
    intro k d
    by_cases hk : heartOk k = true
    · refine Or.inl ⟨0, Nat.succ_pos f, fun i hi => absurd hi (Nat.not_lt_zero i), hk, ?_⟩
      unfold Server.connect Server.heartCall
      cases s.restartServer <;> simp [hk, failedTrace]
    · have hk' : heartOk k = false := by simpa using hk
      have hstep : s.connect heartOk (f + 1) k d =
          (s.heartCall :: Event.eClientSync :: Event.sleep d ::
            (s.connect heartOk f (k + 1) (ExpBackoff d Minute)).1,
            (s.connect heartOk f (k + 1) (ExpBackoff d Minute)).2) := by
        rw [Server.connect]
        unfold Server.heartCall
        cases s.restartServer <;> simp [hk']
      rcases ih (k + 1) (ExpBackoff d Minute) with ⟨j, hj, hfail, hok, heq⟩ | ⟨hfail, heq⟩
      · refine Or.inl ⟨j + 1, Nat.succ_lt_succ hj, ?_, ?_, ?_⟩
        · intro i hi
          cases i with
          | zero => exact hk'
          | succ i =>
            have := hfail i (Nat.lt_of_succ_lt_succ hi)
            rwa [show k + 1 + i = k + (i + 1) by omega] at this
        · rwa [show k + 1 + j = k + (j + 1) by omega] at hok
        · rw [hstep, heq]
          rfl
      · refine Or.inr ⟨?_, ?_⟩
        · intro i hi
          cases i with
          | zero => exact hk'
          | succ i =>
            have := hfail i (Nat.lt_of_succ_lt_succ hi)
            rwa [show k + 1 + i = k + (i + 1) by omega] at this
        · rw [hstep, heq]
          rfl

theorem connect_of_first_ok (s : Server) (heartOk : Nat → Bool) (n fuel : Nat) (d : Duration)
    (hfail : ∀ i, i < n → heartOk i = false) (hok : heartOk n = true) (hfuel : n < fuel) :
    s.connect heartOk fuel 0 d = (failedTrace s.heartCall n d ++ [s.heartCall], true) := by
  rcases connect_shape s heartOk fuel 0 d with ⟨j, _, hfail', hok', heq⟩ | ⟨hfail', _⟩
  · have hjn : j = n := by
      rcases Nat.lt_trichotomy j n with h | h | h
      · have h1 := hfail j h
        rw [Nat.zero_add] at hok'
        rw [h1] at hok'
        exact absurd hok' (by decide)
      · exact h
      · have h1 := hfail' n h
        rw [Nat.zero_add, hok] at h1
        exact absurd h1 (by decide)
    rw [heq, hjn]
  · have h1 := hfail' n hfuel
    rw [Nat.zero_add, hok] at h1
    exact absurd h1 (by decide)

theorem connect_of_all_fail (s : Server) (heartOk : Nat → Bool) (fuel : Nat) (d : Duration)
    (hfail : ∀ i, i < fuel → heartOk i = false) :
    s.connect heartOk fuel 0 d = (failedTrace s.heartCall fuel d, false) := by
  rcases connect_shape s heartOk fuel 0 d with ⟨j, hj, _, hok', _⟩ | ⟨_, heq⟩
  · have h1 := hfail j hj
    rw [Nat.zero_add, h1] at hok'
    exact absurd hok' (by decide)
  · exact heq

theorem failedTrace_filter_isHeart (call : Event) (hcall : call.isHeart = true) (n : Nat)
    (d : Duration) : (failedTrace call n d).filter Event.isHeart = List.replicate n call := by
  induction n generalizing d with
  | zero => rfl
  | succ n ih =>
    unfold failedTrace
    rw [List.filter_cons_of_pos (by simpa using hcall),
      List.filter_cons_of_neg (by simp [Event.isHeart]),
      List.filter_cons_of_neg (by simp [Event.isHeart]), ih, ← List.replicate_succ]

theorem mem_failedTrace (call : Event) (n : Nat) (d : Duration) (e : Event)
    (he : e ∈ failedTrace call n d) :
    e = call ∨ e = Event.eClientSync ∨ ∃ d', e = Event.sleep d' := by
  induction n generalizing d with
  | zero => simp [failedTrace] at he
  | succ n ih =>
    simp only [failedTrace, List.mem_cons] at he
    rcases he with h | h | h | h
    · exact Or.inl h
    · exact Or.inr (Or.inl h)
    · exact Or.inr (Or.inr ⟨d, h⟩)
    · exact ih _ h

theorem heartCall_isHeart (s : Server) : s.heartCall.isHeart = true := by
  unfold Server.heartCall
  cases s.restartServer <;> rfl

theorem heartCall_sleepOf (s : Server) : s.heartCall.sleepOf = none := by
  unfold Server.heartCall
  cases s.restartServer <;> rfl

/-- Every event of the connect loop is the call of the heart of the server, a
sync of the client or a sleep. -/
theorem mem_connect (s : Server) (heartOk : Nat → Bool) (fuel k : Nat) (d : Duration)
    (e : Event) (he : e ∈ (s.connect heartOk fuel k d).1) :
    e = s.heartCall ∨ e = Event.eClientSync ∨ ∃ d', e = Event.sleep d' := by
  rcases connect_shape s heartOk fuel k d with ⟨j, _, _, _, heq⟩ | ⟨_, heq⟩
  · rw [heq] at he
    rcases List.mem_append.1 he with h | h
    · exact mem_failedTrace _ _ _ _ h
    · exact Or.inl (List.mem_singleton.1 h)
  · rw [heq] at he
    exact mem_failedTrace _ _ _ _ he

theorem ofRun_of_mem_Run (s : Server) (heartOk : Nat → Bool) (fuel : Nat) (e : Event)
    (he : e ∈ (s.Run heartOk fuel).1) : e.ofRun = true := by
  have hloop : ∀ e ∈ (s.connect heartOk fuel 0 Second).1, e.ofRun = true := by
    intro e he
    rcases mem_connect s heartOk fuel 0 Second e he with h | h | ⟨d', h⟩
    · rw [h]
      unfold Server.heartCall
      cases s.restartServer <;> rfl
    · rw [h]
      rfl
    · rw [h]
      rfl
  unfold Server.Run at he
  by_cases hfin : (s.connect heartOk fuel 0 Second).2 = true
  · simp only [hfin, if_true, List.mem_append, List.mem_singleton, List.mem_map] at he
    rcases he with (h | h) | ⟨c, _, h⟩
    · exact hloop e h
    · rw [h]
      rfl
    · rw [← h]
      rfl
  · simp only [hfin, if_false] at he
    exact hloop e he

theorem register_not_mem_Run (s : Server) (hr : s.restartServer = true) (heartOk : Nat → Bool)
    (fuel : Nat) (ttl : Duration) : Event.hrtRegister ttl ∉ (s.Run heartOk fuel).1 := by
  have hcall : s.heartCall = Event.hrtBeat s.monTTL := by
    unfold Server.heartCall
    rw [hr]
    rfl
  have hloop : Event.hrtRegister ttl ∉ (s.connect heartOk fuel 0 Second).1 := by
    intro he
    rcases mem_connect s heartOk fuel 0 Second _ he with h | h | ⟨d', h⟩
    · rw [hcall] at h
      cases h
    · cases h
    · cases h
  intro he
  unfold Server.Run at he
  by_cases hfin : (s.connect heartOk fuel 0 Second).2 = true
  · simp only [hfin, if_true, List.mem_append, List.mem_singleton, List.mem_map] at he
    rcases he with (h | h) | ⟨c, _, h⟩
    · exact hloop h
    · cases h
    · cases h
  · simp only [hfin, if_false] at he
    exact hloop he

/-- Claim C7.  In `Server.Run`, every call of the heart of the connect loop is
the call of the server, made with the TTL of the monitor: `Heart.Beat` when
`restartServer` is true and `Heart.Register` when it is false, whatever the
heart does and however long the loop runs.  When the call of the heart fails
at the attempts before attempt `n` and succeeds at attempt `n`, the loop ends
(given the fuel for `n + 1` attempts) after exactly `n + 1` such calls, one
for each attempt up to the first that succeeds, and its last event is the call
that succeeds.  And `Heart.Register` is never called in a run that `Supervise`
starts, whatever the monitor and the heart do. -/
theorem C7_connect_heart_calls (s : Server) (heartOk : Nat → Bool) (n fuel : Nat)
    (hfail : ∀ i, i < n → heartOk i = false) (hok : heartOk n = true) (hfuel : n < fuel) :
    ((s.connect heartOk fuel 0 Second).2 = true ∧
        (s.connect heartOk fuel 0 Second).1.filter Event.isHeart =
          List.replicate (n + 1)
            (if s.restartServer then Event.hrtBeat s.monTTL else Event.hrtRegister s.monTTL) ∧
        (s.connect heartOk fuel 0 Second).1.getLast? =
          some (if s.restartServer then Event.hrtBeat s.monTTL else Event.hrtRegister s.monTTL)) ∧
      (∀ (ok : Nat → Bool) (f : Nat), ∀ e ∈ (s.connect ok f 0 Second).1, e.isHeart = true →
        e = if s.restartServer then Event.hrtBeat s.monTTL else Event.hrtRegister s.monTTL) ∧
      (∀ (sd done : Bool) (ok : Nat → Bool) (f : Nat) (ttl : Duration),
        Event.hrtRegister ttl ∉ (s.Supervise sd done ok f).trace) := by
  refine ⟨?_, ?_, ?_⟩
  · rw [connect_of_first_ok s heartOk n fuel Second hfail hok hfuel]
    refine ⟨rfl, ?_, List.getLast?_concat _⟩
    show List.filter Event.isHeart (failedTrace s.heartCall n Second ++ [s.heartCall]) = _
    rw [List.filter_append, failedTrace_filter_isHeart _ (heartCall_isHeart s),
      List.filter_cons_of_pos (by simpa using heartCall_isHeart s), List.filter_nil,
      List.replicate_succ']
    rfl
  · intro ok f e he hh
    rcases mem_connect s ok f 0 Second e he with h | h | ⟨d', h⟩
    · exact h
    · rw [h] at hh
      exact absurd hh (by decide)
    · rw [h] at hh
      exact absurd hh (by simp [Event.isHeart])
  · intro sd done ok f ttl
    have hrun := register_not_mem_Run (s.SetRestartServer true) rfl ok f ttl
    unfold Server.Supervise
    cases done <;> cases sd
    · simp
    · simp
    · by_cases hfin : ((s.SetRestartServer true).Run ok f).2 = true
      · simp [hfin, hrun]
      · simp [hfin, hrun]
    · simp

/-- Witness of C7: the first start of the sample server with a heart whose
first three calls fail makes four calls of `Heart.Register`. -/
theorem C7_connect_heart_calls_witness :
    (sampleServer.connect sampleHeart 10 0 Second).1.filter Event.isHeart =
      List.replicate 4 (Event.hrtRegister (30 * Second)) :=
  (C7_connect_heart_calls sampleServer sampleHeart 3 10 (by decide) (by decide)
    (by decide)).1.2.1

theorem backoff_step (x M : Nat) :
    (if min x M * 2 > M then M else min x M * 2) = min (x * 2) M := by
  split <;> omega

theorem backoff_mono (x M : Nat) : min x M ≤ min (x * 2) M := by
  omega

theorem ExpBackoff_backoffAt (k : Nat) :
    ExpBackoff (backoffAt k) Minute = backoffAt (k + 1) := by
  unfold backoffAt
  have h2 : 2 ^ (k + 1) * Second = 2 ^ k * Second * 2 := by ring
  rw [h2]
  exact backoff_step (2 ^ k * Second) Minute

theorem failedTrace_sleeps (call : Event) (hcall : call.sleepOf = none) (n : Nat) :
    ∀ j : Nat, (failedTrace call n (backoffAt j)).filterMap Event.sleepOf =
      (List.range n).map fun i => backoffAt (j + i) := by
  induction n with
  | zero =>
    intro j
    rfl
  | succ n ih =>
    intro j
    unfold failedTrace
    rw [ExpBackoff_backoffAt, List.filterMap_cons_none hcall]
    simp only [List.filterMap_cons, Event.sleepOf, ih, List.range_succ_eq_map,
      List.map_cons, List.map_map, Nat.add_zero]
    refine congrArg (List.cons _) (List.map_congr_left ?_)
    intro i _
    simp only [Function.comp, Nat.succ_eq_add_one]
    rw [show j + 1 + i = j + (i + 1) by omega]

theorem backoffAt_zero : backoffAt 0 = Second := by decide

/-- Claim C8.  In `Server.Run`, while the call of the heart keeps failing, the
sleeps of the connect loop are, in order, `min (2^k seconds) (60 seconds)` for
`k = 0, 1, 2, ...`, the wait after the `k`-th failed attempt: so it is after
any number of failed attempts with no success, and so it is when the loop ends
at attempt `n`, after `n` sleeps.  The sequence starts 1 s, 2 s, 4 s, 8 s,
16 s, 32 s, 60 s, 60 s, it is non-decreasing, it never exceeds one minute, and
it stays at one minute from the seventh sleep on. -/
theorem C8_connect_backoff (s : Server) (heartOk : Nat → Bool) (fuel : Nat)
    (hfail : ∀ i, i < fuel → heartOk i = false) :
    ((s.connect heartOk fuel 0 Second).2 = false ∧
        (s.connect heartOk fuel 0 Second).1.filterMap Event.sleepOf =
          (List.range fuel).map fun k => min (2 ^ k * Second) Minute) ∧
      (∀ (ok : Nat → Bool) (n f : Nat), (∀ i, i < n → ok i = false) → ok n = true → n < f →
        (s.connect ok f 0 Second).1.filterMap Event.sleepOf =
          (List.range n).map fun k => min (2 ^ k * Second) Minute) ∧
      ((List.range 8).map fun k => min (2 ^ k * Second) Minute) =
        [1 * Second, 2 * Second, 4 * Second, 8 * Second, 16 * Second, 32 * Second,
          60 * Second, 60 * Second] ∧
      (∀ k, min (2 ^ k * Second) Minute ≤ min (2 ^ (k + 1) * Second) Minute) ∧
      (∀ k, min (2 ^ k * Second) Minute ≤ Minute) ∧
      (∀ k, 6 ≤ k → min (2 ^ k * Second) Minute = Minute) := by
  have hsl : ∀ n, (failedTrace s.heartCall n Second).filterMap Event.sleepOf =
      (List.range n).map fun k => min (2 ^ k * Second) Minute := by
    intro n
    have h := failedTrace_sleeps s.heartCall (heartCall_sleepOf s) n 0
    rw [backoffAt_zero] at h
    rw [h]
    apply List.map_congr_left
    intro i _
    rw [Nat.zero_add]
    rfl
  refine ⟨⟨?_, ?_⟩, ?_, by decide, ?_, ?_, ?_⟩
  · rw [connect_of_all_fail s heartOk fuel Second hfail]
  · rw [connect_of_all_fail s heartOk fuel Second hfail]
    exact hsl fuel
  · intro ok n f hf ho hlt
    rw [connect_of_first_ok s ok n f Second hf ho hlt]
    show List.filterMap Event.sleepOf (failedTrace s.heartCall n Second ++ [s.heartCall]) = _
    rw [List.filterMap_append, hsl n, List.filterMap_cons_none (heartCall_sleepOf s)]
    simp
  · intro k
    have h2 : 2 ^ (k + 1) * Second = 2 ^ k * Second * 2 := by ring
    rw [h2]
    exact backoff_mono _ _
  · intro k
    exact Nat.min_le_right _ _
  · intro k hk
    have h1 : 2 ^ 6 ≤ 2 ^ k := Nat.pow_le_pow_right (by decide) hk
    have h2 : 2 ^ 6 * Second ≤ 2 ^ k * Second := Nat.mul_le_mul_right _ h1
    have h3 : Minute ≤ 2 ^ 6 * Second := by decide
    exact Nat.min_eq_right (h3.trans h2)

/-- Witness of C8: with a heart that keeps failing, the first eight sleeps of
the sample server last 1, 2, 4, 8, 16, 32, 60 and 60 seconds. -/
theorem C8_connect_backoff_witness :
    (sampleServer.connect deadHeart 8 0 Second).1.filterMap Event.sleepOf =
      [1 * Second, 2 * Second, 4 * Second, 8 * Second, 16 * Second, 32 * Second,
        60 * Second, 60 * Second] :=
  ((C8_connect_backoff sampleServer deadHeart 8 (fun _ _ => rfl)).1.2).trans (by decide)

/-! ## `Server.Supervise` -/

theorem precedes_append_left (pre rest : List Event) (a b : Event) (h : precedes pre a b) :
    precedes (pre ++ rest) a b := by
  obtain ⟨ha, hb, hlt⟩ := h
  refine ⟨List.mem_append_left _ ha, List.mem_append_left _ hb, ?_⟩
  rw [List.indexOf_append_of_mem ha, List.indexOf_append_of_mem hb]
  exact hlt

/-- The result of `Supervise` on a health failure with the components
finishing in time: the six steps up to the call of `Run`, the events of `Run`,
and, once `Run` has returned, the reset of `restartServer`. -/
theorem Supervise_restart (s : Server) (heartOk : Nat → Bool) (fuel : Nat) :
    s.Supervise false true heartOk fuel =
      if ((s.SetRestartServer true).Run heartOk fuel).2 then
        { server := (s.SetRestartServer true).SetRestartServer false
          trace := [Event.monitorReturn false, Event.closeStopc, Event.aReconcilerPurge,
              Event.waitDone, Event.setRestartServer true, Event.callRun true] ++
            (((s.SetRestartServer true).Run heartOk fuel).1 ++ [Event.setRestartServer false])
          outcome := Outcome.returned }
      else
        { server := s.SetRestartServer true
          trace := [Event.monitorReturn false, Event.closeStopc, Event.aReconcilerPurge,
              Event.waitDone, Event.setRestartServer true, Event.callRun true] ++
            ((s.SetRestartServer true).Run heartOk fuel).1
          outcome := Outcome.running } := by
  by_cases h : ((s.SetRestartServer true).Run heartOk fuel).2 = true
  · rw [if_pos h]
    unfold Server.Supervise
    simp only [Bool.not_false, if_true, h]
    rfl
  · rw [if_neg h]
    unfold Server.Supervise
    simp only [Bool.not_false, if_true, h, Bool.false_eq_true, if_false]
    rfl

theorem Supervise_restart_trace (s : Server) (heartOk : Nat → Bool) (fuel : Nat) :
    ∃ rest, (s.Supervise false true heartOk fuel).trace =
        [Event.monitorReturn false, Event.closeStopc, Event.aReconcilerPurge, Event.waitDone,
          Event.setRestartServer true, Event.callRun true] ++ rest ∧
      ∀ b, Event.callRun b ∉ rest := by
  have hno : ∀ b, Event.callRun b ∉ ((s.SetRestartServer true).Run heartOk fuel).1 :=
    fun b h => absurd (ofRun_of_mem_Run _ heartOk fuel _ h) (by simp [Event.ofRun])
  rw [Supervise_restart]
  split
  · refine ⟨_, rfl, fun b h => ?_⟩
    rcases List.mem_append.1 h with h1 | h1
    · exact hno b h1
    · exact absurd h1 (by simp)
  · exact ⟨_, rfl, hno⟩

theorem Run_returns (s : Server) (heartOk : Nat → Bool) (n fuel : Nat)
    (hfail : ∀ i, i < n → heartOk i = false) (hok : heartOk n = true) (hfuel : n < fuel) :
    (s.Run heartOk fuel).2 = true := by
  unfold Server.Run
  rw [connect_of_first_ok s heartOk n fuel Second hfail hok hfuel]
  rfl

/-- Claim C9.  For every outcome of the monitor.  On an operator kill
(`sd = true`), `Supervise` closes `stopc`, waits for the components, and calls
neither the purge of the reconciler nor `Run`.  On a health failure
(`sd = false`) with the components finishing within `shutdownTimeout`,
`Supervise` purges the locally driven units and calls `Run` exactly once, with
`restartServer` set to true just before; and when the heart succeeds at some
attempt of the restart, `Run` returns and `Supervise` resets `restartServer`
to false afterwards, as its last step.  When the wait exceeds
`shutdownTimeout`, `Supervise` panics and `Run` is not called. -/
theorem C9_supervise_outcomes (s : Server) (heartOk : Nat → Bool) (n fuel : Nat)
    (hfail : ∀ i, i < n → heartOk i = false) (hok : heartOk n = true) (hfuel : n < fuel) :
    (∀ (done : Bool) (ok : Nat → Bool) (f : Nat),
        Event.closeStopc ∈ (s.Supervise true done ok f).trace ∧
        (Event.waitDone ∈ (s.Supervise true done ok f).trace ∨
          Event.waitTimeout shutdownTimeout ∈ (s.Supervise true done ok f).trace) ∧
        Event.aReconcilerPurge ∉ (s.Supervise true done ok f).trace ∧
        (∀ b, Event.callRun b ∉ (s.Supervise true done ok f).trace)) ∧
      (∀ (ok : Nat → Bool) (f : Nat),
        Event.aReconcilerPurge ∈ (s.Supervise false true ok f).trace ∧
        (s.Supervise false true ok f).trace.count (Event.callRun true) = 1 ∧
        Event.callRun false ∉ (s.Supervise false true ok f).trace ∧
        precedes (s.Supervise false true ok f).trace (Event.setRestartServer true)
          (Event.callRun true)) ∧
      ((s.Supervise false true heartOk fuel).outcome = Outcome.returned ∧
        (s.Supervise false true heartOk fuel).trace.getLast? =
          some (Event.setRestartServer false) ∧
        (s.Supervise false true heartOk fuel).server.restartServer = false) ∧
      (∀ (sd : Bool) (ok : Nat → Bool) (f : Nat),
        (s.Supervise sd false ok f).outcome = Outcome.panicked ∧
        Event.panicked ∈ (s.Supervise sd false ok f).trace ∧
        (∀ b, Event.callRun b ∉ (s.Supervise sd false ok f).trace)) := by
  refine ⟨?_, ?_, ?_, ?_⟩
  · intro done ok f
    cases done
    · exact ⟨by simp [Server.Supervise], by simp [Server.Supervise],
        by simp [Server.Supervise], by simp [Server.Supervise]⟩
    · exact ⟨by simp [Server.Supervise], by simp [Server.Supervise],
        by simp [Server.Supervise], by simp [Server.Supervise]⟩
  · intro ok f
    obtain ⟨rest, htr, hno⟩ := Supervise_restart_trace s ok f
    rw [htr]
    refine ⟨by simp, ?_, ?_, precedes_append_left _ _ _ _ (by decide)⟩
    · rw [List.count_append, List.count_eq_zero.2 (hno true)]
      rfl
    · intro h
      rcases List.mem_append.1 h with h1 | h1
      · exact absurd h1 (by decide)
      · exact hno false h1
  · have hret := Run_returns (s.SetRestartServer true) heartOk n fuel hfail hok hfuel
    rw [Supervise_restart, if_pos hret]
    refine ⟨rfl, ?_, rfl⟩
    show List.getLast? (_ ++ (_ ++ [Event.setRestartServer false])) = _
    rw [← List.append_assoc]
    exact List.getLast?_concat _
  · intro sd ok f
    cases sd
    · exact ⟨rfl, by simp [Server.Supervise], by simp [Server.Supervise]⟩
    · exact ⟨rfl, by simp [Server.Supervise], by simp [Server.Supervise]⟩

/-- Witness of C9: a health failure of the sample server, the components
finishing in time and the heart failing three times at the restart, returns
with `restartServer` reset to false. -/
theorem C9_supervise_outcomes_witness :
    (sampleServer.Supervise false true sampleHeart 10).outcome = Outcome.returned ∧
      (sampleServer.Supervise false true sampleHeart 10).server.restartServer = false :=
  ⟨(C9_supervise_outcomes sampleServer sampleHeart 3 10 (by decide) (by decide)
      (by decide)).2.2.1.1,
    (C9_supervise_outcomes sampleServer sampleHeart 3 10 (by decide) (by decide)
      (by decide)).2.2.1.2.2⟩

/-- Claim C10, refuted as stated.  On a health failure of the sample server
with a heart that succeeds at once, `Supervise` purges the locally driven
units right after closing `stopc`, before the wait: the purge does not come
after the end of the wait, and it has been performed when the wait times
out. -/
theorem C10_supervise_order_counterexample :
    (sampleServer.Supervise false true steadyHeart 1).trace =
        [Event.monitorReturn false, Event.closeStopc, Event.aReconcilerPurge,
          Event.waitDone, Event.setRestartServer true, Event.callRun true,
          Event.hrtBeat (30 * Second), Event.goSupervise,
          Event.goComponent Component.apiAvailable,
          Event.goComponent Component.machPeriodicRefresh,
          Event.goComponent Component.agentHeartbeat,
          Event.goComponent Component.aReconcilerRun,
          Event.goComponent Component.usGenRun,
          Event.goComponent Component.usPubRun,
          Event.goComponent Component.engineRun,
          Event.setRestartServer false] ∧
      ¬ precedes (sampleServer.Supervise false true steadyHeart 1).trace Event.waitDone
          Event.aReconcilerPurge ∧
      (sampleServer.Supervise false false steadyHeart 1).outcome = Outcome.panicked ∧
      Event.aReconcilerPurge ∈ (sampleServer.Supervise false false steadyHeart 1).trace := by
  decide

/-- Claim C10, amended.  On a health failure of the monitor the steps of
`Supervise` happen in the order: close `stopc`, purge the locally driven
units, wait for all components up to `shutdownTimeout`, then re-enter `Run`.
The purge happens before the wait, so it has been performed also when the wait
times out; what a timeout skips is the restart: `Supervise` panics and `Run`
is not called. -/
theorem C10_supervise_order_amended (s : Server) (heartOk : Nat → Bool) (fuel : Nat) :
    (precedes (s.Supervise false true heartOk fuel).trace Event.closeStopc
          Event.aReconcilerPurge ∧
        precedes (s.Supervise false true heartOk fuel).trace Event.aReconcilerPurge
          Event.waitDone ∧
        precedes (s.Supervise false true heartOk fuel).trace Event.waitDone
          (Event.callRun true)) ∧
      ((s.Supervise false false heartOk fuel).outcome = Outcome.panicked ∧
        precedes (s.Supervise false false heartOk fuel).trace Event.closeStopc
          Event.aReconcilerPurge ∧
        precedes (s.Supervise false false heartOk fuel).trace Event.aReconcilerPurge
          (Event.waitTimeout shutdownTimeout) ∧
        precedes (s.Supervise false false heartOk fuel).trace
          (Event.waitTimeout shutdownTimeout) Event.panicked ∧
        (∀ b, Event.callRun b ∉ (s.Supervise false false heartOk fuel).trace)) := by
  constructor
  · obtain ⟨rest, htr, _⟩ := Supervise_restart_trace s heartOk fuel
    rw [htr]
    exact ⟨precedes_append_left _ _ _ _ (by decide), precedes_append_left _ _ _ _ (by decide),
      precedes_append_left _ _ _ _ (by decide)⟩
  · have htrace : (s.Supervise false false heartOk fuel).trace =
        [Event.monitorReturn false, Event.closeStopc, Event.aReconcilerPurge,
          Event.waitTimeout shutdownTimeout, Event.panicked] := rfl
    rw [htrace]
    exact ⟨rfl, by decide, by decide, by decide, by simp⟩

/-- Witness of the amended C10 on the sample server, the heart failing three
times at the restart: the purge comes before the end of the wait. -/
theorem C10_supervise_order_amended_witness :
    precedes (sampleServer.Supervise false true sampleHeart 10).trace Event.aReconcilerPurge
      Event.waitDone :=
  (C10_supervise_order_amended sampleServer sampleHeart 10).1.2.1

/-! ## The agent cache -/

theorem mapGet_mapDelete {V : Type} (m : GoMap V) (k k' : String) :
    mapGet (mapDelete m k) k' = if k = k' then none else mapGet m k' := by
  induction m with
  | nil => simp [mapDelete, mapGet]
  | cons e m ih =>
    obtain ⟨k0, v0⟩ := e
    unfold mapDelete at ih ⊢
    by_cases h0 : k0 = k
    · subst h0
      rw [List.filter_cons_of_neg (by simp), ih]
      by_cases h1 : k0 = k'
      · simp [h1]
      · simp [h1, mapGet]
    · rw [List.filter_cons_of_pos (by simpa using h0)]
      by_cases h1 : k0 = k'
      · subst h1
        have h2 : ¬ k = k0 := fun c => h0 c.symm
        simp [mapGet, h2]
      · simp only [mapGet, if_neg h1, ih]

theorem nodup_mapKeys_mapDelete {V : Type} (m : GoMap V) (k : String)
    (hnd : (mapKeys m).Nodup) : (mapKeys (mapDelete m k)).Nodup := by
  unfold mapDelete mapKeys
  exact ((List.filter_sublist _).map Prod.fst).nodup hnd

theorem foldl_collect {V : Type} (p : V → Prop) [DecidablePred p] (m : GoMap V)
    (acc : List String) :
    m.foldl (fun jobs e => if p e.2 then jobs ++ [e.1] else jobs) acc =
      acc ++ (m.filter fun e => decide (p e.2)).map Prod.fst := by
  induction m generalizing acc with
  | nil => simp
  | cons e m ih =>
    rw [List.foldl_cons, ih]
    by_cases h : p e.2
    · simp [h]
    · simp [h]

theorem mem_collect_iff {V : Type} (p : V → Prop) [DecidablePred p] (m : GoMap V)
    (hnd : (mapKeys m).Nodup) (n : String) :
    n ∈ (m.filter fun e => decide (p e.2)).map Prod.fst ↔ ∃ v, mapGet m n = some v ∧ p v := by
  constructor
  · intro h
    obtain ⟨e, he, hn⟩ := List.mem_map.1 h
    obtain ⟨hm, hp⟩ := List.mem_filter.1 he
    refine ⟨e.2, ?_, by simpa using hp⟩
    rw [← hn]
    exact mapGet_of_mem hnd hm
  · rintro ⟨v, hv, hp⟩
    exact List.mem_map.2 ⟨(n, v), List.mem_filter.2 ⟨mem_of_mapGet hv, by simpa using hp⟩, rfl⟩

theorem nodup_collect {V : Type} (p : V → Prop) [DecidablePred p] (m : GoMap V)
    (hnd : (mapKeys m).Nodup) : ((m.filter fun e => decide (p e.2)).map Prod.fst).Nodup :=
  ((List.filter_sublist _).map Prod.fst).nodup hnd

theorem nodup_applyAll (ops : List CacheOp) (ac : agentCache)
    (hnd : (mapKeys ac.jobs).Nodup) : (mapKeys (ac.applyAll ops).jobs).Nodup := by
  unfold agentCache.applyAll
  induction ops generalizing ac with
  | nil => exact hnd
  | cons op ops ih =>
    rw [List.foldl_cons]
    apply ih
    cases op with
    | setTargetState n s => exact nodup_mapKeys_mapSet _ _ _ hnd
    | dropTargetState n => exact nodup_mapKeys_mapDelete _ _ hnd

/-- The cache holds, under each name, the state of the most recent call on the
name when that call is a `setTargetState`, and nothing otherwise. -/
theorem mapGet_applyAll (ops : List CacheOp) (n : String) :
    mapGet (newAgentCache.applyAll ops).jobs n = targetOf ops n := by
  have hgen : ∀ (ops : List CacheOp) (ac : agentCache),
      mapGet (ac.applyAll ops).jobs n =
        match ops.reverse.find? (fun op => decide (op.jobName = n)) with
        | some (CacheOp.setTargetState _ s) => some s
        | some (CacheOp.dropTargetState _) => none
        | none => mapGet ac.jobs n := by
    intro ops
    induction ops with
    | nil =>
      intro ac
      rfl
    | cons op ops ih =>
      intro ac
      have hstep : ac.applyAll (op :: ops) = (ac.apply op).applyAll ops := rfl
      rw [hstep, ih, List.reverse_cons, List.find?_append]
      cases hf : List.find? (fun op => decide (op.jobName = n)) ops.reverse with
      | some o => cases o <;> simp
      | none =>
        cases op with
        | setTargetState k s =>
          by_cases hk : k = n
          · simp [hk, CacheOp.jobName, agentCache.apply, agentCache.setTargetState,
              mapGet_mapSet]
          · simp [hk, CacheOp.jobName, agentCache.apply, agentCache.setTargetState,
              mapGet_mapSet]
        | dropTargetState k =>
          by_cases hk : k = n
          · simp [hk, CacheOp.jobName, agentCache.apply, agentCache.dropTargetState,
              mapGet_mapDelete]
          · simp [hk, CacheOp.jobName, agentCache.apply, agentCache.dropTargetState,
              mapGet_mapDelete]
  rw [hgen ops newAgentCache]
  unfold targetOf lastCall
  cases hf : List.find? (fun op => decide (op.jobName = n)) ops.reverse with
  | none => rfl
  | some o => cases o <;> rfl

theorem targetOf_eq_some_iff (ops : List CacheOp) (n : String) (st : JobState) :
    targetOf ops n = some st ↔ lastCall ops n = some (CacheOp.setTargetState n st) := by
  unfold targetOf
  cases hl : lastCall ops n with
  | none => simp
  | some o =>
    have hname : o.jobName = n := by
      unfold lastCall at hl
      simpa using List.find?_some hl
    cases o with
    | setTargetState k s' =>
      have hk : k = n := hname
      subst hk
      simp
    | dropTargetState k => simp

theorem mem_launchedJobs_iff (ac : agentCache) (hnd : (mapKeys ac.jobs).Nodup) (n : String) :
    n ∈ ac.launchedJobs ↔ mapGet ac.jobs n = some JobState.launched := by
  unfold agentCache.launchedJobs
  rw [foldl_collect (fun st => st = JobStateLaunched), List.nil_append,
    mem_collect_iff (fun st => st = JobStateLaunched) ac.jobs hnd]
  constructor
  · rintro ⟨v, hv, rfl⟩
    exact hv
  · intro h
    exact ⟨_, h, rfl⟩

theorem mem_loadedJobs_iff (ac : agentCache) (hnd : (mapKeys ac.jobs).Nodup) (n : String) :
    n ∈ ac.loadedJobs ↔ mapGet ac.jobs n = some JobState.loaded := by
  unfold agentCache.loadedJobs
  rw [foldl_collect (fun st => st = JobStateLoaded), List.nil_append,
    mem_collect_iff (fun st => st = JobStateLoaded) ac.jobs hnd]
  constructor
  · rintro ⟨v, hv, rfl⟩
    exact hv
  · intro h
    exact ⟨_, h, rfl⟩

/-- Claim C15.  For every sequence `ops` of `setTargetState` and
`dropTargetState` calls on a fresh `agentCache`, in whatever order the map of
the cache is visited afterwards: `launchedJobs()` holds, without duplicates,
exactly the job names whose most recent call is a `setTargetState` to
launched, and `loadedJobs()` exactly those whose most recent call is a
`setTargetState` to loaded; the two results are disjoint, a job whose most
recent call set it to inactive is in neither, and after `dropTargetState(n)`
the name `n` is in neither. -/
theorem C15_agent_cache_jobs (ops : List CacheOp) (ac : agentCache)
    (hac : ac.jobs.Perm (newAgentCache.applyAll ops).jobs) :
    (∀ n, n ∈ ac.launchedJobs ↔
        lastCall ops n = some (CacheOp.setTargetState n JobState.launched)) ∧
      ac.launchedJobs.Nodup ∧
      (∀ n, n ∈ ac.loadedJobs ↔
        lastCall ops n = some (CacheOp.setTargetState n JobState.loaded)) ∧
      ac.loadedJobs.Nodup ∧
      (∀ n, n ∈ ac.launchedJobs → n ∉ ac.loadedJobs) ∧
      (∀ n, lastCall ops n = some (CacheOp.setTargetState n JobState.inactive) →
        n ∉ ac.launchedJobs ∧ n ∉ ac.loadedJobs) ∧
      (∀ n, n ∉ (ac.dropTargetState n).launchedJobs ∧ n ∉ (ac.dropTargetState n).loadedJobs) := by
  have hnd0 : (mapKeys (newAgentCache.applyAll ops).jobs).Nodup :=
    nodup_applyAll ops newAgentCache (by simp [newAgentCache, mapKeys])
  have hnd : (mapKeys ac.jobs).Nodup := (hac.map Prod.fst).nodup_iff.2 hnd0
  have hget : ∀ n, mapGet ac.jobs n = targetOf ops n := by
    intro n
    rw [mapGet_perm hac hnd0, mapGet_applyAll]
  have hlaunched : ∀ n, n ∈ ac.launchedJobs ↔
      lastCall ops n = some (CacheOp.setTargetState n JobState.launched) := by
    intro n
    rw [mem_launchedJobs_iff ac hnd, hget, targetOf_eq_some_iff]
  have hloaded : ∀ n, n ∈ ac.loadedJobs ↔
      lastCall ops n = some (CacheOp.setTargetState n JobState.loaded) := by
    intro n
    rw [mem_loadedJobs_iff ac hnd, hget, targetOf_eq_some_iff]
  have hdrop : ∀ n, (mapKeys (ac.dropTargetState n).jobs).Nodup :=
    fun n => nodup_mapKeys_mapDelete _ _ hnd
  refine ⟨hlaunched, ?_, hloaded, ?_, ?_, ?_, ?_⟩
  · unfold agentCache.launchedJobs
    rw [foldl_collect (fun st => st = JobStateLaunched), List.nil_append]
    exact nodup_collect (fun st => st = JobStateLaunched) _ hnd
  · unfold agentCache.loadedJobs
    rw [foldl_collect (fun st => st = JobStateLoaded), List.nil_append]
    exact nodup_collect (fun st => st = JobStateLoaded) _ hnd
  · intro n h1 h2
    rw [hlaunched] at h1
    rw [hloaded, h1] at h2
    cases h2
  · intro n h
    constructor
    · intro c
      rw [hlaunched, h] at c
      cases c
    · intro c
      rw [hloaded, h] at c
      cases c
  · intro n
    constructor
    · intro c
      rw [mem_launchedJobs_iff _ (hdrop n)] at c
      simp [agentCache.dropTargetState, mapGet_mapDelete] at c
    · intro c
      rw [mem_loadedJobs_iff _ (hdrop n)] at c
      simp [agentCache.dropTargetState, mapGet_mapDelete] at c

/-- Witness of C15 on the sample sequence: `a.service` was set to launched then
to inactive, `b.service` was loaded then dropped; `c.service` is the launched
job and `d.service` the loaded one. -/
theorem C15_agent_cache_jobs_witness :
    (newAgentCache.applyAll sampleCacheOps).launchedJobs = ["c.service"] ∧
      (newAgentCache.applyAll sampleCacheOps).loadedJobs = ["d.service"] ∧
      ("c.service" ∈ (newAgentCache.applyAll sampleCacheOps).launchedJobs ↔
        lastCall sampleCacheOps "c.service" =
          some (CacheOp.setTargetState "c.service" JobState.launched)) :=
  ⟨by decide, by decide,
    (C15_agent_cache_jobs sampleCacheOps (newAgentCache.applyAll sampleCacheOps)
      (List.Perm.refl _)).1 "c.service"⟩

/-! ## `findAddressInMachineList` -/

theorem findAddressLoop_some (lookup : String) (states : List MachineState)
    (m₀ : MachineState) :
    findAddressLoop lookup states (some m₀) =
      if machinesMatching lookup states = [] then
        { addr := m₀.PublicIP, ok := true, err := none }
      else { addr := "", ok := false, err := some "found more than one machine" } := by
  induction states with
  | nil => rfl
  | cons x states ih =>
    unfold findAddressLoop
    by_cases hp : stringsHasPrefix x.ID lookup = true
    · simp [hp, machinesMatching]
    · have hm : machinesMatching lookup (x :: states) = machinesMatching lookup states := by
        simp [machinesMatching, hp]
      simp only [hp, Bool.not_false, if_true, hm, Bool.false_eq_true, not_false_eq_true,
        Bool.not_eq_true, Bool.not_eq_true']
      simpa using ih

theorem findAddressLoop_none (lookup : String) (states : List MachineState) :
    findAddressLoop lookup states none =
      match machinesMatching lookup states with
      | [] => { addr := "", ok := false, err := some "machine does not exist" }
      | [m] => { addr := m.PublicIP, ok := true, err := none }
      | _ :: _ :: _ => { addr := "", ok := false, err := some "found more than one machine" } := by
  induction states with
  | nil => rfl
  | cons x states ih =>
    unfold findAddressLoop
    by_cases hp : stringsHasPrefix x.ID lookup = true
    · have hm : machinesMatching lookup (x :: states) = x :: machinesMatching lookup states := by
        simp [machinesMatching, hp]
      simp only [hp, Bool.not_true, Bool.false_eq_true, if_false, hm, findAddressLoop_some]
      cases hr : machinesMatching lookup states with
      | nil => simp
      | cons y ys => simp
    · have hm : machinesMatching lookup (x :: states) = machinesMatching lookup states := by
        simp [machinesMatching, hp]
      have hp' : stringsHasPrefix x.ID lookup = false := by simpa using hp
      simp only [hp', Bool.not_false, if_true, hm]
      exact ih

theorem stringsHasPrefix_empty (s : String) : stringsHasPrefix s "" = true := by
  unfold stringsHasPrefix
  simp

theorem stringsHasPrefix_self (s : String) : stringsHasPrefix s s = true := by
  unfold stringsHasPrefix
  simp

/-- Claim C16.  For every machine list `states` that the API returns without
error and every lookup string: `findAddressInMachineList` returns the public
address of `m`, true and no error if and only if `m` is the only machine of
the list whose ID has the lookup as a prefix; it returns `ok = false` with the
error `found more than one machine` when two or more machines have that
prefix, also when the lookup is the full ID of one of them, and always for the
empty lookup with two or more machines; and `ok = false` with the error
`machine does not exist` when no machine has that prefix. -/
theorem C16_find_address_in_machine_list (c : Client) (states : List MachineState)
    (hapi : c.Machines = Except.ok states) (lookup : String) :
    (∀ m, machinesMatching lookup states = [m] →
        findAddressInMachineList c lookup = { addr := m.PublicIP, ok := true, err := none }) ∧
      ((findAddressInMachineList c lookup).ok = true →
        ∃ m, machinesMatching lookup states = [m] ∧
          findAddressInMachineList c lookup =
            { addr := m.PublicIP, ok := true, err := none }) ∧
      (2 ≤ (machinesMatching lookup states).length →
        findAddressInMachineList c lookup =
          { addr := "", ok := false, err := some "found more than one machine" }) ∧
      (machinesMatching lookup states = [] →
        findAddressInMachineList c lookup =
          { addr := "", ok := false, err := some "machine does not exist" }) ∧
      (∀ (l₁ l₂ : List MachineState) (m m' : MachineState), states = l₁ ++ m :: l₂ →
        m.ID = lookup → m' ∈ l₁ ++ l₂ → stringsHasPrefix m'.ID lookup = true →
        findAddressInMachineList c lookup =
          { addr := "", ok := false, err := some "found more than one machine" }) ∧
      (lookup = "" → 2 ≤ states.length →
        findAddressInMachineList c lookup =
          { addr := "", ok := false, err := some "found more than one machine" }) := by
  have hres : findAddressInMachineList c lookup =
      match machinesMatching lookup states with
      | [] => { addr := "", ok := false, err := some "machine does not exist" }
      | [m] => { addr := m.PublicIP, ok := true, err := none }
      | _ :: _ :: _ => { addr := "", ok := false, err := some "found more than one machine" } := by
    unfold findAddressInMachineList
    rw [hapi]
    exact findAddressLoop_none lookup states
  have hmany : 2 ≤ (machinesMatching lookup states).length →
      findAddressInMachineList c lookup =
        { addr := "", ok := false, err := some "found more than one machine" } := by
    intro h
    rw [hres]
    cases hm : machinesMatching lookup states with
    | nil => simp [hm] at h
    | cons x xs =>
      cases xs with
      | nil => simp [hm] at h
      | cons y ys => rfl
  refine ⟨?_, ?_, hmany, ?_, ?_, ?_⟩
  · intro m hm
    rw [hres, hm]
  · intro hok
    rw [hres] at hok ⊢
    cases hm : machinesMatching lookup states with
    | nil => simp [hm] at hok
    | cons x xs =>
      cases xs with
      | nil => exact ⟨x, rfl, rfl⟩
      | cons y ys => simp [hm] at hok
  · intro hm
    rw [hres, hm]
  · intro l₁ l₂ m m' hst hid hmem hpre
    apply hmany
    have hself : stringsHasPrefix m.ID lookup = true := by
      rw [hid]
      exact stringsHasPrefix_self lookup
    rw [hst]
    unfold machinesMatching
    have hcons : List.filter (fun m => stringsHasPrefix m.ID lookup) (m :: l₂) =
        m :: List.filter (fun m => stringsHasPrefix m.ID lookup) l₂ :=
      List.filter_cons_of_pos hself
    rw [List.filter_append, hcons, List.length_append, List.length_cons]
    rcases List.mem_append.1 hmem with h | h
    · have : m' ∈ l₁.filter fun m => stringsHasPrefix m.ID lookup :=
        List.mem_filter.2 ⟨h, hpre⟩
      have := List.length_pos_of_mem this
      omega
    · have : m' ∈ l₂.filter fun m => stringsHasPrefix m.ID lookup :=
        List.mem_filter.2 ⟨h, hpre⟩
      have := List.length_pos_of_mem this
      omega
  · intro hl hlen
    apply hmany
    have : machinesMatching lookup states = states := by
      unfold machinesMatching
      rw [hl]
      exact List.filter_eq_self.2 fun m _ => stringsHasPrefix_empty m.ID
    rw [this]
    exact hlen

/-- Witness of C16 on the sample client: `m2` is the prefix of one ID and gives
the address of that machine; `m1` is the full ID of one machine and a prefix
of the ID `m10` of another, and gives the error. -/
theorem C16_find_address_in_machine_list_witness :
    findAddressInMachineList sampleClient "m2" =
        { addr := "10.0.0.2", ok := true, err := none } ∧
      findAddressInMachineList sampleClient "m1" =
        { addr := "", ok := false, err := some "found more than one machine" } :=
  ⟨(C16_find_address_in_machine_list sampleClient [machine1, machine2, machine10] rfl
      "m2").1 machine2 (by decide),
    (C16_find_address_in_machine_list sampleClient [machine1, machine2, machine10] rfl
      "m1").2.2.2.2.1 [] [machine2, machine10] machine1 machine10 rfl rfl (by decide)
      (by decide)⟩

/-! ## `globalMachineLookup` and `findSSHPort` -/

theorem findAddressInMachineList_of_matches (c : Client) (lookup : String) (m : MachineState)
    (h : matchesMachine c lookup m) :
    findAddressInMachineList c lookup = { addr := m.PublicIP, ok := true, err := none } := by
  obtain ⟨states, hs, hm⟩ := h
  unfold findAddressInMachineList
  rw [hs]
  simp only
  rw [findAddressLoop_none, hm]

theorem matches_of_findAddressInMachineList (c : Client) (lookup : String)
    (h : (findAddressInMachineList c lookup).ok = true) : ∃ m, matchesMachine c lookup m := by
  unfold findAddressInMachineList at h
  cases hs : c.Machines with
  | error e => rw [hs] at h; simp at h
  | ok states =>
    rw [hs] at h
    simp only at h
    rw [findAddressLoop_none] at h
    cases hm : machinesMatching lookup states with
    | nil => rw [hm] at h; simp at h
    | cons x xs =>
      cases xs with
      | nil => exact ⟨x, states, hs, hm⟩
      | cons y ys => rw [hm] at h; simp at h

theorem findAddressInRunningUnits_of_matches (c : Client) (lookup : String)
    (ms : MachineState) (h : matchesRunningUnit c lookup ms) :
    findAddressInRunningUnits c lookup = { addr := ms.PublicIP, ok := true, err := none } := by
  obtain ⟨u, hu, hg, hm, hip⟩ := h
  unfold findAddressInRunningUnits
  simp only [hu, hg, hm, Bool.false_eq_true, if_false, ne_eq, hip, not_false_eq_true, if_true]

theorem matches_of_findAddressInRunningUnits (c : Client) (lookup : String)
    (h : (findAddressInRunningUnits c lookup).ok = true) :
    ∃ ms, matchesRunningUnit c lookup ms := by
  unfold findAddressInRunningUnits at h
  simp only at h
  cases hu : c.Unit (c.unitNameMangle lookup) with
  | error e => rw [hu] at h; simp at h
  | ok o =>
    cases o with
    | none => rw [hu] at h; simp at h
    | some u =>
      rw [hu] at h
      simp only at h
      cases hg : c.suToGlobal u with
      | true => rw [hg] at h; simp at h
      | false =>
        rw [hg] at h
        simp only [Bool.false_eq_true, if_false] at h
        cases hm : c.cachedMachineState u.MachineID with
        | none => rw [hm] at h; simp at h
        | some ms =>
          rw [hm] at h
          simp only at h
          by_cases hip : ms.PublicIP = ""
          · simp [hip] at h
          · exact ⟨ms, u, hu, hg, hm, hip⟩

/-- Claim C13.  `globalMachineLookup` detects whether the first argument is a
machine or a unit.  For every argument list it returns the error `one machine
or unit must be provided` when the list is empty.  Otherwise, with `a` the
first argument: when `a` matches a machine `m`, the only machine that
`cAPI.Machines()` lists whose ID has `a` as a prefix, and no running unit, it
returns the public IP of `m` and no error; when `a` matches a running unit,
a unit that `cAPI.Unit` knows under the mangled `a`, not global, whose machine
has the cached state `ms` with a public IP, and no machine, it returns the
public IP of `ms` and no error; when `a` matches both it returns no address and
the error whose message is `ambiguous argument, both machine and unit found
for` followed by `a` between backquotes and the advice to use the flag `-m` or
`-u`; when `a` matches neither it returns no address and the error `could not
find matching unit or machine`.  To match a machine is to have
`findAddressInMachineList` succeed with its public IP, to match a running unit
is to have `findAddressInRunningUnits` succeed with the public IP of its
machine.  It returns an error exactly when it does not return the address of a
successful match, that is unless the list is not empty and `a` matches a
machine and no running unit, or a running unit and no machine. -/
theorem C13_global_machine_lookup (c : Client) (args : List String) :
    (args = [] →
        globalMachineLookup c args = ("", some "one machine or unit must be provided")) ∧
      (∀ a rest, args = a :: rest →
        (∀ m, matchesMachine c a m → (¬ ∃ ms, matchesRunningUnit c a ms) →
          globalMachineLookup c args = (m.PublicIP, none)) ∧
        (∀ ms, matchesRunningUnit c a ms → (¬ ∃ m, matchesMachine c a m) →
          globalMachineLookup c args = (ms.PublicIP, none)) ∧
        (∀ m ms, matchesMachine c a m → matchesRunningUnit c a ms →
          globalMachineLookup c args =
            ("", some ("ambiguous argument, both machine and unit found for `" ++ a ++
              "`.\nPlease use flag `-m` or `-u` to refine the search"))) ∧
        ((¬ ∃ m, matchesMachine c a m) → (¬ ∃ ms, matchesRunningUnit c a ms) →
          globalMachineLookup c args = ("", some "could not find matching unit or machine")) ∧
        ((findAddressInMachineList c a).ok = true ↔
          ∃ m, matchesMachine c a m ∧
            findAddressInMachineList c a = { addr := m.PublicIP, ok := true, err := none }) ∧
        ((findAddressInRunningUnits c a).ok = true ↔
          ∃ ms, matchesRunningUnit c a ms ∧
            findAddressInRunningUnits c a =
              { addr := ms.PublicIP, ok := true, err := none })) ∧
      ((globalMachineLookup c args).2 ≠ none ↔
        ¬ ∃ a rest, args = a :: rest ∧
          (((∃ m, matchesMachine c a m) ∧ ¬ ∃ ms, matchesRunningUnit c a ms) ∨
            ((∃ ms, matchesRunningUnit c a ms) ∧ ¬ ∃ m, matchesMachine c a m))) := by
  have hM : ∀ a, (findAddressInMachineList c a).ok = false ↔ ¬ ∃ m, matchesMachine c a m := by
    intro a
    constructor
    · rintro h ⟨m, hm⟩
      rw [findAddressInMachineList_of_matches c a m hm] at h
      simp at h
    · intro h
      cases hok : (findAddressInMachineList c a).ok with
      | false => rfl
      | true => exact absurd (matches_of_findAddressInMachineList c a hok) h
  have hU : ∀ a, (findAddressInRunningUnits c a).ok = false ↔
      ¬ ∃ ms, matchesRunningUnit c a ms := by
    intro a
    constructor
    · rintro h ⟨ms, hms⟩
      rw [findAddressInRunningUnits_of_matches c a ms hms] at h
      simp at h
    · intro h
      cases hok : (findAddressInRunningUnits c a).ok with
      | false => rfl
      | true => exact absurd (matches_of_findAddressInRunningUnits c a hok) h
  refine ⟨?_, ?_, ?_⟩
  · intro h
    rw [h]
    rfl
  · intro a rest h
    rw [h]
    refine ⟨?_, ?_, ?_, ?_, ?_, ?_⟩
    · intro m hm hn
      have h2 := (hU a).2 hn
      simp [globalMachineLookup, findAddressInMachineList_of_matches c a m hm, h2]
    · intro ms hms hn
      have h1 := (hM a).2 hn
      simp [globalMachineLookup, findAddressInRunningUnits_of_matches c a ms hms, h1]
    · intro m ms hm hms
      simp [globalMachineLookup, findAddressInMachineList_of_matches c a m hm,
        findAddressInRunningUnits_of_matches c a ms hms, ambiguousArgument]
    · intro hn1 hn2
      have h1 := (hM a).2 hn1
      have h2 := (hU a).2 hn2
      simp [globalMachineLookup, h1, h2]
    · constructor
      · intro hok
        obtain ⟨m, hm⟩ := matches_of_findAddressInMachineList c a hok
        exact ⟨m, hm, findAddressInMachineList_of_matches c a m hm⟩
      · rintro ⟨m, _, he⟩
        rw [he]
    · constructor
      · intro hok
        obtain ⟨ms, hms⟩ := matches_of_findAddressInRunningUnits c a hok
        exact ⟨ms, hms, findAddressInRunningUnits_of_matches c a ms hms⟩
      · rintro ⟨ms, _, he⟩
        rw [he]
  · cases args with
    | nil => simp [globalMachineLookup]
    | cons a rest =>
      by_cases h1 : ∃ m, matchesMachine c a m <;> by_cases h2 : ∃ ms, matchesRunningUnit c a ms
      · obtain ⟨m, hm⟩ := h1
        obtain ⟨ms, hms⟩ := h2
        have e1 := findAddressInMachineList_of_matches c a m hm
        have e2 := findAddressInRunningUnits_of_matches c a ms hms
        have hx1 : ∃ m, matchesMachine c a m := ⟨m, hm⟩
        have hx2 : ∃ ms, matchesRunningUnit c a ms := ⟨ms, hms⟩
        simp [globalMachineLookup, e1, e2, hx1, hx2]
      · obtain ⟨m, hm⟩ := h1
        have e1 := findAddressInMachineList_of_matches c a m hm
        have e2 := (hU a).2 h2
        have hx1 : ∃ m, matchesMachine c a m := ⟨m, hm⟩
        simp [globalMachineLookup, e1, e2, hx1, h2]
      · obtain ⟨ms, hms⟩ := h2
        have e1 := (hM a).2 h1
        have e2 := findAddressInRunningUnits_of_matches c a ms hms
        have hx2 : ∃ ms, matchesRunningUnit c a ms := ⟨ms, hms⟩
        simp [globalMachineLookup, e1, e2, hx2, h1]
      · have e1 := (hM a).2 h1
        have e2 := (hU a).2 h2
        simp [globalMachineLookup, e1, e2, h1, h2]

/-- Witness of C13 on the sample client: `m10` is a machine only, the unit
`web.service` runs on `m2`, `m2` is both a machine and the unit `m2.service`,
and `zz` is neither. -/
theorem C13_global_machine_lookup_witness :
    globalMachineLookup sampleClient [] = ("", some "one machine or unit must be provided") ∧
      globalMachineLookup sampleClient ["m10"] = ("10.0.0.10", none) ∧
      globalMachineLookup sampleClient ["web.service", "ls"] = ("10.0.0.2", none) ∧
      globalMachineLookup sampleClient ["m2"] =
        ("", some ("ambiguous argument, both machine and unit found for `m2`." ++
          "\nPlease use flag `-m` or `-u` to refine the search")) ∧
      globalMachineLookup sampleClient ["zz"] =
        ("", some "could not find matching unit or machine") :=
  ⟨(C13_global_machine_lookup sampleClient []).1 rfl,
    ((C13_global_machine_lookup sampleClient ["m10"]).2.1 "m10" [] rfl).1 machine10
      ⟨[machine1, machine2, machine10], rfl, by decide⟩
      (fun ⟨_, _, hu, _⟩ => by simp [sampleClient] at hu),
    ((C13_global_machine_lookup sampleClient ["web.service", "ls"]).2.1 "web.service" ["ls"]
      rfl).2.1 machine2
      ⟨{ Name := "web.service", MachineID := "m2" }, rfl, rfl, rfl, by decide⟩
      (fun ⟨_, _, hs, hm⟩ => by
        simp [sampleClient] at hs
        subst hs
        simp [machinesMatching, stringsHasPrefix, machine1, machine2, machine10] at hm),
    ((C13_global_machine_lookup sampleClient ["m2"]).2.1 "m2" [] rfl).2.2.1 machine2 machine1
      ⟨[machine1, machine2, machine10], rfl, by decide⟩
      ⟨{ Name := "m2.service", MachineID := "m1" }, rfl, rfl, rfl, by decide⟩,
    ((C13_global_machine_lookup sampleClient ["zz"]).2.1 "zz" [] rfl).2.2.2.1
      (fun ⟨_, _, hs, hm⟩ => by
        simp [sampleClient] at hs
        subst hs
        simp [machinesMatching, stringsHasPrefix, machine1, machine2, machine10] at hm)
      (fun ⟨_, _, hu, _⟩ => by simp [sampleClient] at hu)⟩

theorem stringsContains_colon_iff (s : String) :
    stringsContains s ":" = true ↔ ':' ∈ s.data := by
  unfold stringsContains
  rw [decide_eq_true_iff]
  show [':'] <:+: s.data ↔ _
  constructor
  · rintro ⟨l₁, l₂, h⟩
    rw [← h]
    simp
  · intro h
    obtain ⟨l₁, l₂, h'⟩ := List.append_of_mem h
    exact ⟨l₁, l₂, by rw [h']; simp⟩

theorem stringsContains_JoinHostPort (host port : String) :
    stringsContains (JoinHostPort host port) ":" = true := by
  rw [stringsContains_colon_iff]
  unfold JoinHostPort
  split
  · have : "]:".data = [']', ':'] := rfl
    simp [String.data_append, this]
  · have : ":".data = [':'] := rfl
    simp [String.data_append, this]

/-- Claim C17.  `findSSHPort` is idempotent and never overrides an explicit
port.  For every address `addr` and every value `p` of the flag `--ssh-port`:
`findSSHPort` returns `addr` unchanged when `p = 22` or `addr` holds a colon,
and otherwise `net.JoinHostPort(addr, p)`, which is `addr`, a colon and `p` in
decimal; the result of `net.JoinHostPort` always holds a colon; hence
`findSSHPort` applied to its own result returns that result unchanged. -/
theorem C17_findSSHPort_idempotent (p : Int) (addr : String) :
    ((p = 22 ∨ stringsContains addr ":" = true) → findSSHPort p addr = addr) ∧
      (p ≠ 22 → stringsContains addr ":" = false →
        findSSHPort p addr = JoinHostPort addr (Itoa p) ∧
          findSSHPort p addr = addr ++ ":" ++ Itoa p) ∧
      (∀ host port, stringsContains (JoinHostPort host port) ":" = true) ∧
      findSSHPort p (findSSHPort p addr) = findSSHPort p addr := by
  have hkeep : ∀ a : String, (p = 22 ∨ stringsContains a ":" = true) → findSSHPort p a = a := by
    intro a h
    unfold findSSHPort
    rcases h with h | h
    · simp [h]
    · simp [h]
  refine ⟨hkeep addr, ?_, stringsContains_JoinHostPort, ?_⟩
  · intro hp hc
    have h1 : findSSHPort p addr = JoinHostPort addr (Itoa p) := by
      unfold findSSHPort
      simp [hp, hc]
    refine ⟨h1, ?_⟩
    rw [h1]
    unfold JoinHostPort
    simp [hc]
  · by_cases hp : p = 22
    · rw [hkeep addr (Or.inl hp)]
      exact hkeep addr (Or.inl hp)
    · by_cases hc : stringsContains addr ":" = true
      · rw [hkeep addr (Or.inr hc)]
        exact hkeep addr (Or.inr hc)
      · have h1 : findSSHPort p addr = JoinHostPort addr (Itoa p) := by
          unfold findSSHPort
          simp [hp, hc]
        rw [h1]
        exact hkeep _ (Or.inr (stringsContains_JoinHostPort _ _))

/-- Witness of C17: an address with an explicit port is kept, whatever the
flag. -/
theorem C17_findSSHPort_idempotent_witness :
    findSSHPort 422 "10.0.0.1:2222" = "10.0.0.1:2222" ∧
      findSSHPort 22 "10.0.0.1" = "10.0.0.1" :=
  ⟨(C17_findSSHPort_idempotent 422 "10.0.0.1:2222").1 (Or.inr (by decide)),
    (C17_findSSHPort_idempotent 22 "10.0.0.1").1 (Or.inl rfl)⟩

/-! ## `metrics/metrics.go` -/

/-- Claim C11, on the code: `ReportEngineLeader` adds the epoch second to the
gauge `fleet_engine_leader_start_time` instead of setting it.  After a call at
epoch second `t` the gauge holds its value before the call plus `t`, whatever
the calls before; the other functions leave the gauge as it is.  From a new
gauge the first call leaves `t`; after a call at 1700000000 a call at
1700000060 leaves 3400000060, not 1700000060. -/
theorem C11_leader_start_time_accumulates :
    (∀ (calls : List MetricCall) (t : Int),
        ((newGauges.applyAll calls).apply (MetricCall.ReportEngineLeader t)).leaderGauge =
          (newGauges.applyAll calls).leaderGauge + t) ∧
      (∀ (g : Gauges) (call : MetricCall), Collector.leaderGauge ∉ call.collectors →
        (g.apply call).leaderGauge = g.leaderGauge) ∧
      (∀ t : Int, (newGauges.applyAll [MetricCall.ReportEngineLeader t]).leaderGauge = t) ∧
      (newGauges.applyAll [MetricCall.ReportEngineLeader 1700000000,
          MetricCall.ReportEngineLeader 1700000060]).leaderGauge = 3400000060 ∧
      (newGauges.applyAll [MetricCall.ReportEngineLeader 1700000000,
          MetricCall.ReportEngineLeader 1700000060]).leaderGauge ≠ 1700000060 := by
  refine ⟨fun _ _ => rfl, ?_, ?_, by decide, by decide⟩
  · intro g call h
    cases call with
    | ReportHealth healthy => cases healthy <;> rfl
    | ReportEngineLeader t => simp [MetricCall.collectors] at h
    | _ => rfl
  · intro t
    show (0 : Int) + t = t
    exact Int.zero_add t

/-- Claim C12, on the code: `init` registers eleven of the fifteen collectors.
The registry success counter, the registry failure counter, the registry
latency histogram and the reconcile-duration histogram are not passed to
`MustRegister`, although `ReportRegistryOpSuccess`, `ReportRegistryOpFailure`
and `ReportEngineReconcileSuccess` update them, for each of the operations
get, set and get_all.  Every collector of every other function is
registered. -/
theorem C12_unregistered_collectors :
    Collector.registryOpCount ∉ metricsInit ∧
      Collector.registryOpFailureCount ∉ metricsInit ∧
      Collector.registryOpDuration ∉ metricsInit ∧
      Collector.engineReconcileDuration ∉ metricsInit ∧
      (∀ (op : registryOp) (elapsed : Duration),
        Collector.registryOpCount ∈ (MetricCall.ReportRegistryOpSuccess op elapsed).collectors ∧
        Collector.registryOpDuration ∈
          (MetricCall.ReportRegistryOpSuccess op elapsed).collectors ∧
        Collector.registryOpFailureCount ∈ (MetricCall.ReportRegistryOpFailure op).collectors) ∧
      (∀ elapsed : Duration, Collector.engineReconcileDuration ∈
        (MetricCall.ReportEngineReconcileSuccess elapsed).collectors) ∧
      ¬ (∀ (call : MetricCall), ∀ col ∈ call.collectors, col ∈ metricsInit) ∧
      (∀ (call : MetricCall), ∀ col ∈ call.collectors, col ∉ metricsInit →
        col = Collector.registryOpCount ∨ col = Collector.registryOpFailureCount ∨
          col = Collector.registryOpDuration ∨ col = Collector.engineReconcileDuration) := by
  refine ⟨by decide, by decide, by decide, by decide, ?_, ?_, ?_, ?_⟩
  · intro op elapsed
    exact ⟨by simp [MetricCall.collectors], by simp [MetricCall.collectors],
      by simp [MetricCall.collectors]⟩
  · intro elapsed
    simp [MetricCall.collectors]
  · intro h
    exact absurd (h (MetricCall.ReportRegistryOpFailure registryOp.Get)
      Collector.registryOpFailureCount (by simp [MetricCall.collectors])) (by decide)
  · intro call col hcol hnot
    cases call <;> simp [MetricCall.collectors] at hcol <;>
      first
      | (subst hcol; first | exact absurd (by decide) hnot | simp)
      | (rcases hcol with rfl | rfl <;> first | exact absurd (by decide) hnot | simp)

/-! ## `listUnitsFields` -/

/-- Claim C14.  For every unit state whose hash `h` has at least seven
characters, the function of `listUnitsFields` for `hash` returns `h` itself
when `full` is true and exactly the first seven characters of `h` when `full`
is false; and for a nil unit state the function of each of the fields `unit`,
`load`, `active`, `sub`, `machine` and `hash` returns `-`. -/
theorem C14_listUnitsFields_hash (machineLegend : String → Bool → String) (us : UnitState)
    (h7 : 7 ≤ us.Hash.length) :
    (∃ f, listUnitsFields machineLegend "hash" = some f ∧
        f (some us) true = us.Hash ∧
        (f (some us) false).length = 7 ∧
        (f (some us) false).data <+: us.Hash.data ∧
        f (some us) false = sliceTo us.Hash 7) ∧
      (∀ field ∈ ["unit", "load", "active", "sub", "machine", "hash"],
        ∃ f, listUnitsFields machineLegend field = some f ∧ ∀ full, f none full = "-") := by
  constructor
  · refine ⟨_, rfl, rfl, ?_, ?_, rfl⟩
    · show (sliceTo us.Hash 7).length = 7
      unfold sliceTo
      simp only [String.length, List.length_take]
      exact Nat.min_eq_left h7
    · show (sliceTo us.Hash 7).data <+: us.Hash.data
      exact List.take_prefix _ _
  · intro field hf
    simp only [List.mem_cons, List.mem_singleton, List.not_mem_nil, or_false] at hf
    rcases hf with rfl | rfl | rfl | rfl | rfl | rfl <;> exact ⟨_, rfl, fun _ => rfl⟩

/-- Witness of C14 on the unit state of the test: the short hash is
`a0f275d`. -/
theorem C14_listUnitsFields_hash_witness :
    7 ≤ sleepUnitState.Hash.length ∧
      ∃ f, listUnitsFields (fun id _ => id) "hash" = some f ∧
        f (some sleepUnitState) true = "a0f275d46bc6ee0eca06be7c339913c07d99c0c7" ∧
        f (some sleepUnitState) false = "a0f275d" := by
  refine ⟨by decide, ?_⟩
  obtain ⟨⟨f, hf, h1, _, _, h2⟩, _⟩ :=
    C14_listUnitsFields_hash (fun id _ => id) sleepUnitState (by decide)
  exact ⟨f, hf, h1, h2.trans (by decide)⟩

end Fleet
